import Mathlib

/-!
# Natron playback engine: `VideoEngine` and its `DAG`

A shallow embedding of `src/Core/VideoEngine.cpp` and the properties of its specification: the
dependency graph (`DAG::fillGraph`, `DAG::topologicalSort`, `DAG::resetAndSort`), the queue of
deferred tasks (`appendTask`, `runTasks`) and the playback state machine (`videoEngine`,
`computeFrameRequest`, `computeTreeForFrame`, `finishComputeFrameRequest`, `engineLoop`).
-/

namespace Natron

/-! ## Node graph and `VideoEngine::DAG` (src/Core/VideoEngine.cpp, lines 846-915) -/

/-- The node heap as the DAG code reads it: `Node::getParents()` and `Node::isInputNode()`.
Nodes (`Node*`) are the elements of `ν`, compared by identity. -/
structure NodeGraph (ν : Type) where
  getParents : ν → List ν
  isInputNode : ν → Bool

/-- The member-function pointer `_validate` of `VideoEngine::DAG`. -/
inductive ValidateFn where
  | validate
  | validateInputs
  deriving DecidableEq, Repr

/-- The fields of `VideoEngine::DAG`. -/
structure DAG (ν : Type) where
  _output : Option ν
  _isViewer : Bool
  _validate : ValidateFn
  _hasValidated : Bool
  _graph : List ν
  _sorted : List ν
  _inputs : List ν

/-- A DAG together with the `marked` flag that every node carries (`Node::isMarked()`). -/
structure GraphState (ν : Type) where
  dag : DAG ν
  marked : ν → Bool

section dag
variable {ν : Type} [DecidableEq ν]

/-- Call `n->setMarked(b)`. -/
def setMarked (m : ν → Bool) (n : ν) (b : Bool) : ν → Bool :=
  fun k => if k = n then b else m k

/-- Function `VideoEngine::DAG::fillGraph(Node* n)`; the recursion over the parents is bounded by
`fuel` (`none` when it runs out). The parents are visited whether or not `n` was already
recorded. -/
def fillGraph (G : NodeGraph ν) : Nat → ν → GraphState ν → Option (GraphState ν)
  | 0, _, _ => none
  | fuel + 1, n, s =>
    let s1 : GraphState ν :=
      if n ∈ s.dag._graph then s
      else
        { dag := { s.dag with
                    _graph := s.dag._graph ++ [n],
                    _inputs := if G.isInputNode n then s.dag._inputs ++ [n] else s.dag._inputs },
          marked := setMarked s.marked n false }
    (G.getParents n).foldlM (fun acc p => fillGraph G fuel p acc) s1

/-- Function `VideoEngine::DAG::clearGraph()`. -/
def clearGraph (d : DAG ν) : DAG ν :=
  { d with _graph := [], _sorted := [], _inputs := [] }

/-- Function `VideoEngine::DAG::_depthCycle(Node* n)`, bounded by `fuel`. -/
def _depthCycle (G : NodeGraph ν) : Nat → ν → GraphState ν → Option (GraphState ν)
  | 0, _, _ => none
  | fuel + 1, n, s =>
    let s1 : GraphState ν := { s with marked := setMarked s.marked n true }
    match (G.getParents n).foldlM
        (fun acc p => if acc.marked p then some acc else _depthCycle G fuel p acc) s1 with
    | none => none
    | some s2 => some { s2 with dag := { s2.dag with _sorted := s2.dag._sorted ++ [n] } }

/-- Function `VideoEngine::DAG::topologicalSort()`: the loop over `_graph` (which `_depthCycle`
does not modify). -/
def topologicalSort (G : NodeGraph ν) (fuel : Nat) (s : GraphState ν) : Option (GraphState ν) :=
  s.dag._graph.foldlM
    (fun acc n => if acc.marked n then some acc else _depthCycle G fuel n acc) s

/-- Function `VideoEngine::DAG::resetAndSort(OutputNode* out, bool isViewer)`; `out = none` is
the null pointer. -/
def resetAndSort (G : NodeGraph ν) (fuel : Nat) (out : Option ν) (isViewer : Bool)
    (s : GraphState ν) : Option (GraphState ν) :=
  let s1 : GraphState ν :=
    { s with dag := clearGraph { s.dag with _output := out, _isViewer := isViewer,
                                            _validate := ValidateFn.validate,
                                            _hasValidated := false } }
  match out with
  | none => some s1
  | some o =>
    match fillGraph G fuel o s1 with
    | none => none
    | some s2 => topologicalSort G fuel s2

/-- An edge of the graph: `p` is a parent of `n`. -/
def NodeGraph.Edge (G : NodeGraph ν) (n p : ν) : Prop := p ∈ G.getParents n

/-- The node `x` is reachable from `a` over parent edges (`a` itself included). -/
def NodeGraph.Reachable (G : NodeGraph ν) (a x : ν) : Prop :=
  Relation.ReflTransGen G.Edge a x

/-- The graph has no cycle: no node reaches itself over one or more parent edges. -/
def NodeGraph.Acyclic (G : NodeGraph ν) : Prop :=
  ∀ n, ¬ Relation.TransGen G.Edge n n

/-- A diamond: node 3 has the parents 1 and 2, which share the parent 0 (a source node). -/
def diamond : NodeGraph (Fin 4) where
  getParents := fun n => if n = 3 then [1, 2] else if n = 0 then [] else [0]
  isInputNode := fun n => decide (n = 0)

/-- A DAG object with stale content and stale marks. -/
def staleState : GraphState (Fin 4) where
  dag := { _output := some 1, _isViewer := false, _validate := ValidateFn.validateInputs,
           _hasValidated := true, _graph := [1, 0], _sorted := [0, 1], _inputs := [0] }
  marked := fun _ => true

end dag

/-! ## The playback engine `VideoEngine` (src/Core/VideoEngine.cpp, lines 71-801)

`int` values (frame numbers, counters) are mathematical integers, except where a frame of the
sequence is incremented or decremented: the next and the previous frame of a viewer,
`currentFrame() + 1` and `currentFrame() - 1` (lines 198 and 208), are computed in 32-bit `int`
arithmetic (`wrapInt`), the frame range of a sequence being able to reach the bounds of `int`.
Calls on collaborators that live outside the file (readers,
viewer, writer, caches, timeline) are recorded in a trace; what they answer is a parameter (`Env`).
The writer (Writer/Writer.h is not in src) is the one of the spec: `firstFrame()`, `lastFrame()`,
`currentFrame()`, set to start, increment, encode the current frame.
Work handed to other threads (`QtConcurrent`) completes when its watcher signal is delivered
(`deliverSignals`); no user event arrives while a function runs. -/

/-- The member function a deferred task calls (`VengineFunction`). -/
inductive VengineFunction where
  | _startEngine
  | _changeDAGAndStartEngine
  deriving DecidableEq, Repr

/-- A deferred call (`VideoEngine::Task`), as `appendTask` builds it. -/
structure Task (ν : Type) where
  _newFrameNB : Int
  _frameCount : Int
  _initViewer : Bool
  _forward : Bool
  _output : Option ν
  _func : VengineFunction
  deriving DecidableEq, Repr

/-- Value of `_timer->playState`. -/
inductive PlayState where
  | RUNNING
  | PAUSE
  deriving DecidableEq, Repr

/-- Modelled from the spec: the class `Row` (Core/row.h is not in src): one scanline with its
left and right bounds, its y, its zoomed y and the channels to produce. -/
structure Row where
  offset : Int
  y : Int
  right : Int
  channels : Nat
  zoomedY : Int
  deriving DecidableEq, Repr

/-- Modelled from the spec: the class `Hash` behind `_treeVersion` (Core/hash.h is not in src):
the node hashes appended since the last reset and the combined value. -/
structure Hash where
  nodeHashes : List Nat
  hashValue : Nat
  deriving DecidableEq, Repr

/-- Calls the engine makes on its collaborators, in the order it makes them. -/
inductive Event (ν : Type) where
  /-- Call `frameSeeker->seek(frame)` -/
  | seek (frame : Int)
  /-- Call `reader->decodeFrames(mode, useCurrentThread, useOtherThread, forward)` for `frame` -/
  | decodeFrames (reader : ν) (frame : Int) (useCurrentThread useOtherThread forward : Bool)
  /-- Call `reader->openCachedFrame(entry, useOtherThread)` for `frame` -/
  | openCachedFrame (reader : ν) (frame : Int) (useOtherThread : Bool)
  /-- Call `cachedFrameEngine(entry)` -/
  | cachedFrameEngine (frame : Int)
  /-- Call `NodeCache::getNodeCache()->clear()` -/
  | nodeCacheClear
  /-- Call `QtConcurrent::map(_sequenceToWork, ...)`: the rows of `frame` go to the worker pool -/
  | dispatchRows (frame : Int) (rows : List Row)
  /-- Call `QtConcurrent::run(viewer, &ViewerGL::fillPBO, ...)` -/
  | fillPBO (frame : Int)
  /-- Call `writer->startWriting()`: the writer encodes its current frame -/
  | startWriting (frame : Int)
  /-- Call `viewer->copyPBOtoTexture(...)`: the viewer presents the frame -/
  | copyPBOtoTexture (frame : Int)
  /-- Call `(*vengine.*f)(...)` in `runTasks` -/
  | callTask (t : Task ν)
  deriving DecidableEq, Repr

/-- What the collaborators answer. The oracles that may change with time take the trace so far. -/
structure Env (ν : Type) where
  /-- the node heap -/
  nodes : NodeGraph ν
  /-- Whether `className() == "Reader"` -/
  isReader : ν → Bool
  /-- Value of `Reader::hasFrames()` -/
  hasFrames : ν → Bool
  /-- Value of `Reader::firstFrame()` -/
  readerFirstFrame : ν → Int
  /-- Value of `Reader::lastFrame()` -/
  readerLastFrame : ν → Int
  /-- frame range that `validate` leaves in the output's info -/
  validatedFirstFrame : Int
  validatedLastFrame : Int
  /-- number of descriptors that `decodeFrames` returns -/
  decodeFrames : List (Event ν) → ν → Int → Nat
  /-- whether `ViewerCache::get` finds an entry -/
  viewerCacheGet : List (Event ν) → ν → Int → Bool
  /-- result of `determineFrameDataContainer` -/
  isTextureCached : List (Event ν) → Int → Bool
  /-- keys of `computeRowSpan(displayWindow, zoomFactor)`, increasing -/
  computeRowSpan : List Int
  /-- data window of the output: `y()`, `top()`, `x()`, `right()` -/
  dataWindowY : Int
  dataWindowTop : Int
  dataWindowX : Int
  dataWindowRight : Int
  /-- Value of `viewer->displayChannels()` -/
  displayChannels : Nat
  /-- Value of `writer->getRequestedChannels()` -/
  writerRequestedChannels : Nat
  /-- Value of `output->getInfo()->channels()` -/
  infoChannels : Nat
  /-- Values of `getName()` and `getHash()->getHashValue()` of a node -/
  getName : ν → String
  getHashValue : ν → Nat
  /-- Value of `Hash::computeHash` over the appended node hashes -/
  computeHash : List Nat → Nat

/-- The fields of `VideoEngine`, with the state of the collaborators the engine reads back. -/
structure VideoEngine (ν : Type) where
  _working : Bool
  _aborted : Bool
  _paused : Bool
  _forward : Bool
  _frameRequestsCount : Int
  _frameRequestIndex : Int
  _loopMode : Bool
  _sameFrame : Bool
  _waitingTasks : List (Task ν)
  _sequenceToWork : List Row
  _dag : DAG ν
  _treeVersion : Hash
  /-- the nodes' `marked` flags -/
  marked : ν → Bool
  /-- Value of `_timer->playState` -/
  playState : PlayState
  /-- Value of `_enginePostProcessResults->isFinished()` -/
  postProcessFinished : Bool
  /-- Whether `_workerThreadsWatcher` has a `finished()` signal to deliver -/
  workerWatcherPending : Bool
  /-- Whether `_engineLoopWatcher` has a `finished()` signal to deliver -/
  engineLoopWatcherPending : Bool
  /-- Value of `frameSeeker->currentFrame()`, which is `currentViewer->currentFrame()` -/
  timelineFrame : Int
  /-- Values of `_output->getInfo()->firstFrame()` and `lastFrame()` -/
  infoFirstFrame : Int
  infoLastFrame : Int
  /-- Values of `writer->firstFrame()`, `lastFrame()`, `currentFrame()` -/
  writerFirstFrame : Int
  writerLastFrame : Int
  writerCurrentFrame : Int
  /-- Values of `play_Forward_Button->isChecked()`, `play_Backward_Button->isChecked()` -/
  playForwardChecked : Bool
  playBackwardChecked : Bool
  trace : List (Event ν)

/-- How a call can fail to return a state. -/
inductive Fault where
  /-- a member of the null output node is used -/
  | nullOutput
  /-- the bound on the depth of calls is reached -/
  | outOfFuel
  deriving DecidableEq, Repr

/-- One frame of `FramesVector`: the frame its descriptor designates and whether it carries a cache
entry (`second != NULL`). -/
structure ReadFrame where
  frame : Int
  cached : Bool
  deriving DecidableEq, Repr

/-- How the row loop of `computeTreeForFrame` ends. -/
inductive RowLoopExit where
  | aborted
  | paused
  | completed
  deriving DecidableEq, Repr

/-- Outcome of the checks at the entry of `computeFrameRequest` (lines 147-169). -/
inductive EntryCheck where
  /-- Case `!sameFrame && _aborted` -/
  | aborted
  /-- paused, countdown 0, or single-frame sequence already computed -/
  | drain
  /-- writer past its last frame -/
  | writerDone
  | proceed
  deriving DecidableEq, Repr

/-- The constant `INT_MIN` of a 32-bit `int`, initial value of the local `lastFrame`. -/
def INT_MIN : Int := -2147483648

section engine
variable {ν : Type} [DecidableEq ν]

/-- Modelled from the spec: `DAG::isOutputAViewer()` (Core/VideoEngine.h is not in src): the flag
that `resetAndSort` stores. -/
def isOutputAViewer (s : VideoEngine ν) : Bool := s._dag._isViewer

/-- Appends a call to the trace. -/
def record (e : Event ν) (s : VideoEngine ν) : VideoEngine ν :=
  { s with trace := s.trace ++ [e] }

/-- Modelled from the spec: `TimeSlider::seek` (Gui/timeline.h is not in src) moves the timeline,
which `currentViewer->currentFrame()` reads. -/
def seek (frame : Int) (s : VideoEngine ν) : VideoEngine ν :=
  record (Event.seek frame) { s with timelineFrame := frame }

/-- Function `VideoEngine::stopEngine()`. `resetReadingBuffers()` touches GL buffers and reader
caches only; the two `waitForFinished()` return once the futures are finished. -/
def stopEngine (s : VideoEngine ν) : VideoEngine ν :=
  let s1 : VideoEngine ν :=
    if isOutputAViewer s then { s with playForwardChecked := false, playBackwardChecked := false }
    else s
  { s1 with _frameRequestsCount := 0, _working := false, _aborted := false, _paused := false,
            postProcessFinished := true, playState := PlayState.PAUSE }

/-- Function `VideoEngine::abort()`. -/
def abort (s : VideoEngine ν) : VideoEngine ν :=
  { s with _aborted := true, playBackwardChecked := false, playForwardChecked := false }

/-- Function `VideoEngine::pause()`. -/
def pause (s : VideoEngine ν) : VideoEngine ν :=
  { s with _paused := true }

/-- Function `VideoEngine::appendTask(...)`. -/
def appendTask (frameNB frameCount : Int) (initViewer forward : Bool) (output : Option ν)
    (func : VengineFunction) (s : VideoEngine ν) : VideoEngine ν :=
  { s with _waitingTasks := s._waitingTasks ++
      [{ _newFrameNB := frameNB, _frameCount := frameCount, _initViewer := initViewer,
         _forward := forward, _output := output, _func := func }] }

/-- The loop of `VideoEngine::runTasks()` from index `i` on: `call` is the call through the
member-function pointer, `fuel` bounds the number of iterations. The queue is cleared inside the
loop body, before the call. -/
def runTasksFrom (call : Task ν → VideoEngine ν → Except Fault (VideoEngine ν)) :
    Nat → Nat → VideoEngine ν → Except Fault (VideoEngine ν)
  | 0, _, _ => Except.error Fault.outOfFuel
  | fuel + 1, i, s =>
    match s._waitingTasks.get? i with
    | none => Except.ok s
    | some _t =>
      match call _t { s with _waitingTasks := [] } with
      | Except.error e => Except.error e
      | Except.ok s' => runTasksFrom call fuel (i + 1) s'

/-- Function `VideoEngine::runTasks()`. -/
def runTasks (call : Task ν → VideoEngine ν → Except Fault (VideoEngine ν)) (fuel : Nat)
    (s : VideoEngine ν) : Except Fault (VideoEngine ν) :=
  runTasksFrom call fuel 0 s

/-- Call of `_dag.getOutput()->validate(forReal)`: a fault on the null output, else the output's
info holds the validated frame range. -/
def validateOutput (E : Env ν) (s : VideoEngine ν) : Except Fault (VideoEngine ν) :=
  match s._dag._output with
  | none => Except.error Fault.nullOutput
  | some _ => Except.ok { s with infoFirstFrame := E.validatedFirstFrame,
                                 infoLastFrame := E.validatedLastFrame }

/-- Lines 125-144 of `computeFrameRequest`: the locals `lastFrame` and `currentFrame` and the
writer's frame counter. -/
def writerPrologue (E : Env ν) (recursiveCall : Bool) (s : VideoEngine ν) :
    Except Fault (VideoEngine ν × Int × Int) :=
  if isOutputAViewer s then Except.ok (s, INT_MIN, 0)
  else
    match s._dag._output with
    | none => Except.error Fault.nullOutput
    | some _ =>
      if recursiveCall = false then
        match validateOutput E s with
        | Except.error e => Except.error e
        | Except.ok s1 =>
          Except.ok ({ s1 with writerCurrentFrame := s1.writerFirstFrame },
            s1.writerLastFrame, s1.writerFirstFrame)
      else
        Except.ok ({ s with writerCurrentFrame := s.writerCurrentFrame + 1 },
          s.writerLastFrame, s.writerCurrentFrame + 1)

/-- Lines 147-169 of `computeFrameRequest`: which of the stop conditions holds, in the order of
the `if ... else if` chain. -/
def entryCheck (sameFrame recursiveCall : Bool) (lastFrame currentFrame : Int)
    (s : VideoEngine ν) : Except Fault EntryCheck :=
  if sameFrame = false ∧ s._aborted = true then Except.ok EntryCheck.aborted
  else if s._paused = true ∨ s._frameRequestsCount = 0 then Except.ok EntryCheck.drain
  else if isOutputAViewer s = true ∧ recursiveCall = true then
    match s._dag._output with
    | none => Except.error Fault.nullOutput
    | some _ =>
      if s.infoLastFrame = s.infoFirstFrame ∧ s._frameRequestsCount = -1
          ∧ s._frameRequestIndex = 1 then
        Except.ok EntryCheck.drain
      else Except.ok EntryCheck.proceed
  else if isOutputAViewer s = false ∧ currentFrame = lastFrame + 1 then
    Except.ok EntryCheck.writerDone
  else Except.ok EntryCheck.proceed

/-- Arithmetic of the C++ type `int` (32 bits, wrapping): the value of an `int`
expression whose mathematical value is `x`. -/
def wrapInt (x : Int) : Int :=
  (x + 2147483648) % 4294967296 - 2147483648

/-- Lines 171-220 of `computeFrameRequest`: the frame of a viewer. The flag of the result is
`true` when the function returns here (end of the range without loop mode). The next and the
previous frame, `currentFrame() + 1` and `currentFrame() - 1`, are computed in `int`. -/
def viewerFrame (E : Env ν) (sameFrame recursiveCall : Bool) (s : VideoEngine ν) :
    Except Fault (VideoEngine ν × Bool) :=
  if isOutputAViewer s = false then Except.ok (s, false)
  else if recursiveCall = false then
    if sameFrame = false then
      match validateOutput E s with
      | Except.error e => Except.error e
      | Except.ok s1 =>
        let currentFrame :=
          if s1.timelineFrame < s1.infoFirstFrame then s1.infoFirstFrame
          else if s1.timelineFrame > s1.infoLastFrame then s1.infoLastFrame
          else s1.timelineFrame
        Except.ok (seek currentFrame s1, false)
    else Except.ok (s, false)
  else
    let s1 := record Event.nodeCacheClear s
    match s1._dag._output with
    | none => Except.error Fault.nullOutput
    | some _ =>
      if s1._forward = true then
        if wrapInt (s1.timelineFrame + 1) > s1.infoLastFrame then
          if s1._loopMode = true then Except.ok (seek s1.infoFirstFrame s1, false)
          else Except.ok ({ s1 with _frameRequestsCount := 0 }, true)
        else Except.ok (seek (wrapInt (s1.timelineFrame + 1)) s1, false)
      else
        if wrapInt (s1.timelineFrame - 1) < s1.infoFirstFrame then
          if s1._loopMode = true then Except.ok (seek s1.infoLastFrame s1, false)
          else Except.ok ({ s1 with _frameRequestsCount := 0 }, true)
        else Except.ok (seek (wrapInt (s1.timelineFrame - 1)) s1, false)

/-- The readers among the inputs of the DAG (the loops at lines 222-231 and 300-309). -/
def getReaders (E : Env ν) (s : VideoEngine ν) : List ν :=
  s._dag._inputs.filter E.isReader

/-- The frame a reader is asked for: the viewer's current frame, or the writer's. -/
def frameToRead (s : VideoEngine ν) : Int :=
  if isOutputAViewer s then s.timelineFrame else s.writerCurrentFrame

/-- The loop over the readers of `startReading` with `useMainThread` (lines 443-480);
`useOtherThreadOnNextLoop` is the toggle. -/
def readOnMainThread (E : Env ν) (useOtherThread : Bool) :
    List ν → Bool → List ReadFrame → VideoEngine ν → List ReadFrame × VideoEngine ν
  | [], _, frames, s => (frames, s)
  | reader :: rest, useOtherThreadOnNextLoop, frames, s =>
    let iscached := isOutputAViewer s && E.viewerCacheGet s.trace reader (frameToRead s)
    if iscached = false then
      let other := useOtherThreadOnNextLoop && useOtherThread
      let ret := List.replicate (E.decodeFrames s.trace reader (frameToRead s))
        ({ frame := frameToRead s, cached := false } : ReadFrame)
      readOnMainThread E useOtherThread rest (!useOtherThreadOnNextLoop) (frames ++ ret)
        (record (Event.decodeFrames reader (frameToRead s) (!other) other s._forward) s)
    else
      readOnMainThread E useOtherThread rest useOtherThreadOnNextLoop
        (frames ++ [{ frame := frameToRead s, cached := true }])
        (record (Event.openCachedFrame reader (frameToRead s) false) s)

/-- Function `VideoEngine::startReading(readers, useMainThread, useOtherThread)`. -/
def startReading (E : Env ν) (readers : List ν) (useMainThread useOtherThread : Bool)
    (s : VideoEngine ν) : List ReadFrame × VideoEngine ν :=
  match readers with
  | [] => ([], s)
  | reader :: _ =>
    if useMainThread then readOnMainThread E useOtherThread readers false [] s
    else if useOtherThread = false then ([], s)
    else if E.readerFirstFrame reader = E.readerLastFrame reader then ([], s)
    else
      let cur := frameToRead s
      let f1 := if s._forward then cur + 1 else cur - 1
      let f2 := if f1 > E.readerLastFrame reader then E.readerFirstFrame reader else f1
      let followingFrame := if f2 < E.readerFirstFrame reader then E.readerLastFrame reader else f2
      let iscached := isOutputAViewer s && E.viewerCacheGet s.trace reader followingFrame
      if iscached = false then
        (List.replicate (E.decodeFrames s.trace reader followingFrame)
            ({ frame := followingFrame, cached := false } : ReadFrame),
          record (Event.decodeFrames reader followingFrame false true s._forward) s)
      else
        ([{ frame := followingFrame, cached := true }],
          record (Event.openCachedFrame reader followingFrame true) s)

/-- Function `VideoEngine::cachedFrameEngine(frame)`: texture set-up on the viewer. Its last
statement, `QCoreApplication::processEvents()` (line 282), is where `pause()` and `abort()` can
run during a request; a state with these flags set stands for their having run there. -/
def cachedFrameEngine (frame : Int) (s : VideoEngine ν) : VideoEngine ν :=
  record (Event.cachedFrameEngine frame) s

/-- The row loop of `computeTreeForFrame` (lines 399-417): the flags are tested before each row
is built. -/
def buildRows (aborted paused : Bool) (offset right : Int) (channels : Nat) :
    List Int → Int → List Row → List Row × RowLoopExit
  | [], _, acc => (acc, RowLoopExit.completed)
  | y :: rest, counter, acc =>
    if aborted then (acc, RowLoopExit.aborted)
    else if paused then (acc, RowLoopExit.paused)
    else buildRows aborted paused offset right channels rest (counter + 1)
      (acc ++ [{ offset := offset, y := y, right := right, channels := channels,
                 zoomedY := counter }])

/-- The rows of a writer: `for (int i = dataW.y(); i < dataW.top(); i++)`. -/
def writerRows (E : Env ν) : List Int :=
  (List.range (E.dataWindowTop - E.dataWindowY).toNat).map
    (fun (i : Nat) => E.dataWindowY + (i : Int))

/-- A `for` loop over the frames whose body may return from the function (flag `true`). -/
def forFrames (body : ReadFrame → VideoEngine ν → Except Fault (VideoEngine ν × Bool)) :
    List ReadFrame → VideoEngine ν → Except Fault (VideoEngine ν)
  | [], s => Except.ok s
  | readFrame :: rest, s =>
    match body readFrame s with
    | Except.error e => Except.error e
    | Except.ok (s', true) => Except.ok s'
    | Except.ok (s', false) => forFrames body rest s'

/-- Function `VideoEngine::computeTreeHash(alreadyComputed, n)`, bounded by `fuel`. -/
def computeTreeHash (E : Env ν) : Nat → List (String × Nat) → ν → Option (List (String × Nat))
  | 0, _, _ => none
  | fuel + 1, alreadyComputed, n =>
    if alreadyComputed.any (fun e => e.1 == E.getName n) then some alreadyComputed
    else
      (E.nodes.getParents n).foldlM (fun acc parent => computeTreeHash E fuel acc parent)
        (alreadyComputed ++ [(E.getName n, E.getHashValue n)])

/-- Function `VideoEngine::changeTreeVersion()`. -/
def changeTreeVersion (E : Env ν) (fuel : Nat) (s : VideoEngine ν) : Option (VideoEngine ν) :=
  match s._dag._output with
  | none => some { s with _treeVersion := { nodeHashes := [], hashValue := 0 } }
  | some out =>
    match computeTreeHash E fuel [] out with
    | none => none
    | some nodeHashs =>
      some { s with _treeVersion :=
        { nodeHashes := nodeHashs.map (fun e => e.2),
          hashValue := E.computeHash (nodeHashs.map (fun e => e.2)) } }

/-- The sequence `stopEngine(); runTasks(); stopEngine();` (lines 155-157, 161-163, 245-247 and
407-409); `run` is `runTasks`. -/
def stopRunTasksStop (run : VideoEngine ν → Except Fault (VideoEngine ν)) (s : VideoEngine ν) :
    Except Fault (VideoEngine ν) :=
  match run (stopEngine s) with
  | Except.error e => Except.error e
  | Except.ok s1 => Except.ok (stopEngine s1)

/-- Lines 222-260 of `computeFrameRequest`: the frames are read, the output is validated, and each
frame goes to `cachedFrameEngine` and `engineLoop` (`loop`) when it carries a cache entry, to
`computeTreeForFrame` (`tree`) when not; `run` is `runTasks`. -/
def requestFrames (E : Env ν) (run : VideoEngine ν → Except Fault (VideoEngine ν))
    (loop : VideoEngine ν → Except Fault (VideoEngine ν))
    (tree : Int → Bool → VideoEngine ν → Except Fault (VideoEngine ν))
    (fitFrameToViewer : Bool) (s : VideoEngine ν) : Except Fault (VideoEngine ν) :=
  match validateOutput E (startReading E (getReaders E s) true true s).2 with
  | Except.error e => Except.error e
  | Except.ok s1 =>
    forFrames
      (fun readFrame st =>
        if readFrame.cached = true then
          if (cachedFrameEngine readFrame.frame st)._paused = true then
            match stopRunTasksStop run (cachedFrameEngine readFrame.frame st) with
            | Except.error e => Except.error e
            | Except.ok st1 => Except.ok (st1, true)
          else if (cachedFrameEngine readFrame.frame st)._aborted = true then
            Except.ok (stopEngine
              { cachedFrameEngine readFrame.frame st with _waitingTasks := [] }, true)
          else
            match loop (cachedFrameEngine readFrame.frame st) with
            | Except.error e => Except.error e
            | Except.ok st1 => Except.ok (st1, false)
        else
          match tree readFrame.frame fitFrameToViewer st with
          | Except.error e => Except.error e
          | Except.ok st1 => Except.ok (st1, false))
      (startReading E (getReaders E s) true true s).1 s1

mutual

/-- Function `VideoEngine::videoEngine(frameCount, fitFrameToViewer, forward, sameFrame)`. -/
def videoEngine (E : Env ν) : Nat → Int → Bool → Bool → Bool → VideoEngine ν →
    Except Fault (VideoEngine ν)
  | 0, _, _, _, _, _ => Except.error Fault.outOfFuel
  | fuel + 1, frameCount, fitFrameToViewer, forward, sameFrame, s =>
    if s._working = true ∨ s.postProcessFinished = false then Except.ok s
    else
      computeFrameRequest E fuel sameFrame forward fitFrameToViewer false
        { s with playState := PlayState.RUNNING, _frameRequestsCount := frameCount,
                 _frameRequestIndex := 0, _forward := forward, _paused := false,
                 _aborted := false }

/-- Function `VideoEngine::computeFrameRequest(sameFrame, forward, fitFrameToViewer,
recursiveCall)`. -/
def computeFrameRequest (E : Env ν) : Nat → Bool → Bool → Bool → Bool → VideoEngine ν →
    Except Fault (VideoEngine ν)
  | 0, _, _, _, _, _ => Except.error Fault.outOfFuel
  | fuel + 1, sameFrame, _forward, fitFrameToViewer, recursiveCall, s =>
    match writerPrologue E recursiveCall { s with _working := true, _sameFrame := sameFrame } with
    | Except.error e => Except.error e
    | Except.ok (s1, lastFrame, currentFrame) =>
      match entryCheck sameFrame recursiveCall lastFrame currentFrame s1 with
      | Except.error e => Except.error e
      | Except.ok EntryCheck.aborted => Except.ok (stopEngine { s1 with _waitingTasks := [] })
      | Except.ok EntryCheck.drain =>
        stopRunTasksStop (runTasks (fun t st => callTask E fuel t st) fuel) s1
      | Except.ok EntryCheck.writerDone => Except.ok (stopEngine s1)
      | Except.ok EntryCheck.proceed =>
        match viewerFrame E sameFrame recursiveCall s1 with
        | Except.error e => Except.error e
        | Except.ok (s2, true) => Except.ok s2
        | Except.ok (s2, false) =>
          requestFrames E (runTasks (fun t st => callTask E fuel t st) fuel)
            (fun st => engineLoop E fuel st)
            (fun frame fit st => computeTreeForFrame E fuel frame fit st) fitFrameToViewer s2

/-- Function `VideoEngine::finishComputeFrameRequest()`, the slot of the worker watcher. -/
def finishComputeFrameRequest (E : Env ν) : Nat → VideoEngine ν → Except Fault (VideoEngine ν)
  | 0, _ => Except.error Fault.outOfFuel
  | fuel + 1, s =>
    if isOutputAViewer s = true then
      Except.ok (record (Event.fillPBO s.timelineFrame)
        { s with _sequenceToWork := [], postProcessFinished := false,
                 engineLoopWatcherPending := true })
    else
      match s._dag._output with
      | none => Except.error Fault.nullOutput
      | some _ =>
        engineLoop E fuel
          (record (Event.startWriting s.writerCurrentFrame) { s with _sequenceToWork := [] })

/-- Function `VideoEngine::engineLoop()`. -/
def engineLoop (E : Env ν) : Nat → VideoEngine ν → Except Fault (VideoEngine ν)
  | 0, _ => Except.error Fault.outOfFuel
  | fuel + 1, s =>
    let s1 : VideoEngine ν :=
      if s._frameRequestIndex = 0 ∧ s._frameRequestsCount = 1 ∧ s._sameFrame = false then
        { s with _frameRequestsCount := 0 }
      else if s._frameRequestsCount ≠ -1 then
        { s with _frameRequestsCount := s._frameRequestsCount - 1 }
      else s
    let s2 : VideoEngine ν := { s1 with _frameRequestIndex := s1._frameRequestIndex + 1 }
    let s3 : VideoEngine ν :=
      if isOutputAViewer s2 = true then record (Event.copyPBOtoTexture s2.timelineFrame) s2
      else s2
    let s4 : VideoEngine ν :=
      if s3._frameRequestsCount ≠ 0 ∧ s3._paused = false then
        (startReading E (getReaders E s3) false true s3).2
      else s3
    computeFrameRequest E fuel false s4._forward false true s4

/-- Function `VideoEngine::computeTreeForFrame(filename, output, fitFrameToViewer)`; `frame` is
the frame the file name designates, `output` is `_dag.getOutput()`. -/
def computeTreeForFrame (E : Env ν) : Nat → Int → Bool → VideoEngine ν →
    Except Fault (VideoEngine ν)
  | 0, _, _, _ => Except.error Fault.outOfFuel
  | fuel + 1, frame, _fitFrameToViewer, s =>
    match s._dag._output with
    | none => Except.error Fault.nullOutput
    | some _ =>
      if isOutputAViewer s = true ∧ E.isTextureCached s.trace frame = true then
        engineLoop E fuel s
      else
        match buildRows s._aborted s._paused E.dataWindowX E.dataWindowRight
            (if isOutputAViewer s then Nat.land E.displayChannels E.infoChannels
             else E.writerRequestedChannels)
            (if isOutputAViewer s then E.computeRowSpan else writerRows E) 0
            s._sequenceToWork with
        | (rows, RowLoopExit.aborted) =>
          Except.ok (stopEngine { s with _sequenceToWork := rows, _waitingTasks := [] })
        | (rows, RowLoopExit.paused) =>
          stopRunTasksStop (runTasks (fun t st => callTask E fuel t st) fuel)
            { s with _sequenceToWork := rows }
        | (rows, RowLoopExit.completed) =>
          Except.ok (record (Event.dispatchRows frame rows)
            { s with _sequenceToWork := rows, workerWatcherPending := true })

/-- Function `VideoEngine::_startEngine(frameNB, frameCount, initViewer, forward, output)`. The
range test reads the viewer's frame range (the info of its node); `videoEngine` is called with
its default `sameFrame = false`. -/
def _startEngine (E : Env ν) : Nat → Int → Int → Bool → Bool → Option ν → VideoEngine ν →
    Except Fault (VideoEngine ν)
  | 0, _, _, _, _, _, _ => Except.error Fault.outOfFuel
  | fuel + 1, frameNB, frameCount, initViewer, forward, _output, s =>
    if s._dag._output.isSome = true ∧ s._dag._inputs ≠ [] then
      if frameNB < s.infoFirstFrame ∨ frameNB > s.infoLastFrame then Except.ok s
      else videoEngine E fuel frameCount initViewer forward false (seek frameNB s)
    else Except.ok s

/-- Function `VideoEngine::_changeDAGAndStartEngine(frameNB, frameCount, initViewer, forward,
output)`. `static_cast<Reader*>` of an input is never null, so `hasInputDifferentThanReader`
stays false. -/
def _changeDAGAndStartEngine (E : Env ν) : Nat → Int → Int → Bool → Bool → Option ν →
    VideoEngine ν → Except Fault (VideoEngine ν)
  | 0, _, _, _, _, _, _ => Except.error Fault.outOfFuel
  | fuel + 1, _frameNB, _frameCount, initViewer, _forward, output, s =>
    match resetAndSort E.nodes fuel output true { dag := s._dag, marked := s.marked } with
    | none => Except.error Fault.outOfFuel
    | some g =>
      match changeTreeVersion E fuel { s with _dag := g.dag, marked := g.marked } with
      | none => Except.error Fault.outOfFuel
      | some s1 =>
        if s1._dag._inputs.any E.hasFrames = true then
          videoEngine E fuel (-1) initViewer s1._forward false s1
        else Except.ok s1

/-- The call `(*vengine.*f)(_t._newFrameNB, ...)` of `runTasks`. -/
def callTask (E : Env ν) : Nat → Task ν → VideoEngine ν → Except Fault (VideoEngine ν)
  | 0, _, _ => Except.error Fault.outOfFuel
  | fuel + 1, t, s =>
    match t._func with
    | VengineFunction._startEngine =>
      _startEngine E fuel t._newFrameNB t._frameCount t._initViewer t._forward t._output
        (record (Event.callTask t) s)
    | VengineFunction._changeDAGAndStartEngine =>
      _changeDAGAndStartEngine E fuel t._newFrameNB t._frameCount t._initViewer t._forward
        t._output (record (Event.callTask t) s)

end

/-- Delivery of the watcher signals connected in the constructor (lines 582-583):
`_workerThreadsWatcher.finished -> finishComputeFrameRequest` and
`_engineLoopWatcher.finished -> engineLoop`, until none is pending. -/
def deliverSignals (E : Env ν) : Nat → VideoEngine ν → Except Fault (VideoEngine ν)
  | 0, s =>
    if s.workerWatcherPending = true ∨ s.engineLoopWatcherPending = true then
      Except.error Fault.outOfFuel
    else Except.ok s
  | fuel + 1, s =>
    if s.workerWatcherPending = true then
      match finishComputeFrameRequest E fuel { s with workerWatcherPending := false } with
      | Except.error e => Except.error e
      | Except.ok s' => deliverSignals E fuel s'
    else if s.engineLoopWatcherPending = true then
      match engineLoop E fuel
          { s with engineLoopWatcherPending := false, postProcessFinished := true } with
      | Except.error e => Except.error e
      | Except.ok s' => deliverSignals E fuel s'
    else Except.ok s

/-- A playback: `videoEngine(...)` and then the signals it causes, to the end. -/
def playback (E : Env ν) (fuel : Nat) (frameCount : Int)
    (fitFrameToViewer forward sameFrame : Bool) (s : VideoEngine ν) :
    Except Fault (VideoEngine ν) :=
  match videoEngine E fuel frameCount fitFrameToViewer forward sameFrame s with
  | Except.error e => Except.error e
  | Except.ok s' => deliverSignals E fuel s'

/-- The frames the writer encoded, in order. -/
def encodedFrames (tr : List (Event ν)) : List Int :=
  tr.filterMap (fun e => match e with
    | Event.startWriting f => some f
    | _ => none)

/-- The frames the viewer presented, in order. -/
def presentedFrames (tr : List (Event ν)) : List Int :=
  tr.filterMap (fun e => match e with
    | Event.copyPBOtoTexture f => some f
    | _ => none)

end engine
section dag_specs
variable {ν : Type} [DecidableEq ν]

/-- What a run of `fillGraph` (or of a sequence of runs) does to a state: the nodes of `added` join
`_graph`, at its end. -/
structure FillPost (G : NodeGraph ν) (added : ν → Prop) (s s' : GraphState ν) : Prop where
  ext : ∃ L, s'.dag._graph = s.dag._graph ++ L
  mem : ∀ x, x ∈ s'.dag._graph ↔ x ∈ s.dag._graph ∨ added x
  nodup : s.dag._graph.Nodup → s'.dag._graph.Nodup
  inputs : s.dag._inputs = s.dag._graph.filter G.isInputNode →
    s'.dag._inputs = s'.dag._graph.filter G.isInputNode
  unmarked : (∀ x ∈ s.dag._graph, s.marked x = false) → ∀ x ∈ s'.dag._graph, s'.marked x = false
  sorted_eq : s'.dag._sorted = s.dag._sorted
  output_eq : s'.dag._output = s.dag._output
  isViewer_eq : s'.dag._isViewer = s.dag._isViewer
  validate_eq : s'.dag._validate = s.dag._validate
  hasValidated_eq : s'.dag._hasValidated = s.dag._hasValidated

/-- Invariant of the sort: `_sorted` has no duplicate, holds marked nodes of `_graph` only, and
every parent of a sorted node is sorted too, at a smaller position. -/
structure SortInv (G : NodeGraph ν) (s : GraphState ν) : Prop where
  nodup : s.dag._sorted.Nodup
  marked : ∀ x ∈ s.dag._sorted, s.marked x = true
  inGraph : ∀ x ∈ s.dag._sorted, x ∈ s.dag._graph
  order : ∀ x ∈ s.dag._sorted, ∀ p ∈ G.getParents x,
    p ∈ s.dag._sorted ∧ s.dag._sorted.indexOf p < s.dag._sorted.indexOf x

/-- What a run of `_depthCycle` (or a sequence of runs) does to a state; `A` holds the nodes whose
`_depthCycle` call is in progress (marked, not yet sorted). -/
structure DfsRel (G : NodeGraph ν) (A : ν → Prop) (s t : GraphState ν) : Prop where
  inv : SortInv G t
  stack : ∀ x ∈ t.dag._graph, t.marked x = true → x ∈ t.dag._sorted ∨ A x
  graph_eq : t.dag._graph = s.dag._graph
  inputs_eq : t.dag._inputs = s.dag._inputs
  output_eq : t.dag._output = s.dag._output
  isViewer_eq : t.dag._isViewer = s.dag._isViewer
  validate_eq : t.dag._validate = s.dag._validate
  hasValidated_eq : t.dag._hasValidated = s.dag._hasValidated
  mono : ∀ x, s.marked x = true → t.marked x = true
  keep : ∀ x ∈ s.dag._sorted, x ∈ t.dag._sorted
  fresh : ∀ x ∈ t.dag._sorted, x ∈ s.dag._sorted ∨ s.marked x = false

/-- The precondition of a call `_depthCycle(n)`. -/
structure DfsPre (G : NodeGraph ν) (A : ν → Prop) (n : ν) (s : GraphState ν) : Prop where
  inv : SortInv G s
  closed : ∀ x ∈ s.dag._graph, ∀ p ∈ G.getParents x, p ∈ s.dag._graph
  stack : ∀ x ∈ s.dag._graph, s.marked x = true → x ∈ s.dag._sorted ∨ A x
  inGraph : n ∈ s.dag._graph
  unmarked : s.marked n = false
  below : ∀ x, A x → Relation.TransGen G.Edge x n

/-- Result of `resetAndSort` on an acyclic graph, whatever the DAG held before. -/
structure SortedDag (G : NodeGraph ν) (out : ν) (isViewer : Bool) (s : GraphState ν) : Prop where
  output_eq : s.dag._output = some out
  isViewer_eq : s.dag._isViewer = isViewer
  validate_eq : s.dag._validate = ValidateFn.validate
  hasValidated_eq : s.dag._hasValidated = false
  graph_nodup : s.dag._graph.Nodup
  graph_mem : ∀ x, x ∈ s.dag._graph ↔ G.Reachable out x
  graph_head : s.dag._graph.head? = some out
  inputs_eq : s.dag._inputs = s.dag._graph.filter G.isInputNode
  sorted_inv : SortInv G s
  sorted_all : ∀ x ∈ s.dag._graph, x ∈ s.dag._sorted

end dag_specs

section engine_specs
variable {ν : Type} [DecidableEq ν]

/-- The entry checks of a recursive (next-frame) request on a viewer let the request through:
no abort, no pause, countdown not 0, and not the single-frame sequence already computed. -/
structure ViewerNextFrame (s : VideoEngine ν) : Prop where
  viewer : s._dag._isViewer = true
  output : s._dag._output.isSome = true
  notAborted : s._aborted = false
  notPaused : s._paused = false
  countdown : s._frameRequestsCount ≠ 0
  notSingle : ¬ (s.infoLastFrame = s.infoFirstFrame ∧ s._frameRequestsCount = -1
    ∧ s._frameRequestIndex = 1)

/-- A task function that records its call and returns, without appending a request. -/
def callAndReturn (t : Task ν) (s : VideoEngine ν) : Except Fault (VideoEngine ν) :=
  Except.ok (record (Event.callTask t) s)

/-- A task function during whose execution the requests `extra t` are appended to the queue. -/
def callAndAppend (extra : Task ν → List (Task ν)) (t : Task ν) (s : VideoEngine ν) :
    Except Fault (VideoEngine ν) :=
  Except.ok (record (Event.callTask t) { s with _waitingTasks := s._waitingTasks ++ extra t })

/-- A reader (node 0) feeding the output (node 1); the frame range is [1, 5]. -/
def sampleEnv : Env (Fin 2) where
  nodes := { getParents := fun n => if n = 1 then [0] else [],
             isInputNode := fun n => decide (n = 0) }
  isReader := fun n => decide (n = 0)
  hasFrames := fun _ => true
  readerFirstFrame := fun _ => 1
  readerLastFrame := fun _ => 5
  validatedFirstFrame := 1
  validatedLastFrame := 5
  decodeFrames := fun _ _ _ => 1
  viewerCacheGet := fun tr _ _ => decide (tr.length % 2 = 0)
  isTextureCached := fun _ _ => false
  computeRowSpan := [0, 1]
  dataWindowY := 0
  dataWindowTop := 2
  dataWindowX := 0
  dataWindowRight := 4
  displayChannels := 15
  writerRequestedChannels := 7
  infoChannels := 15
  getName := fun n => if n = 1 then "Output" else "Reader"
  getHashValue := fun n => n.val
  computeHash := fun l => l.sum

/-- The DAG of `sampleEnv`, sorted. -/
def sampleDag (isViewer : Bool) : DAG (Fin 2) :=
  { _output := some 1, _isViewer := isViewer, _validate := ValidateFn.validate,
    _hasValidated := false, _graph := [1, 0], _sorted := [0, 1], _inputs := [0] }

/-- An idle engine as the constructor leaves it (line 574), on the DAG of `sampleEnv`; the
timeline is at frame 5, the writer's frame bounds are [1, 10]. -/
def idleEngine (isViewer : Bool) : VideoEngine (Fin 2) where
  _working := false
  _aborted := false
  _paused := true
  _forward := true
  _frameRequestsCount := 0
  _frameRequestIndex := 0
  _loopMode := true
  _sameFrame := false
  _waitingTasks := []
  _sequenceToWork := []
  _dag := sampleDag isViewer
  _treeVersion := { nodeHashes := [], hashValue := 0 }
  marked := fun _ => true
  playState := PlayState.PAUSE
  postProcessFinished := true
  workerWatcherPending := false
  engineLoopWatcherPending := false
  timelineFrame := 5
  infoFirstFrame := 1
  infoLastFrame := 5
  writerFirstFrame := 1
  writerLastFrame := 10
  writerCurrentFrame := 0
  playForwardChecked := false
  playBackwardChecked := false
  trace := []

/-- The request `seekRandomFrame(f)` defers when the engine is busy (line 746). -/
def seekTask (f : Int) : Task (Fin 2) :=
  { _newFrameNB := f, _frameCount := -1, _initViewer := false, _forward := true,
    _output := some 1, _func := VengineFunction._startEngine }

/-- A viewer playing forward, one frame presented (frame 5, the last of the range), two more
requested: the state in which `engineLoop` asks for the next frame. -/
def viewerAtLastFrame (loopMode : Bool) : VideoEngine (Fin 2) :=
  { idleEngine true with _working := true, _paused := false, _frameRequestsCount := 2,
                         _frameRequestIndex := 1, _loopMode := loopMode,
                         playState := PlayState.RUNNING }

/-- A viewer playing backward, one frame presented (frame 1, the first of the range), two more
requested. -/
def viewerAtFirstFrame (loopMode : Bool) : VideoEngine (Fin 2) :=
  { idleEngine true with _working := true, _paused := false, _forward := false,
                         _frameRequestsCount := 2, _frameRequestIndex := 1,
                         _loopMode := loopMode, timelineFrame := 1,
                         playState := PlayState.RUNNING }

/-- An idle engine whose DAG has a viewer output and no input node. -/
def engineWithoutInputs : VideoEngine (Fin 2) :=
  { idleEngine true with
    _dag := { _output := some 1, _isViewer := true, _validate := ValidateFn.validate,
              _hasValidated := false, _graph := [1], _sorted := [1], _inputs := [] } }

/-- An idle engine whose DAG has no output (`DAG::reset()`). -/
def engineWithoutOutput (isViewer : Bool) : VideoEngine (Fin 2) :=
  { idleEngine isViewer with
    _dag := { _output := none, _isViewer := isViewer, _validate := ValidateFn.validate,
              _hasValidated := false, _graph := [], _sorted := [], _inputs := [] } }

end engine_specs

section playback_specs
variable {ν : Type} [DecidableEq ν]

/-- The engine has stopped: not working, countdown 0, no signal pending. -/
structure Stopped (s : VideoEngine ν) : Prop where
  idle : s._working = false
  countdown : s._frameRequestsCount = 0
  notPaused : s._paused = false
  notAborted : s._aborted = false
  workerSignal : s.workerWatcherPending = false
  loopSignal : s.engineLoopWatcherPending = false

/-- A viewer playing forward in loop mode without pause or abort: the DAG has one reader `r`,
the validated frame range is [`first`, `last`], no task is deferred and no signal is
pending. -/
structure ViewerPlaying (E : Env ν) (r : ν) (first last : Int) (s : VideoEngine ν) : Prop where
  viewer : s._dag._isViewer = true
  output : s._dag._output.isSome = true
  readers : getReaders E s = [r]
  notAborted : s._aborted = false
  notPaused : s._paused = false
  loopMode : s._loopMode = true
  forward : s._forward = true
  noTask : s._waitingTasks = []
  infoFirst : s.infoFirstFrame = first
  infoLast : s.infoLastFrame = last
  workerSignal : s.workerWatcherPending = false
  loopSignal : s.engineLoopWatcherPending = false

/-- The frame after `c` in forward loop playback over [`first`, `last`], as the engine computes
it: `c + 1` is an `int` addition. -/
def nextFrame (first last c : Int) : Int :=
  if wrapInt (c + 1) > last then first else wrapInt (c + 1)

/-- The `m` frames of forward loop playback that start at `c`, each the `nextFrame` of the one
before. -/
def loopFrames (first last : Int) : Int → Nat → List Int
  | _, 0 => []
  | c, m + 1 => c :: loopFrames first last (nextFrame first last c) m

/-- What a recursive request does in a viewer playback with `m` frames left: it returns, the
signals it causes are delivered, the `m` frames after the current one are presented in loop
order, and the engine stops. -/
def RequestSpec (E : Env ν) (r : ν) (first last : Int) (m : Nat) : Prop :=
  ∀ (s : VideoEngine ν) (forward fit : Bool), ViewerPlaying E r first last s →
    s._frameRequestsCount = (m : Int) → 1 ≤ s._frameRequestIndex →
    ∀ f1 f2, 3 * m + 2 ≤ f1 → 3 * m + 2 ≤ f2 →
    ∃ s1 s', computeFrameRequest E f1 false forward fit true s = Except.ok s1 ∧
      deliverSignals E f2 s1 = Except.ok s' ∧ Stopped s' ∧
      presentedFrames s'.trace = presentedFrames s.trace ++
        loopFrames first last (nextFrame first last s.timelineFrame) m

/-- What `engineLoop` does in a viewer playback once the current frame is produced, with `m`
frames left after it: the frame is presented, then the `m` following ones, and the engine
stops. -/
def EngineLoopSpec (E : Env ν) (r : ν) (first last : Int) (m : Nat) : Prop :=
  ∀ (s : VideoEngine ν), ViewerPlaying E r first last s →
    s._frameRequestsCount = (m : Int) + 1 → 0 ≤ s._frameRequestIndex →
    ∀ f1 f2, 3 * m + 3 ≤ f1 → 3 * m + 2 ≤ f2 →
    ∃ s1 s', engineLoop E f1 s = Except.ok s1 ∧
      deliverSignals E f2 s1 = Except.ok s' ∧ Stopped s' ∧
      presentedFrames s'.trace = presentedFrames s.trace ++
        loopFrames first last s.timelineFrame (m + 1)

/-- The engine after `startReading` found the current frame in the viewer cache, the output was
validated and `cachedFrameEngine` ran. -/
def afterCacheHit (E : Env ν) (r : ν) (s : VideoEngine ν) : VideoEngine ν :=
  cachedFrameEngine s.timelineFrame
    { record (Event.openCachedFrame r s.timelineFrame false) s with
      infoFirstFrame := E.validatedFirstFrame, infoLastFrame := E.validatedLastFrame }

/-- The engine after `startReading` decoded the current frame and the output was validated. -/
def afterCacheMiss (E : Env ν) (r : ν) (s : VideoEngine ν) : VideoEngine ν :=
  { record (Event.decodeFrames r s.timelineFrame true false s._forward) s with
    infoFirstFrame := E.validatedFirstFrame, infoLastFrame := E.validatedLastFrame }

/-- The engine after `computeTreeForFrame` sent the rows of `frame` to the worker pool. -/
def afterDispatch (frame : Int) (rows : List Row) (s : VideoEngine ν) : VideoEngine ν :=
  record (Event.dispatchRows frame rows)
    { s with _sequenceToWork := rows, workerWatcherPending := true }

/-- The engine when `fillPBO` has completed and its signal is delivered. -/
def afterFillPBO (s : VideoEngine ν) : VideoEngine ν :=
  record (Event.fillPBO s.timelineFrame)
    { s with _sequenceToWork := [], workerWatcherPending := false,
             postProcessFinished := true, engineLoopWatcherPending := false }

/-- The reader calls that the look-ahead read of `engineLoop` adds to the trace. -/
def aheadEvents (E : Env ν) (readers : List ν) (s : VideoEngine ν) : List (Event ν) :=
  (startReading E readers false true s).2.trace.drop s.trace.length

end playback_specs

section request_specs
variable {ν : Type} [DecidableEq ν]

/-- Lines 287-310 of `engineLoop`: the engine in the state in which `engineLoop` makes its
recursive call of `computeFrameRequest` (countdown and request index updated, frame presented
on a viewer, look-ahead read started). -/
def engineLoopRequest (E : Env ν) (s : VideoEngine ν) : VideoEngine ν :=
  let s1 : VideoEngine ν :=
    if s._frameRequestIndex = 0 ∧ s._frameRequestsCount = 1 ∧ s._sameFrame = false then
      { s with _frameRequestsCount := 0 }
    else if s._frameRequestsCount ≠ -1 then
      { s with _frameRequestsCount := s._frameRequestsCount - 1 }
    else s
  let s2 : VideoEngine ν := { s1 with _frameRequestIndex := s1._frameRequestIndex + 1 }
  let s3 : VideoEngine ν :=
    if isOutputAViewer s2 = true then record (Event.copyPBOtoTexture s2.timelineFrame) s2
    else s2
  if s3._frameRequestsCount ≠ 0 ∧ s3._paused = false then
    (startReading E (getReaders E s3) false true s3).2
  else s3

/-- The engine as `videoEngine` hands it to `computeFrameRequest` (lines 75-80). -/
def startedEngine (frameCount : Int) (forward : Bool) (s : VideoEngine ν) : VideoEngine ν :=
  { s with playState := PlayState.RUNNING, _frameRequestsCount := frameCount,
           _frameRequestIndex := 0, _forward := forward, _paused := false, _aborted := false }

/-- The frame `c` clamped into [`first`, `last`] as lines 182-187 do it. -/
def clampFrame (first last c : Int) : Int :=
  if c < first then first else if c > last then last else c

/-- An idle viewer engine that still holds the flags and counters of an aborted backward
playback. -/
def staleIdleEngine : VideoEngine (Fin 2) :=
  { idleEngine true with _aborted := true, _paused := true, _forward := false,
                         _frameRequestsCount := 4, _frameRequestIndex := 9 }

/-- The viewer of `idleEngine` with the timeline at frame `c`. -/
def viewerAtFrame (c : Int) : VideoEngine (Fin 2) :=
  { idleEngine true with _paused := false, _frameRequestsCount := 3, timelineFrame := c,
                         playState := PlayState.RUNNING }

/-- The viewer of `idleEngine` when `engineLoop` is entered for a frame that was requested with
`sameFrame = true` and a countdown of `count`. -/
def sameFrameProduced (count : Int) : VideoEngine (Fin 2) :=
  afterCacheHit sampleEnv 0
    { startedEngine count true (idleEngine true) with _working := true, _sameFrame := true }

end request_specs

section abort_specs
variable {ν : Type} [DecidableEq ν]

/-- Whether a call of the trace is a call on a reader (`decodeFrames` or `openCachedFrame`). -/
def isReaderCall : Event ν → Bool
  | Event.decodeFrames _ _ _ _ _ => true
  | Event.openCachedFrame _ _ _ => true
  | _ => false

/-- The countdown after the bookkeeping of `engineLoop` (lines 287-291). -/
def countdownAfterFrame (s : VideoEngine ν) : Int :=
  if s._frameRequestIndex = 0 ∧ s._frameRequestsCount = 1 ∧ s._sameFrame = false then 0
  else if s._frameRequestsCount ≠ -1 then s._frameRequestsCount - 1
  else s._frameRequestsCount

/-- The calls that present a frame whose rows the worker pool has completed: `fillPBO` and
`copyPBOtoTexture` on a viewer, `startWriting` on a writer. -/
def presentationCalls (s : VideoEngine ν) : List (Event ν) :=
  if s._dag._isViewer = true then
    [Event.fillPBO s.timelineFrame, Event.copyPBOtoTexture s.timelineFrame]
  else [Event.startWriting s.writerCurrentFrame]

/-- The engine when the worker signal of a writer has run `finishComputeFrameRequest` up to
`startWriting()`: the writer has encoded its current frame. -/
def afterStartWriting (s : VideoEngine ν) : VideoEngine ν :=
  record (Event.startWriting s.writerCurrentFrame)
    { s with _sequenceToWork := [], workerWatcherPending := false }

/-- The viewer of `idleEngine` in the middle of a request for frame 5 (working, countdown 3),
with the deferred requests `tasks` in the queue, after `pause()` and `abort()` were both
called. -/
def pausedAndAborted (tasks : List (Task (Fin 2))) : VideoEngine (Fin 2) :=
  abort (pause { viewerAtFrame 5 with _working := true, _waitingTasks := tasks })

/-- The viewer of `idleEngine` when the two rows of frame 5 are with the worker pool, one seek
being deferred in the task queue. -/
def rowsInFlight : VideoEngine (Fin 2) :=
  afterDispatch 5
    [{ offset := 0, y := 0, right := 4, channels := 15, zoomedY := 0 },
     { offset := 0, y := 1, right := 4, channels := 15, zoomedY := 1 }]
    { viewerAtFrame 5 with _working := true, _waitingTasks := [seekTask 2] }

end abort_specs

section dag_specs2
variable {ν : Type} [DecidableEq ν]

/-- Two DAG states hold the same `_graph`, `_sorted` and `_inputs` sequences. -/
structure SameLists (s t : GraphState ν) : Prop where
  graph_eq : s.dag._graph = t.dag._graph
  sorted_eq : s.dag._sorted = t.dag._sorted
  inputs_eq : s.dag._inputs = t.dag._inputs

/-- Two DAG states hold the same sequences and the same marks on the nodes of `S`. -/
structure SameSort (S : ν → Prop) (s t : GraphState ν) : Prop where
  lists : SameLists s t
  marks : ∀ x, S x → s.marked x = t.marked x

/-- Two nodes that are each other's parent; node 2 has node 0 as its parent. -/
def twoCycle : NodeGraph (Fin 3) where
  getParents := fun n => if n = 0 then [1] else [0]
  isInputNode := fun _ => false

end dag_specs2

section hash_specs
variable {ν : Type} [DecidableEq ν]

/-- The test at the head of `computeTreeHash`: whether `alreadyComputed` holds an entry with the
name of `n`. -/
def nameComputed (E : Env ν) (alreadyComputed : List (String × Nat)) (n : ν) : Bool :=
  alreadyComputed.any (fun e => e.1 == E.getName n)

/-- The entry that `computeTreeHash` appends for the node `n`. -/
def hashEntry (E : Env ν) (n : ν) : String × Nat := (E.getName n, E.getHashValue n)

/-- The reset state of `_treeVersion` (`Hash::reset()`). -/
def resetHash : Hash := { nodeHashes := [], hashValue := 0 }

/-- What a call `computeTreeHash(alreadyComputed, n)` appends, in terms of nodes: `seen` are the
nodes recorded before the call, `new` the nodes the call records. -/
structure HashPost (G : NodeGraph ν) (seen : List ν) (n : ν) (new : List ν) : Prop where
  nodup : new.Nodup
  fresh : ∀ x ∈ new, x ∉ seen
  reach : ∀ x ∈ new, G.Reachable n x
  visited : n ∈ seen ∨ n ∈ new
  closed : ∀ x ∈ new, ∀ p ∈ G.getParents x, p ∈ seen ∨ p ∈ new
  first : n ∉ seen → ∃ rest, new = n :: rest
  preorder : ∀ x ∈ new, x ≠ n → ∃ l1 m l2 l3,
    new = l1 ++ m :: (l2 ++ x :: l3) ∧ x ∈ G.getParents m ∧ ∀ y ∈ l2, G.Reachable m y

/-- What the loop of `computeTreeHash` over the parents `ps` of a node appends. -/
structure HashFoldPost (G : NodeGraph ν) (seen : List ν) (ps : List ν) (new : List ν) :
    Prop where
  nodup : new.Nodup
  fresh : ∀ x ∈ new, x ∉ seen
  reach : ∀ x ∈ new, ∃ p ∈ ps, G.Reachable p x
  visited : ∀ p ∈ ps, p ∈ seen ∨ p ∈ new
  closed : ∀ x ∈ new, ∀ p ∈ G.getParents x, p ∈ seen ∨ p ∈ new
  preorder : ∀ x ∈ new, x ∈ ps ∨ ∃ l1 m l2 l3,
    new = l1 ++ m :: (l2 ++ x :: l3) ∧ x ∈ G.getParents m ∧ ∀ y ∈ l2, G.Reachable m y

/-- A diamond with names and hash values: the output 3 has the parents 1 and 2, which share the
parent 0. -/
def diamondEnv : Env (Fin 4) where
  nodes := diamond
  isReader := fun n => decide (n = 0)
  hasFrames := fun _ => true
  readerFirstFrame := fun _ => 1
  readerLastFrame := fun _ => 5
  validatedFirstFrame := 1
  validatedLastFrame := 5
  decodeFrames := fun _ _ _ => 1
  viewerCacheGet := fun _ _ _ => false
  isTextureCached := fun _ _ => false
  computeRowSpan := [0, 1]
  dataWindowY := 0
  dataWindowTop := 2
  dataWindowX := 0
  dataWindowRight := 4
  displayChannels := 15
  writerRequestedChannels := 7
  infoChannels := 15
  getName := fun n => if n = 3 then "Viewer" else if n = 2 then "Blur" else
    if n = 1 then "Grade" else "Reader"
  getHashValue := fun n => 10 + n.val
  computeHash := fun l => l.sum

end hash_specs

section entry_points
variable {ν : Type} [DecidableEq ν]

/-- Function `VideoEngine::startEngine(nbFrames)` (lines 568-572). `isViewerNode o` is whether
`dynamic_cast<Viewer*>(o)` is not null; the call is
`videoEngine(outputIsViewer, nbFrames, true, true)`, so the `bool` becomes the frame count
(1 or 0) and the `int` becomes `fitFrameToViewer` (`nbFrames != 0`). -/
def startEngine (E : Env ν) (isViewerNode : ν → Bool) (fuel : Nat) (nbFrames : Int)
    (s : VideoEngine ν) : Except Fault (VideoEngine ν) :=
  let outputIsViewer : Bool :=
    match s._dag._output with
    | none => false
    | some o => isViewerNode o
  videoEngine E fuel (if outputIsViewer then 1 else 0) (decide (nbFrames ≠ 0)) true true s

/-- Function `VideoEngine::nextFrame()` (lines 674-684). -/
def VideoEngine.nextFrame (E : Env ν) (fuel : Nat) (s : VideoEngine ν) :
    Except Fault (VideoEngine ν) :=
  let s1 : VideoEngine ν :=
    if s.playForwardChecked = true ∨ s.playBackwardChecked = true then pause s else s
  if s1._working = false then _startEngine E fuel (s1.timelineFrame + 1) 1 false true none s1
  else Except.ok s1

/-- The frame that a recursive (next-frame) request on a viewer seeks, in the words of the
specification: forward `current + 1` or, past `last`, `first` with loop mode; backward
`current - 1` or, before `first`, `last` with loop mode; `none` when the request stops at the
boundary without loop mode. -/
def nextViewerFrame (forward loopMode : Bool) (first last current : Int) : Option Int :=
  if forward then
    if current + 1 > last then (if loopMode then some first else none) else some (current + 1)
  else
    if current - 1 < first then (if loopMode then some last else none) else some (current - 1)

/-- The rows of a writer in the words of the specification: one row per scanline
`dataWindow.y + i`, with `zoomedY = i`. -/
def writerBatch (E : Env ν) : List Row :=
  (List.range (E.dataWindowTop - E.dataWindowY).toNat).map
    (fun (i : Nat) =>
      ({ offset := E.dataWindowX, y := E.dataWindowY + (i : Int), right := E.dataWindowRight,
         channels := E.writerRequestedChannels, zoomedY := (i : Int) } : Row))

end entry_points

section routing_specs
variable {ν : Type} [DecidableEq ν]

end routing_specs

section single_frame_specs
variable {ν : Type} [DecidableEq ν]

/-- A viewer in a request, in any direction and with or without loop mode: the DAG has a viewer
output and one reader `r`, no pause and no abort is pending, no task is deferred and no signal
is pending. -/
structure ViewerRunning (E : Env ν) (r : ν) (s : VideoEngine ν) : Prop where
  viewer : s._dag._isViewer = true
  output : s._dag._output.isSome = true
  readers : getReaders E s = [r]
  notAborted : s._aborted = false
  notPaused : s._paused = false
  noTask : s._waitingTasks = []
  workerSignal : s.workerWatcherPending = false
  loopSignal : s.engineLoopWatcherPending = false

/-- The engine `t` holds the frame that the request in state `s` has produced (from the viewer
cache, from the texture cache or from the worker pool), ready for `engineLoop`: the counters,
the direction, loop mode and the timeline are those of `s`, the range is the validated one, and
no frame was presented in between. -/
structure Produced (E : Env ν) (r : ν) (s t : VideoEngine ν) : Prop where
  running : ViewerRunning E r t
  countdown : t._frameRequestsCount = s._frameRequestsCount
  index : t._frameRequestIndex = s._frameRequestIndex
  timeline : t.timelineFrame = s.timelineFrame
  infoFirst : t.infoFirstFrame = E.validatedFirstFrame
  infoLast : t.infoLastFrame = E.validatedLastFrame
  forward : t._forward = s._forward
  loopMode : t._loopMode = s._loopMode
  presented : presentedFrames t.trace = presentedFrames s.trace

/-- Function `VideoEngine::seekRandomFrame(f)` (lines 736-747). -/
def seekRandomFrame (E : Env ν) (fuel : Nat) (f : Int) (s : VideoEngine ν) :
    Except Fault (VideoEngine ν) :=
  if s._dag._output.isNone = true ∨ s._dag._inputs = [] then Except.ok s
  else
    let s1 : VideoEngine ν := pause s
    if s1._working = false then _startEngine E fuel f 1 false true none s1
    else
      Except.ok
        (appendTask f (-1) false true s1._dag._output VengineFunction._startEngine s1)

/-- The viewer of `viewerAtLastFrame` after `seekRandomFrame(2)` was called while it plays: the
pause flag is set and the seek is deferred. -/
def seekWhilePlaying : VideoEngine (Fin 2) :=
  appendTask 2 (-1) false true (some 1) VengineFunction._startEngine
    (pause (viewerAtLastFrame true))

/-- The viewer of `viewerAtLastFrame` with the pause flag set and the deferred tasks `tasks`. -/
def pausedWithTasks (tasks : List (Task (Fin 2))) : VideoEngine (Fin 2) :=
  { viewerAtLastFrame true with _paused := true, _waitingTasks := tasks }

/-- An environment like `sampleEnv` whose sequence has the single frame 4. -/
def singleFrameEnv : Env (Fin 2) :=
  { sampleEnv with validatedFirstFrame := 4, validatedLastFrame := 4,
                   readerFirstFrame := fun _ => 4, readerLastFrame := fun _ => 4 }

end single_frame_specs

section countdown_specs
variable {ν : Type} [DecidableEq ν]

/-- The viewer of `seekWhilePlaying` when the deferred seek to frame 2 has made its first
request (`videoEngine(-1, false, true)` after the seek): the state in which the frame is
read. -/
def deferredSeekRequest : VideoEngine (Fin 2) :=
  seek (clampFrame 1 5 2)
    { startedEngine (-1) true
        (seek 2 (record (Event.callTask (seekTask 2))
          { stopEngine { seekWhilePlaying with _working := true, _sameFrame := false } with
            _waitingTasks := [] })) with
      _working := true, _sameFrame := false, infoFirstFrame := 1, infoLastFrame := 5 }

end countdown_specs

section int_range_specs
variable {ν : Type} [DecidableEq ν]

/-- A viewer of `sampleEnv` playing forward whose range is [1, 2147483647] and whose timeline is
at 2147483647, the largest `int`: one frame presented, two more requested. -/
def viewerAtIntMax (loopMode : Bool) : VideoEngine (Fin 2) :=
  { viewerAtLastFrame loopMode with timelineFrame := 2147483647, infoLastFrame := 2147483647 }

/-- A viewer of `sampleEnv` playing backward whose range is [-2147483648, 5] and whose timeline
is at -2147483648, the smallest `int`. -/
def viewerAtIntMin (loopMode : Bool) : VideoEngine (Fin 2) :=
  { viewerAtFirstFrame loopMode with timelineFrame := -2147483648,
                                     infoFirstFrame := -2147483648 }

/-- The next frame of a recursive request on a viewer as lines 191-215 compute it, `+ 1` and
`- 1` being `int` operations; `none` when the request stops at the boundary without loop
mode. -/
def viewerNextFrame (forward loopMode : Bool) (first last current : Int) : Option Int :=
  if forward then
    if wrapInt (current + 1) > last then (if loopMode then some first else none)
    else some (wrapInt (current + 1))
  else
    if wrapInt (current - 1) < first then (if loopMode then some last else none)
    else some (wrapInt (current - 1))

/-- The environment of `sampleEnv` with a sequence whose frames are 1 to 2147483647. -/
def longSequenceEnv : Env (Fin 2) :=
  { sampleEnv with validatedLastFrame := 2147483647, readerLastFrame := fun _ => 2147483647 }

/-- The idle viewer of `idleEngine` with the timeline at frame 2147483647. -/
def idleAtIntMax : VideoEngine (Fin 2) :=
  { idleEngine true with timelineFrame := 2147483647 }

end int_range_specs
section dag_proofs
set_option linter.unusedSectionVars false
variable {ν : Type} [DecidableEq ν]

theorem wf_of_acyclic [Finite ν] (G : NodeGraph ν) (h : G.Acyclic) :
    WellFounded (fun p n => G.Edge n p) := by
  have hirr : IsIrrefl ν (Relation.TransGen (fun p n => G.Edge n p)) :=
    ⟨fun n hn => h n (Relation.transGen_swap.mp hn)⟩
  have htr : IsTrans ν (Relation.TransGen (fun p n => G.Edge n p)) :=
    ⟨fun _ _ _ => Relation.TransGen.trans⟩
  have hwf := @Finite.wellFounded_of_trans_of_irrefl ν _
    (Relation.TransGen (fun p n => G.Edge n p)) htr hirr
  exact @Subrelation.wf ν (Relation.TransGen (fun p n => G.Edge n p)) (fun p n => G.Edge n p)
    (fun hab => Relation.TransGen.single hab) hwf

theorem acyclic_of_rank (G : NodeGraph ν) (rank : ν → Nat)
    (h : ∀ n, ∀ p ∈ G.getParents n, rank p < rank n) : G.Acyclic := by
  have key : ∀ a b, Relation.TransGen G.Edge a b → rank b < rank a := by
    intro a b hab
    induction hab with
    | single e => exact h _ _ e
    | tail _ e ih => exact lt_trans (h _ _ e) ih
  intro n hn
  exact lt_irrefl _ (key n n hn)

theorem diamond_acyclic : diamond.Acyclic :=
  acyclic_of_rank diamond (fun n => n.val) (by decide)

theorem fillPost_refl (G : NodeGraph ν) (s : GraphState ν) : FillPost G (fun _ => False) s s where
  ext := ⟨[], by simp⟩
  mem := by simp
  nodup := id
  inputs := id
  unmarked := id
  sorted_eq := rfl
  output_eq := rfl
  isViewer_eq := rfl
  validate_eq := rfl
  hasValidated_eq := rfl

theorem fillPost_trans {G : NodeGraph ν} {a b : ν → Prop} {s t u : GraphState ν}
    (h1 : FillPost G a s t) (h2 : FillPost G b t u) : FillPost G (fun x => a x ∨ b x) s u where
  ext := by
    obtain ⟨L1, e1⟩ := h1.ext
    obtain ⟨L2, e2⟩ := h2.ext
    exact ⟨L1 ++ L2, by rw [e2, e1, List.append_assoc]⟩
  mem := by
    intro x
    rw [h2.mem, h1.mem, or_assoc]
  nodup := fun h => h2.nodup (h1.nodup h)
  inputs := fun h => h2.inputs (h1.inputs h)
  unmarked := fun h => h2.unmarked (h1.unmarked h)
  sorted_eq := h2.sorted_eq.trans h1.sorted_eq
  output_eq := h2.output_eq.trans h1.output_eq
  isViewer_eq := h2.isViewer_eq.trans h1.isViewer_eq
  validate_eq := h2.validate_eq.trans h1.validate_eq
  hasValidated_eq := h2.hasValidated_eq.trans h1.hasValidated_eq

theorem fillPost_congr {G : NodeGraph ν} {a b : ν → Prop} {s t : GraphState ν}
    (h : FillPost G a s t) (hab : ∀ x, x ∈ s.dag._graph ∨ a x ↔ x ∈ s.dag._graph ∨ b x) :
    FillPost G b s t :=
  { h with mem := fun x => (h.mem x).trans (hab x) }

/-- The first statement of `fillGraph`: record `n` unless `_graph` already has it. -/
theorem fillGraph_record (G : NodeGraph ν) (n : ν) (s : GraphState ν) :
    FillPost G (fun x => x = n) s
      (if n ∈ s.dag._graph then s
       else
        { dag := { s.dag with
                    _graph := s.dag._graph ++ [n],
                    _inputs := if G.isInputNode n then s.dag._inputs ++ [n] else s.dag._inputs },
          marked := setMarked s.marked n false }) := by
  by_cases hn : n ∈ s.dag._graph
  · rw [if_pos hn]
    refine fillPost_congr (fillPost_refl G s) ?_
    intro x
    constructor
    · rintro (h | h)
      · exact Or.inl h
      · exact h.elim
    · rintro (h | h)
      · exact Or.inl h
      · exact Or.inl (h ▸ hn)
  · rw [if_neg hn]
    refine ⟨⟨[n], rfl⟩, ?_, ?_, ?_, ?_, rfl, rfl, rfl, rfl, rfl⟩
    · intro x
      simp
    · intro hnd
      exact List.Nodup.append hnd (List.nodup_singleton n) (by simpa using hn)
    · intro hin
      by_cases hi : G.isInputNode n = true
      · simp [hi, hin, List.filter_append]
      · simp [hi, hin, List.filter_append]
    · intro hm x hx
      simp only [List.mem_append, List.mem_singleton] at hx
      simp only [setMarked]
      by_cases hxn : x = n
      · simp [hxn]
      · rw [if_neg hxn]
        rcases hx with hx | hx
        · exact hm x hx
        · exact absurd hx hxn

theorem exists_fuel_bound (ps : List ν) (P : ν → Nat → Prop)
    (h : ∀ p ∈ ps, ∃ f0, ∀ fuel, f0 ≤ fuel → P p fuel) :
    ∃ f0, ∀ fuel, f0 ≤ fuel → ∀ p ∈ ps, P p fuel := by
  induction ps with
  | nil => exact ⟨0, fun _ _ p hp => absurd hp (List.not_mem_nil p)⟩
  | cons q qs ih =>
    obtain ⟨f1, h1⟩ := h q (List.mem_cons_self q qs)
    obtain ⟨f2, h2⟩ := ih (fun p hp => h p (List.mem_cons_of_mem q hp))
    refine ⟨max f1 f2, fun fuel hfuel p hp => ?_⟩
    rcases List.mem_cons.mp hp with e | hp'
    · rw [e]
      exact h1 fuel (le_trans (le_max_left _ _) hfuel)
    · exact h2 fuel (le_trans (le_max_right _ _) hfuel) p hp'

theorem exists_fuel_bound_all [Finite ν] (P : ν → Nat → Prop)
    (h : ∀ p, ∃ f0, ∀ fuel, f0 ≤ fuel → P p fuel) :
    ∃ f0, ∀ fuel, f0 ≤ fuel → ∀ p, P p fuel := by
  cases nonempty_fintype ν
  obtain ⟨f0, hf0⟩ := exists_fuel_bound (Finset.univ : Finset ν).toList P (fun p _ => h p)
  exact ⟨f0, fun fuel hfuel p => hf0 fuel hfuel p (Finset.mem_toList.mpr (Finset.mem_univ p))⟩

theorem fillGraph_fold (G : NodeGraph ν) (fuel : Nat) (ps : List ν)
    (ih : ∀ p ∈ ps, ∀ s, ∃ s',
      fillGraph G fuel p s = some s' ∧ FillPost G (G.Reachable p) s s') (s : GraphState ν) :
    ∃ s', ps.foldlM (fun acc p => fillGraph G fuel p acc) s = some s' ∧
      FillPost G (fun x => ∃ p ∈ ps, G.Reachable p x) s s' := by
  induction ps generalizing s with
  | nil => exact ⟨s, rfl, fillPost_congr (fillPost_refl G s) (by simp)⟩
  | cons p ps ihps =>
    obtain ⟨t, ht, hpost1⟩ := ih p (List.mem_cons_self p ps) s
    obtain ⟨u, hu, hpost2⟩ := ihps (fun q hq => ih q (List.mem_cons_of_mem p hq)) t
    refine ⟨u, ?_, ?_⟩
    · rw [List.foldlM_cons, ht]
      exact hu
    · refine fillPost_congr (fillPost_trans hpost1 hpost2) ?_
      intro x
      simp

/-- A first visit of `n` appends `n` itself before anything else. -/
theorem fillGraph_first (G : NodeGraph ν) (fuel : Nat) (n : ν) (s s' : GraphState ν)
    (ih : ∀ p ∈ G.getParents n, ∀ s, ∃ s',
      fillGraph G fuel p s = some s' ∧ FillPost G (G.Reachable p) s s')
    (h : fillGraph G (fuel + 1) n s = some s') (hn : n ∉ s.dag._graph) :
    ∃ L, s'.dag._graph = s.dag._graph ++ n :: L := by
  rw [fillGraph, if_neg hn] at h
  obtain ⟨t, ht, hpost⟩ := fillGraph_fold G fuel (G.getParents n) ih
    { dag := { s.dag with
                _graph := s.dag._graph ++ [n],
                _inputs := if G.isInputNode n then s.dag._inputs ++ [n] else s.dag._inputs },
      marked := setMarked s.marked n false }
  rw [h] at ht
  obtain ⟨L, hL⟩ := hpost.ext
  refine ⟨L, ?_⟩
  rw [Option.some.inj ht, hL]
  simp

theorem fillGraph_spec (G : NodeGraph ν) (hwf : WellFounded (fun p n => G.Edge n p)) (n : ν) :
    ∃ f0, ∀ fuel, f0 ≤ fuel → ∀ s, ∃ s',
      fillGraph G fuel n s = some s' ∧ FillPost G (G.Reachable n) s s' ∧
      (n ∉ s.dag._graph → ∃ L, s'.dag._graph = s.dag._graph ++ n :: L) := by
  induction n using hwf.induction with
  | _ n ih =>
    obtain ⟨f0, hf0⟩ := exists_fuel_bound (G.getParents n)
      (fun p fuel => ∀ s, ∃ s', fillGraph G fuel p s = some s' ∧ FillPost G (G.Reachable p) s s')
      (fun p hp => by
        obtain ⟨f, hf⟩ := ih p hp
        exact ⟨f, fun fuel hfuel s => by
          obtain ⟨s', h1, h2, _⟩ := hf fuel hfuel s
          exact ⟨s', h1, h2⟩⟩)
    refine ⟨f0 + 1, fun fuel hfuel s => ?_⟩
    obtain ⟨k, rfl⟩ : ∃ k, fuel = k + 1 := ⟨fuel - 1, by omega⟩
    obtain ⟨s', hs', hpost⟩ := fillGraph_fold G k (G.getParents n) (hf0 k (by omega))
      (if n ∈ s.dag._graph then s
       else
        { dag := { s.dag with
                    _graph := s.dag._graph ++ [n],
                    _inputs := if G.isInputNode n then s.dag._inputs ++ [n] else s.dag._inputs },
          marked := setMarked s.marked n false })
    have hrun : fillGraph G (k + 1) n s = some s' := by
      rw [fillGraph]
      exact hs'
    refine ⟨s', hrun, ?_, fillGraph_first G k n s s' (hf0 k (by omega)) hrun⟩
    · refine fillPost_congr (fillPost_trans (fillGraph_record G n s) hpost) ?_
      intro x
      have hr : G.Reachable n x ↔ x = n ∨ ∃ p ∈ G.getParents n, G.Reachable p x := by
        unfold NodeGraph.Reachable
        rw [Relation.ReflTransGen.cases_head_iff]
        constructor
        · rintro (h | ⟨c, hc, hcx⟩)
          · exact Or.inl h.symm
          · exact Or.inr ⟨c, hc, hcx⟩
        · rintro (h | ⟨c, hc, hcx⟩)
          · exact Or.inl h.symm
          · exact Or.inr ⟨c, hc, hcx⟩
      rw [hr]

end dag_proofs
section dfs_proofs
set_option linter.unusedSectionVars false
variable {ν : Type} [DecidableEq ν]

theorem dfsRel_refl {G : NodeGraph ν} {A : ν → Prop} {s : GraphState ν} (hinv : SortInv G s)
    (hst : ∀ x ∈ s.dag._graph, s.marked x = true → x ∈ s.dag._sorted ∨ A x) :
    DfsRel G A s s :=
  ⟨hinv, hst, rfl, rfl, rfl, rfl, rfl, rfl, fun _ h => h, fun _ h => h, fun _ h => Or.inl h⟩

theorem dfsRel_trans {G : NodeGraph ν} {A : ν → Prop} {s t u : GraphState ν}
    (h1 : DfsRel G A s t) (h2 : DfsRel G A t u) : DfsRel G A s u where
  inv := h2.inv
  stack := h2.stack
  graph_eq := h2.graph_eq.trans h1.graph_eq
  inputs_eq := h2.inputs_eq.trans h1.inputs_eq
  output_eq := h2.output_eq.trans h1.output_eq
  isViewer_eq := h2.isViewer_eq.trans h1.isViewer_eq
  validate_eq := h2.validate_eq.trans h1.validate_eq
  hasValidated_eq := h2.hasValidated_eq.trans h1.hasValidated_eq
  mono := fun x h => h2.mono x (h1.mono x h)
  keep := fun x h => h2.keep x (h1.keep x h)
  fresh := by
    intro x hx
    rcases h2.fresh x hx with h | h
    · exact h1.fresh x h
    · right
      by_contra hc
      have : s.marked x = true := by simpa using hc
      rw [h1.mono x this] at h
      exact Bool.noConfusion h

theorem depthCycle_fold (G : NodeGraph ν) (hac : G.Acyclic) (fuel : Nat) (ps : List ν)
    (ih : ∀ p ∈ ps, ∀ (A : ν → Prop) s, DfsPre G A p s →
      ∃ t, _depthCycle G fuel p s = some t ∧ DfsRel G A s t ∧ p ∈ t.dag._sorted)
    (A : ν → Prop) (s : GraphState ν) (hinv : SortInv G s)
    (hcl : ∀ x ∈ s.dag._graph, ∀ p ∈ G.getParents x, p ∈ s.dag._graph)
    (hst : ∀ x ∈ s.dag._graph, s.marked x = true → x ∈ s.dag._sorted ∨ A x)
    (hin : ∀ p ∈ ps, p ∈ s.dag._graph)
    (hbelow : ∀ p ∈ ps, ∀ x, A x → Relation.TransGen G.Edge x p) :
    ∃ t, ps.foldlM
        (fun acc p => if acc.marked p then some acc else _depthCycle G fuel p acc) s = some t ∧
      DfsRel G A s t ∧ ∀ p ∈ ps, p ∈ t.dag._sorted := by
  induction ps generalizing s with
  | nil =>
    refine ⟨s, rfl, dfsRel_refl hinv hst, ?_⟩
    intro p hp
    exact absurd hp (List.not_mem_nil p)
  | cons p ps ihps =>
    have hpA : ¬ A p := fun hA => hac p (hbelow p (List.mem_cons_self p ps) p hA)
    have step : ∃ t, (if s.marked p then some s else _depthCycle G fuel p s) = some t ∧
        DfsRel G A s t ∧ p ∈ t.dag._sorted := by
      by_cases hm : s.marked p = true
      · rw [if_pos hm]
        refine ⟨s, rfl, dfsRel_refl hinv hst, ?_⟩
        rcases hst p (hin p (List.mem_cons_self p ps)) hm with h | h
        · exact h
        · exact absurd h hpA
      · rw [if_neg hm]
        have hm' : s.marked p = false := by simpa using hm
        exact ih p (List.mem_cons_self p ps) A s
          ⟨hinv, hcl, hst, hin p (List.mem_cons_self p ps), hm',
            hbelow p (List.mem_cons_self p ps)⟩
    obtain ⟨t, ht, hrel, hpt⟩ := step
    obtain ⟨u, hu, hrel2, hps⟩ := ihps (fun q hq => ih q (List.mem_cons_of_mem p hq)) t hrel.inv
      (by rw [hrel.graph_eq]; exact hcl) hrel.stack
      (by
        intro q hq
        rw [hrel.graph_eq]
        exact hin q (List.mem_cons_of_mem p hq))
      (fun q hq => hbelow q (List.mem_cons_of_mem p hq))
    refine ⟨u, ?_, dfsRel_trans hrel hrel2, ?_⟩
    · rw [List.foldlM_cons, ht]
      exact hu
    · intro q hq
      rcases List.mem_cons.mp hq with h | h
      · rw [h]
        exact hrel2.keep p hpt
      · exact hps q h

theorem depthCycle_spec (G : NodeGraph ν) (hac : G.Acyclic)
    (hwf : WellFounded (fun p n => G.Edge n p)) (n : ν) :
    ∃ f0, ∀ fuel, f0 ≤ fuel → ∀ (A : ν → Prop) s, DfsPre G A n s →
      ∃ t, _depthCycle G fuel n s = some t ∧ DfsRel G A s t ∧ n ∈ t.dag._sorted := by
  induction n using hwf.induction with
  | _ n ih =>
    obtain ⟨f0, hf0⟩ := exists_fuel_bound (G.getParents n)
      (fun p fuel => ∀ (A : ν → Prop) s, DfsPre G A p s →
        ∃ t, _depthCycle G fuel p s = some t ∧ DfsRel G A s t ∧ p ∈ t.dag._sorted)
      (fun p hp => ih p hp)
    refine ⟨f0 + 1, fun fuel hfuel A s hpre => ?_⟩
    obtain ⟨k, rfl⟩ : ∃ k, fuel = k + 1 := ⟨fuel - 1, by omega⟩
    have hns : n ∉ s.dag._sorted := by
      intro h
      have := hpre.inv.marked n h
      rw [hpre.unmarked] at this
      exact Bool.noConfusion this
    -- the state after `n->setMarked(true)`
    have hinv1 : SortInv G { s with marked := setMarked s.marked n true } := by
      refine ⟨hpre.inv.nodup, ?_, hpre.inv.inGraph, hpre.inv.order⟩
      intro x hx
      simp only [setMarked]
      by_cases hxn : x = n
      · simp [hxn]
      · rw [if_neg hxn]
        exact hpre.inv.marked x hx
    obtain ⟨t, ht, hrel, hps⟩ := depthCycle_fold G hac k (G.getParents n) (hf0 k (by omega))
      (fun x => A x ∨ x = n)
      { s with marked := setMarked s.marked n true } hinv1 hpre.closed
      (by
        intro x hx hm
        simp only [setMarked] at hm
        by_cases hxn : x = n
        · exact Or.inr (Or.inr hxn)
        · rw [if_neg hxn] at hm
          rcases hpre.stack x hx hm with h | h
          · exact Or.inl h
          · exact Or.inr (Or.inl h))
      (fun p hp => hpre.closed n hpre.inGraph p hp)
      (by
        intro p hp x hx
        rcases hx with hx | hx
        · exact Relation.TransGen.tail (hpre.below x hx) hp
        · rw [hx]
          exact Relation.TransGen.single hp)
    have hnt : n ∉ t.dag._sorted := by
      intro h
      rcases hrel.fresh n h with h' | h'
      · exact hns h'
      · simp [setMarked] at h'
    have hmn : t.marked n = true := hrel.mono n (by simp [setMarked])
    refine ⟨{ t with dag := { t.dag with _sorted := t.dag._sorted ++ [n] } }, ?_, ?_, ?_⟩
    · rw [_depthCycle]
      simp only
      rw [ht]
    · refine ⟨⟨?_, ?_, ?_, ?_⟩, ?_, hrel.graph_eq, hrel.inputs_eq, hrel.output_eq,
        hrel.isViewer_eq, hrel.validate_eq, hrel.hasValidated_eq, ?_, ?_, ?_⟩
      · exact List.Nodup.append hrel.inv.nodup (List.nodup_singleton n) (by simpa using hnt)
      · intro x hx
        rcases List.mem_append.mp hx with h | h
        · exact hrel.inv.marked x h
        · rw [List.mem_singleton.mp h]
          exact hmn
      · intro x hx
        rcases List.mem_append.mp hx with h | h
        · exact hrel.inv.inGraph x h
        · rw [List.mem_singleton.mp h, hrel.graph_eq]
          exact hpre.inGraph
      · intro x hx p hp
        show p ∈ t.dag._sorted ++ [n] ∧
          List.indexOf p (t.dag._sorted ++ [n]) < List.indexOf x (t.dag._sorted ++ [n])
        rcases List.mem_append.mp hx with h | h
        · obtain ⟨hp1, hp2⟩ := hrel.inv.order x h p hp
          refine ⟨List.mem_append_left _ hp1, ?_⟩
          rw [List.indexOf_append_of_mem hp1, List.indexOf_append_of_mem h]
          exact hp2
        · have hxn : x = n := List.mem_singleton.mp h
          rw [hxn] at hp
          have hp1 : p ∈ t.dag._sorted := hps p hp
          refine ⟨List.mem_append_left _ hp1, ?_⟩
          rw [hxn, List.indexOf_append_of_mem hp1, List.indexOf_append_of_not_mem hnt]
          have := List.indexOf_lt_length.mpr hp1
          omega
      · intro x hx hm
        show x ∈ t.dag._sorted ++ [n] ∨ A x
        rcases hrel.stack x hx hm with h | h | h
        · exact Or.inl (List.mem_append_left _ h)
        · exact Or.inr h
        · exact Or.inl (by simp [h])
      · intro x hx
        refine hrel.mono x ?_
        simp only [setMarked]
        by_cases hxn : x = n
        · simp [hxn]
        · rw [if_neg hxn]
          exact hx
      · intro x hx
        exact List.mem_append_left _ (hrel.keep x hx)
      · intro x hx
        rcases List.mem_append.mp hx with h | h
        · rcases hrel.fresh x h with h' | h'
          · exact Or.inl h'
          · right
            simp only [setMarked] at h'
            by_cases hxn : x = n
            · rw [hxn]
              exact hpre.unmarked
            · rw [if_neg hxn] at h'
              exact h'
        · rw [List.mem_singleton.mp h]
          exact Or.inr hpre.unmarked
    · show n ∈ t.dag._sorted ++ [n]
      simp

theorem resetAndSort_spec [Finite ν] (G : NodeGraph ν) (hac : G.Acyclic) (out : ν)
    (isViewer : Bool) :
    ∃ f0, ∀ fuel, f0 ≤ fuel → ∀ s0 : GraphState ν, ∃ s,
      resetAndSort G fuel (some out) isViewer s0 = some s ∧ SortedDag G out isViewer s := by
  have hwf := wf_of_acyclic G hac
  obtain ⟨f1, h1⟩ := fillGraph_spec G hwf out
  obtain ⟨f2, h2⟩ := exists_fuel_bound_all
    (fun p fuel => ∀ (A : ν → Prop) s, DfsPre G A p s →
      ∃ t, _depthCycle G fuel p s = some t ∧ DfsRel G A s t ∧ p ∈ t.dag._sorted)
    (fun p => depthCycle_spec G hac hwf p)
  refine ⟨max f1 f2, fun fuel hfuel s0 => ?_⟩
  obtain ⟨s2, hs2, hfill, hfirst⟩ := h1 fuel (le_trans (le_max_left _ _) hfuel)
    { s0 with dag := clearGraph { s0.dag with _output := some out, _isViewer := isViewer,
                                              _validate := ValidateFn.validate,
                                              _hasValidated := false } }
  have hmem : ∀ x, x ∈ s2.dag._graph ↔ G.Reachable out x := by
    intro x
    rw [hfill.mem]
    simp [clearGraph]
  have hcl : ∀ x ∈ s2.dag._graph, ∀ p ∈ G.getParents x, p ∈ s2.dag._graph := by
    intro x hx p hp
    rw [hmem] at hx ⊢
    exact Relation.ReflTransGen.tail hx hp
  have hunm : ∀ x ∈ s2.dag._graph, s2.marked x = false :=
    hfill.unmarked (by simp [clearGraph])
  have hsorted : s2.dag._sorted = [] := by
    rw [hfill.sorted_eq]
    rfl
  have hinv : SortInv G s2 := by
    refine ⟨?_, ?_, ?_, ?_⟩ <;> simp [hsorted]
  obtain ⟨s3, hs3, hrel, hall⟩ := depthCycle_fold G hac fuel s2.dag._graph
    (fun p _ => h2 fuel (le_trans (le_max_right _ _) hfuel) p) (fun _ => False) s2 hinv hcl
    (by
      intro x hx hm
      rw [hunm x hx] at hm
      exact Bool.noConfusion hm)
    (fun p hp => hp) (fun p _ x hx => hx.elim)
  refine ⟨s3, ?_, ?_⟩
  · simp only [resetAndSort]
    rw [hs2]
    exact hs3
  · refine ⟨?_, ?_, ?_, ?_, ?_, ?_, ?_, ?_, hrel.inv, ?_⟩
    · rw [hrel.output_eq, hfill.output_eq]
      rfl
    · rw [hrel.isViewer_eq, hfill.isViewer_eq]
      rfl
    · rw [hrel.validate_eq, hfill.validate_eq]
      rfl
    · rw [hrel.hasValidated_eq, hfill.hasValidated_eq]
      rfl
    · rw [hrel.graph_eq]
      exact hfill.nodup (by simp [clearGraph])
    · intro x
      rw [hrel.graph_eq]
      exact hmem x
    · rw [hrel.graph_eq]
      obtain ⟨L, hL⟩ := hfirst (by simp [clearGraph])
      rw [hL]
      simp [clearGraph]
    · rw [hrel.inputs_eq, hrel.graph_eq]
      exact hfill.inputs (by simp [clearGraph])
    · intro x hx
      rw [hrel.graph_eq] at hx
      exact hall x hx

end dfs_proofs
section dag_theorems
set_option linter.unusedSectionVars false
variable {ν : Type} [DecidableEq ν]

theorem sorted_position_lt {l : List ν} (hnd : l.Nodup) {i j : Nat} {p n : ν}
    (hi : l[i]? = some p) (hj : l[j]? = some n) (h : l.indexOf p < l.indexOf n) : i < j := by
  obtain ⟨hil, hip⟩ := List.getElem?_eq_some.mp hi
  obtain ⟨hjl, hjn⟩ := List.getElem?_eq_some.mp hj
  have e1 : l.indexOf p = i := by
    rw [← hip]
    exact List.indexOf_getElem hnd i hil
  have e2 : l.indexOf n = j := by
    rw [← hjn]
    exact List.indexOf_getElem hnd j hjl
  omega

/-- C1: on an acyclic node graph, `DAG::resetAndSort(output)` with a non-null output returns
(with enough fuel for the recursion, whatever the DAG and the marks held before) and its `_sorted`
sequence holds exactly the nodes of the graph (the nodes reachable from the output over parent
edges, the output included, which are the nodes of `_graph`), holds no node twice, and places
every node strictly after all of its parents: each parent `p` of a sorted node `n` is in
`_sorted`, and every position of `p` is smaller than every position of `n`. -/
theorem resetAndSort_parents_before_children [Fintype ν] (G : NodeGraph ν) (hac : G.Acyclic)
    (out : ν) (isViewer : Bool) :
    ∃ f0, ∀ fuel, f0 ≤ fuel → ∀ s0 : GraphState ν, ∃ s,
      resetAndSort G fuel (some out) isViewer s0 = some s ∧
      (∀ x, x ∈ s.dag._sorted ↔ G.Reachable out x) ∧
      (∀ x, x ∈ s.dag._sorted ↔ x ∈ s.dag._graph) ∧
      out ∈ s.dag._sorted ∧
      s.dag._sorted.Nodup ∧
      (∀ n ∈ s.dag._sorted, ∀ p ∈ G.getParents n, p ∈ s.dag._sorted) ∧
      ∀ (i j : Nat) (p n : ν), s.dag._sorted[i]? = some p → s.dag._sorted[j]? = some n →
        p ∈ G.getParents n → i < j := by
  obtain ⟨f0, h⟩ := resetAndSort_spec G hac out isViewer
  refine ⟨f0, fun fuel hfuel s0 => ?_⟩
  obtain ⟨s, hs, hsd⟩ := h fuel hfuel s0
  have hmem : ∀ x, x ∈ s.dag._sorted ↔ x ∈ s.dag._graph :=
    fun x => ⟨hsd.sorted_inv.inGraph x, hsd.sorted_all x⟩
  have hreach : ∀ x, x ∈ s.dag._sorted ↔ G.Reachable out x :=
    fun x => (hmem x).trans (hsd.graph_mem x)
  refine ⟨s, hs, hreach, hmem, (hreach out).mpr Relation.ReflTransGen.refl,
    hsd.sorted_inv.nodup, fun n hn p hp => (hsd.sorted_inv.order n hn p hp).1, ?_⟩
  intro i j p n hi hj hp
  have hn : n ∈ s.dag._sorted := by
    obtain ⟨hjl, hjn⟩ := List.getElem?_eq_some.mp hj
    rw [← hjn]
    exact List.getElem_mem hjl
  exact sorted_position_lt hsd.sorted_inv.nodup hi hj (hsd.sorted_inv.order n hn p hp).2

/-- Witness of C1 on the diamond graph (the parent 0 is shared by the nodes 1 and 2). -/
theorem resetAndSort_parents_before_children_diamond :
    diamond.Acyclic ∧
    ∃ f0, ∀ fuel, f0 ≤ fuel → ∀ s0 : GraphState (Fin 4), ∃ s,
      resetAndSort diamond fuel (some 3) true s0 = some s ∧
      (∀ x, x ∈ s.dag._sorted ↔ diamond.Reachable 3 x) ∧
      (∀ x, x ∈ s.dag._sorted ↔ x ∈ s.dag._graph) ∧
      3 ∈ s.dag._sorted ∧
      s.dag._sorted.Nodup ∧
      (∀ n ∈ s.dag._sorted, ∀ p ∈ diamond.getParents n, p ∈ s.dag._sorted) ∧
      ∀ (i j : Nat) (p n : Fin 4), s.dag._sorted[i]? = some p → s.dag._sorted[j]? = some n →
        p ∈ diamond.getParents n → i < j :=
  ⟨diamond_acyclic, resetAndSort_parents_before_children diamond diamond_acyclic 3 true⟩

/-- The run of `resetAndSort` on the diamond graph, from a DAG with stale content and marks. -/
theorem resetAndSort_diamond_run :
    (resetAndSort diamond 4 (some 3) true staleState).map
        (fun s => (s.dag._graph, s.dag._sorted, s.dag._inputs)) =
      some ([3, 1, 0, 2], [0, 1, 2, 3], [0]) := by
  decide

/-- C2: on an acyclic node graph, `DAG::resetAndSort(output)` with a non-null output returns
(with enough fuel) and then `_graph` holds exactly the nodes reachable from the output over
parent edges, the output included, each once, and `_inputs` holds exactly the nodes of `_graph`
for which `isInputNode()` holds, each once (it is `_graph` filtered, in the same order). -/
theorem resetAndSort_graph_and_inputs [Fintype ν] (G : NodeGraph ν) (hac : G.Acyclic)
    (out : ν) (isViewer : Bool) :
    ∃ f0, ∀ fuel, f0 ≤ fuel → ∀ s0 : GraphState ν, ∃ s,
      resetAndSort G fuel (some out) isViewer s0 = some s ∧
      s.dag._graph.Nodup ∧
      (∀ x, x ∈ s.dag._graph ↔ G.Reachable out x) ∧
      s.dag._inputs.Nodup ∧
      (∀ x, x ∈ s.dag._inputs ↔ x ∈ s.dag._graph ∧ G.isInputNode x = true) ∧
      s.dag._inputs = s.dag._graph.filter G.isInputNode := by
  obtain ⟨f0, h⟩ := resetAndSort_spec G hac out isViewer
  refine ⟨f0, fun fuel hfuel s0 => ?_⟩
  obtain ⟨s, hs, hsd⟩ := h fuel hfuel s0
  refine ⟨s, hs, hsd.graph_nodup, hsd.graph_mem, ?_, ?_, hsd.inputs_eq⟩
  · rw [hsd.inputs_eq]
    exact hsd.graph_nodup.filter _
  · intro x
    rw [hsd.inputs_eq, List.mem_filter]

/-- Witness of C2 on the diamond graph. -/
theorem resetAndSort_graph_and_inputs_diamond :
    diamond.Acyclic ∧
    ∃ f0, ∀ fuel, f0 ≤ fuel → ∀ s0 : GraphState (Fin 4), ∃ s,
      resetAndSort diamond fuel (some 3) false s0 = some s ∧
      s.dag._graph.Nodup ∧
      (∀ x, x ∈ s.dag._graph ↔ diamond.Reachable 3 x) ∧
      s.dag._inputs.Nodup ∧
      (∀ x, x ∈ s.dag._inputs ↔ x ∈ s.dag._graph ∧ diamond.isInputNode x = true) ∧
      s.dag._inputs = s.dag._graph.filter diamond.isInputNode :=
  ⟨diamond_acyclic, resetAndSort_graph_and_inputs diamond diamond_acyclic 3 false⟩

end dag_theorems
section engine_proofs
set_option linter.unusedSectionVars false
variable {ν : Type} [DecidableEq ν]

/-! ### The task queue -/

theorem runTasksFrom_past_end (call : Task ν → VideoEngine ν → Except Fault (VideoEngine ν))
    (fuel i : Nat) (s : VideoEngine ν) (h : s._waitingTasks.length ≤ i) :
    runTasksFrom call (fuel + 1) i s = Except.ok s := by
  rw [runTasksFrom, List.get?_eq_none.mpr h]

theorem runTasks_empty (call : Task ν → VideoEngine ν → Except Fault (VideoEngine ν))
    (fuel : Nat) (s : VideoEngine ν) (h : s._waitingTasks = []) :
    runTasks call (fuel + 1) s = Except.ok s := by
  unfold runTasks
  exact runTasksFrom_past_end call fuel 0 s (by simp [h])

/-- With task functions that append nothing, `runTasks` calls the first queued task only: the
queue is empty when the loop tests its condition again. -/
theorem runTasks_head_only (call : Task ν → VideoEngine ν → Except Fault (VideoEngine ν))
    (hcall : ∀ t s, ∃ s', call t s = Except.ok s' ∧ s'._waitingTasks = s._waitingTasks)
    (fuel : Nat) (t : Task ν) (rest : List (Task ν)) (s : VideoEngine ν)
    (h : s._waitingTasks = t :: rest) :
    runTasks call (fuel + 2) s = call t { s with _waitingTasks := [] } := by
  obtain ⟨s', hs', hq⟩ := hcall t { s with _waitingTasks := [] }
  unfold runTasks
  rw [runTasksFrom, h]
  simp only [List.get?_cons_zero]
  rw [hs']
  simp only []
  exact runTasksFrom_past_end call fuel 1 s' (by simp [hq])

/-- C3 (code bug): a queue of two deferred requests whose execution appends nothing. `runTasks`
calls the first one only: `_waitingTasks.clear()` sits inside the loop body, so the second
request is discarded without being executed. This is so with a task function that just returns
and with the engine's own `_startEngine` (seeks outside the frame range [1, 5], which return at
once). -/
theorem runTasks_drops_second_task :
    (runTasks callAndReturn 3
        { idleEngine true with _waitingTasks := [seekTask 2, seekTask 4] }).toOption.map
      (fun s => (s.trace, s._waitingTasks)) =
      some ([Event.callTask (seekTask 2)], []) ∧
    (runTasks (fun t s => callTask sampleEnv 2 t s) 3
        { idleEngine true with _waitingTasks := [seekTask 7, seekTask 9] }).toOption.map
      (fun s => (s.trace, s._waitingTasks)) =
      some ([Event.callTask (seekTask 7)], []) := by
  constructor <;> decide

/-- C4 (code bug): one queued request whose execution appends two requests. The loop of
`runTasks` goes on with index 1 on the refilled queue: the second appended request is executed
by the drain in progress, the first one is discarded, and the queue is empty at the end. -/
theorem runTasks_runs_appended_task :
    (runTasks (callAndAppend (fun t => if t = seekTask 1 then [seekTask 2, seekTask 3] else []))
        4 { idleEngine true with _waitingTasks := [seekTask 1] }).toOption.map
      (fun s => (s.trace, s._waitingTasks)) =
    some ([Event.callTask (seekTask 1), Event.callTask (seekTask 3)], []) := by
  decide

/-- One queued request whose execution appends one request: the appended request is not executed
and is still queued when `runTasks` returns. -/
theorem runTasks_keeps_single_appended_task :
    (runTasks (callAndAppend (fun t => if t = seekTask 1 then [seekTask 2] else []))
        4 { idleEngine true with _waitingTasks := [seekTask 1] }).toOption.map
      (fun s => (s.trace, s._waitingTasks)) =
    some ([Event.callTask (seekTask 1)], [seekTask 2]) := by
  decide

/-! ### `stopEngine` -/

theorem stopEngine_working (s : VideoEngine ν) : (stopEngine s)._working = false := by
  unfold stopEngine; split <;> rfl

theorem stopEngine_countdown (s : VideoEngine ν) : (stopEngine s)._frameRequestsCount = 0 := by
  unfold stopEngine; split <;> rfl

theorem stopEngine_paused (s : VideoEngine ν) : (stopEngine s)._paused = false := by
  unfold stopEngine; split <;> rfl

theorem stopEngine_aborted (s : VideoEngine ν) : (stopEngine s)._aborted = false := by
  unfold stopEngine; split <;> rfl

theorem stopEngine_waitingTasks (s : VideoEngine ν) :
    (stopEngine s)._waitingTasks = s._waitingTasks := by
  unfold stopEngine; split <;> rfl

theorem stopEngine_workerSignal (s : VideoEngine ν) :
    (stopEngine s).workerWatcherPending = s.workerWatcherPending := by
  unfold stopEngine; split <;> rfl

theorem stopEngine_loopSignal (s : VideoEngine ν) :
    (stopEngine s).engineLoopWatcherPending = s.engineLoopWatcherPending := by
  unfold stopEngine; split <;> rfl

theorem stopEngine_trace (s : VideoEngine ν) : (stopEngine s).trace = s.trace := by
  unfold stopEngine; split <;> rfl

/-! ### `videoEngine` -/

theorem videoEngine_busy (E : Env ν) (fuel : Nat) (frameCount : Int)
    (fit forward sameFrame : Bool) (s : VideoEngine ν)
    (h : s._working = true ∨ s.postProcessFinished = false) :
    videoEngine E (fuel + 1) frameCount fit forward sameFrame s = Except.ok s := by
  rw [videoEngine, if_pos h]

theorem videoEngine_idle (E : Env ν) (fuel : Nat) (frameCount : Int)
    (fit forward sameFrame : Bool) (s : VideoEngine ν)
    (hw : s._working = false) (hp : s.postProcessFinished = true) :
    videoEngine E (fuel + 1) frameCount fit forward sameFrame s =
      computeFrameRequest E fuel sameFrame forward fit false
        { s with playState := PlayState.RUNNING, _frameRequestsCount := frameCount,
                 _frameRequestIndex := 0, _forward := forward, _paused := false,
                 _aborted := false } := by
  rw [videoEngine, if_neg (by simp [hw, hp])]

/-- C10: when `_working` is set or the post-process future has not finished,
`videoEngine(frameCount, fitFrameToViewer, forward, sameFrame)` returns the engine as it was:
countdown, request index, direction, paused, aborted, sameFrame and every other field are
unchanged, and nothing is added to the trace. `computeFrameRequest` is not invoked: the call
returns even when the fuel left for a nested call is 0. -/
theorem videoEngine_rejected_when_busy (E : Env ν) (fuel : Nat) (frameCount : Int)
    (fitFrameToViewer forward sameFrame : Bool) (s : VideoEngine ν)
    (h : s._working = true ∨ s.postProcessFinished = false) :
    videoEngine E (fuel + 1) frameCount fitFrameToViewer forward sameFrame s = Except.ok s := by
  rw [videoEngine, if_pos h]

/-- Witness of C10: a start on the working viewer of `viewerAtLastFrame`. -/
theorem videoEngine_rejected_when_busy_sample :
    ((viewerAtLastFrame true)._working = true ∨
        (viewerAtLastFrame true).postProcessFinished = false) ∧
      videoEngine sampleEnv 1 7 true false true (viewerAtLastFrame true) =
        Except.ok (viewerAtLastFrame true) :=
  ⟨Or.inl rfl,
    videoEngine_rejected_when_busy sampleEnv 0 7 true false true (viewerAtLastFrame true)
      (Or.inl rfl)⟩

/-! ### One request: `computeFrameRequest` -/

theorem frameToRead_record (e : Event ν) (s : VideoEngine ν) :
    frameToRead (record e s) = frameToRead s := rfl

/-- Every frame that `startReading` reads on the main thread designates the current frame. -/
theorem readOnMainThread_frames (E : Env ν) (useOtherThread : Bool) (readers : List ν)
    (toggle : Bool) (frames : List ReadFrame) (s : VideoEngine ν) (f : Int)
    (hf : frameToRead s = f) (hframes : ∀ rf ∈ frames, rf.frame = f) :
    ∀ rf ∈ (readOnMainThread E useOtherThread readers toggle frames s).1, rf.frame = f := by
  induction readers generalizing toggle frames s with
  | nil => simpa [readOnMainThread] using hframes
  | cons r rest ih =>
    rw [readOnMainThread]
    simp only []
    split
    · apply ih
      · rw [frameToRead_record, hf]
      · intro rf hrf
        rcases List.mem_append.mp hrf with h | h
        · exact hframes rf h
        · rw [List.eq_of_mem_replicate h, hf]
    · apply ih
      · rw [frameToRead_record, hf]
      · intro rf hrf
        rcases List.mem_append.mp hrf with h | h
        · exact hframes rf h
        · rw [List.mem_singleton.mp h, hf]

theorem startReading_main_frames (E : Env ν) (readers : List ν) (useOtherThread : Bool)
    (s : VideoEngine ν) :
    ∀ rf ∈ (startReading E readers true useOtherThread s).1, rf.frame = frameToRead s := by
  cases readers with
  | nil => simp [startReading]
  | cons r rest =>
    simp only [startReading, if_true]
    exact readOnMainThread_frames E useOtherThread (r :: rest) false [] s _ rfl (by simp)

/-- An `int` expression whose mathematical value is in the range of `int` has that value. -/
theorem wrapInt_eq (x : Int) (h1 : -2147483648 ≤ x) (h2 : x ≤ 2147483647) : wrapInt x = x := by
  unfold wrapInt
  rw [Int.emod_eq_of_lt (by omega) (by omega)]
  omega

/-- The value of an `int` expression is in the range of `int`. -/
theorem wrapInt_range (x : Int) : -2147483648 ≤ wrapInt x ∧ wrapInt x ≤ 2147483647 := by
  unfold wrapInt
  have h1 := Int.emod_nonneg (x + 2147483648) (by decide : (4294967296 : Int) ≠ 0)
  have h2 := Int.emod_lt_of_pos (x + 2147483648) (by decide : (0 : Int) < 4294967296)
  omega

/-- A recursive request on a viewer that passes the entry checks: the frame is chosen
(`viewerFrame`), then read and produced (`requestFrames`). -/
theorem computeFrameRequest_next (E : Env ν) (fuel : Nat) (forward fit : Bool)
    (s : VideoEngine ν) (h : ViewerNextFrame s) :
    computeFrameRequest E (fuel + 1) false forward fit true s =
      match viewerFrame E false true { s with _working := true, _sameFrame := false } with
      | Except.error e => Except.error e
      | Except.ok (s2, true) => Except.ok s2
      | Except.ok (s2, false) =>
        requestFrames E (runTasks (fun t st => callTask E fuel t st) fuel)
          (fun st => engineLoop E fuel st)
          (fun frame fit st => computeTreeForFrame E fuel frame fit st) fit s2 := by
  obtain ⟨hv, ho, ha, hp, hc, hs⟩ := h
  obtain ⟨o, ho⟩ := Option.isSome_iff_exists.mp ho
  rw [computeFrameRequest]
  simp only [writerPrologue, isOutputAViewer, hv, if_true, entryCheck, ha, hp, hc, ho, hs]
  simp

/-- Forward, past the last frame (`currentFrame() + 1` computed in `int`), loop mode: the request
goes on with `firstFrame`. -/
theorem computeFrameRequest_wrap (E : Env ν) (fuel : Nat) (forward fit : Bool)
    (s : VideoEngine ν) (h : ViewerNextFrame s) (hfwd : s._forward = true)
    (hpast : wrapInt (s.timelineFrame + 1) > s.infoLastFrame) (hloop : s._loopMode = true) :
    computeFrameRequest E (fuel + 1) false forward fit true s =
      requestFrames E (runTasks (fun t st => callTask E fuel t st) fuel)
        (fun st => engineLoop E fuel st)
        (fun frame fit st => computeTreeForFrame E fuel frame fit st) fit
        (seek s.infoFirstFrame
          (record Event.nodeCacheClear { s with _working := true, _sameFrame := false })) := by
  rw [computeFrameRequest_next E fuel forward fit s h]
  obtain ⟨hv, ho, _, _, _, _⟩ := h
  obtain ⟨o, ho⟩ := Option.isSome_iff_exists.mp ho
  simp [viewerFrame, isOutputAViewer, record, hv, ho, hfwd, hpast, hloop]

/-- Forward, past the last frame, no loop mode: the countdown is set to 0 and the request
returns. -/
theorem computeFrameRequest_range_end (E : Env ν) (fuel : Nat) (forward fit : Bool)
    (s : VideoEngine ν) (h : ViewerNextFrame s) (hfwd : s._forward = true)
    (hpast : wrapInt (s.timelineFrame + 1) > s.infoLastFrame) (hloop : s._loopMode = false) :
    computeFrameRequest E (fuel + 1) false forward fit true s =
      Except.ok { record Event.nodeCacheClear { s with _working := true, _sameFrame := false }
                  with _frameRequestsCount := 0 } := by
  rw [computeFrameRequest_next E fuel forward fit s h]
  obtain ⟨hv, ho, _, _, _, _⟩ := h
  obtain ⟨o, ho⟩ := Option.isSome_iff_exists.mp ho
  simp [viewerFrame, isOutputAViewer, record, hv, ho, hfwd, hpast, hloop]

/-- Backward, before the first frame, no loop mode. -/
theorem computeFrameRequest_range_start (E : Env ν) (fuel : Nat) (forward fit : Bool)
    (s : VideoEngine ν) (h : ViewerNextFrame s) (hbwd : s._forward = false)
    (hpast : wrapInt (s.timelineFrame - 1) < s.infoFirstFrame) (hloop : s._loopMode = false) :
    computeFrameRequest E (fuel + 1) false forward fit true s =
      Except.ok { record Event.nodeCacheClear { s with _working := true, _sameFrame := false }
                  with _frameRequestsCount := 0 } := by
  rw [computeFrameRequest_next E fuel forward fit s h]
  obtain ⟨hv, ho, _, _, _, _⟩ := h
  obtain ⟨o, ho⟩ := Option.isSome_iff_exists.mp ho
  simp [viewerFrame, isOutputAViewer, record, hv, ho, hbwd, hpast, hloop]

/-- Forward, the `int` value of `currentFrame() + 1` not beyond the last frame: the request
goes on with that frame, with or without loop mode. -/
theorem computeFrameRequest_advance (E : Env ν) (fuel : Nat) (forward fit : Bool)
    (s : VideoEngine ν) (h : ViewerNextFrame s) (hfwd : s._forward = true)
    (hin : ¬ wrapInt (s.timelineFrame + 1) > s.infoLastFrame) :
    computeFrameRequest E (fuel + 1) false forward fit true s =
      requestFrames E (runTasks (fun t st => callTask E fuel t st) fuel)
        (fun st => engineLoop E fuel st)
        (fun frame fit st => computeTreeForFrame E fuel frame fit st) fit
        (seek (wrapInt (s.timelineFrame + 1))
          (record Event.nodeCacheClear { s with _working := true, _sameFrame := false })) := by
  rw [computeFrameRequest_next E fuel forward fit s h]
  obtain ⟨hv, ho, _, _, _, _⟩ := h
  obtain ⟨o, ho⟩ := Option.isSome_iff_exists.mp ho
  simp [viewerFrame, isOutputAViewer, record, hv, ho, hfwd, hin]

/-- The recursive request of the viewer of `viewerAtIntMax`: the `int` addition of line 198
gives -2147483648, which is not beyond `lastFrame`, so the request seeks that frame and reads
it, with or without loop mode. -/
theorem viewerAtIntMax_request (loopMode : Bool) :
    ∃ s2 : VideoEngine (Fin 2),
      computeFrameRequest sampleEnv 1 false true false true (viewerAtIntMax loopMode) =
        requestFrames sampleEnv (runTasks (fun t st => callTask sampleEnv 0 t st) 0)
          (fun st => engineLoop sampleEnv 0 st)
          (fun frame fit st => computeTreeForFrame sampleEnv 0 frame fit st) false s2 ∧
      s2.trace = [Event.nodeCacheClear, Event.seek (-2147483648)] ∧
      s2.timelineFrame = -2147483648 ∧ s2._frameRequestsCount = 2 ∧
      ∀ rf ∈ (startReading sampleEnv (getReaders sampleEnv s2) true true s2).1,
        rf.frame = -2147483648 := by
  have hnext : ViewerNextFrame (viewerAtIntMax loopMode) :=
    ⟨rfl, rfl, rfl, rfl, by cases loopMode <;> decide, by cases loopMode <;> decide⟩
  refine ⟨_, computeFrameRequest_advance sampleEnv 0 true false (viewerAtIntMax loopMode) hnext
    rfl (by cases loopMode <;> decide), rfl, rfl, rfl, ?_⟩
  intro rf hrf
  rw [startReading_main_frames sampleEnv _ true _ rf hrf]
  rfl

/-- C7 (counterexample): the viewer of `viewerAtIntMax` plays forward on the range
[1, 2147483647] with the timeline at 2147483647, so that the current frame + 1 exceeds
`lastFrame`. The `int` addition of line 198 gives -2147483648, which is not beyond `lastFrame`:
with loop mode the request seeks -2147483648, not `firstFrame` (1), and reads that frame;
without loop mode it does the same, the countdown staying at 2, instead of setting the
countdown to 0 and returning. -/
theorem past_lastFrame_at_int_max :
    (viewerAtIntMax true)._forward = true ∧ (viewerAtIntMax true)._loopMode = true ∧
    (viewerAtIntMax true).timelineFrame + 1 > (viewerAtIntMax true).infoLastFrame ∧
    (viewerAtIntMax true).infoFirstFrame = 1 ∧
    (∃ s2 : VideoEngine (Fin 2),
      computeFrameRequest sampleEnv 1 false true false true (viewerAtIntMax true) =
        requestFrames sampleEnv (runTasks (fun t st => callTask sampleEnv 0 t st) 0)
          (fun st => engineLoop sampleEnv 0 st)
          (fun frame fit st => computeTreeForFrame sampleEnv 0 frame fit st) false s2 ∧
      s2.trace = [Event.nodeCacheClear, Event.seek (-2147483648)] ∧
      s2.timelineFrame = -2147483648 ∧ s2._frameRequestsCount = 2 ∧
      ∀ rf ∈ (startReading sampleEnv (getReaders sampleEnv s2) true true s2).1,
        rf.frame = -2147483648) ∧
    (viewerAtIntMax false)._forward = true ∧ (viewerAtIntMax false)._loopMode = false ∧
    (viewerAtIntMax false).timelineFrame + 1 > (viewerAtIntMax false).infoLastFrame ∧
    (∃ s2 : VideoEngine (Fin 2),
      computeFrameRequest sampleEnv 1 false true false true (viewerAtIntMax false) =
        requestFrames sampleEnv (runTasks (fun t st => callTask sampleEnv 0 t st) 0)
          (fun st => engineLoop sampleEnv 0 st)
          (fun frame fit st => computeTreeForFrame sampleEnv 0 frame fit st) false s2 ∧
      s2.trace = [Event.nodeCacheClear, Event.seek (-2147483648)] ∧
      s2.timelineFrame = -2147483648 ∧ s2._frameRequestsCount = 2 ∧
      ∀ rf ∈ (startReading sampleEnv (getReaders sampleEnv s2) true true s2).1,
        rf.frame = -2147483648) :=
  ⟨rfl, rfl, by decide, rfl, viewerAtIntMax_request true, rfl, rfl, by decide,
    viewerAtIntMax_request false⟩

/-- C7 (amended): a recursive (next-frame) request on a viewer, forward, that passes the entry
checks (`ViewerNextFrame`), with the viewer's current frame an `int` below 2147483647 (so that
the current frame + 1 is an `int`) and the current frame + 1 beyond `lastFrame`.
With loop mode the request seeks `firstFrame` (the trace gets the node-cache clear and
`seek firstFrame`, the timeline is at `firstFrame`) and goes on to read and produce frames
(`requestFrames`), every frame read, hence every frame computed, being `firstFrame`.
Without loop mode the request returns with the countdown at 0 and the trace extended by the
node-cache clear only: no seek, no read, no row dispatch, no presentation. -/
theorem computeFrameRequest_past_lastFrame (E : Env ν) (fuel : Nat)
    (forward fitFrameToViewer : Bool) (s : VideoEngine ν) (h : ViewerNextFrame s)
    (hfwd : s._forward = true) (hint : -2147483648 ≤ s.timelineFrame)
    (hmax : s.timelineFrame < 2147483647) (hpast : s.timelineFrame + 1 > s.infoLastFrame) :
    (s._loopMode = true →
      ∃ s2 : VideoEngine ν,
        computeFrameRequest E (fuel + 1) false forward fitFrameToViewer true s =
          requestFrames E (runTasks (fun t st => callTask E fuel t st) fuel)
            (fun st => engineLoop E fuel st)
            (fun frame fit st => computeTreeForFrame E fuel frame fit st) fitFrameToViewer s2 ∧
        s2.trace = s.trace ++ [Event.nodeCacheClear, Event.seek s.infoFirstFrame] ∧
        s2.timelineFrame = s.infoFirstFrame ∧
        ∀ rf ∈ (startReading E (getReaders E s2) true true s2).1, rf.frame = s.infoFirstFrame) ∧
    (s._loopMode = false →
      ∃ s' : VideoEngine ν,
        computeFrameRequest E (fuel + 1) false forward fitFrameToViewer true s = Except.ok s' ∧
        s'._frameRequestsCount = 0 ∧
        s'.trace = s.trace ++ [Event.nodeCacheClear] ∧
        s'.timelineFrame = s.timelineFrame) := by
  have hpast : wrapInt (s.timelineFrame + 1) > s.infoLastFrame := by
    rw [wrapInt_eq _ (by omega) (by omega)]
    exact hpast
  constructor
  · intro hloop
    refine ⟨_, computeFrameRequest_wrap E fuel forward fitFrameToViewer s h hfwd hpast hloop,
      ?_, rfl, ?_⟩
    · simp [seek, record]
    · intro rf hrf
      rw [startReading_main_frames E _ true _ rf hrf]
      simp [frameToRead, seek, record, isOutputAViewer, h.viewer]
  · intro hloop
    exact ⟨_, computeFrameRequest_range_end E fuel forward fitFrameToViewer s h hfwd hpast hloop,
      rfl, rfl, rfl⟩

theorem viewerAtLastFrame_next (loopMode : Bool) : ViewerNextFrame (viewerAtLastFrame loopMode) :=
  ⟨rfl, rfl, rfl, rfl, by cases loopMode <;> decide, by cases loopMode <;> decide⟩

/-- Witness of C7 (amended): the viewer of `viewerAtLastFrame` (range [1, 5], timeline at 5),
without loop mode: the request returns with countdown 0 and only the node-cache clear in the
trace. -/
theorem computeFrameRequest_past_lastFrame_sample :
    ViewerNextFrame (viewerAtLastFrame false) ∧
    (viewerAtLastFrame false)._forward = true ∧
    -2147483648 ≤ (viewerAtLastFrame false).timelineFrame ∧
    (viewerAtLastFrame false).timelineFrame < 2147483647 ∧
    (viewerAtLastFrame false).timelineFrame + 1 > (viewerAtLastFrame false).infoLastFrame ∧
    ∃ s' : VideoEngine (Fin 2),
      computeFrameRequest sampleEnv 1 false true false true (viewerAtLastFrame false)
        = Except.ok s' ∧
      s'._frameRequestsCount = 0 ∧
      s'.trace = (viewerAtLastFrame false).trace ++ [Event.nodeCacheClear] ∧
      s'.timelineFrame = (viewerAtLastFrame false).timelineFrame :=
  ⟨viewerAtLastFrame_next false, rfl, by decide, by decide, by decide,
    (computeFrameRequest_past_lastFrame sampleEnv 0 true false (viewerAtLastFrame false)
      (viewerAtLastFrame_next false) rfl (by decide) (by decide) (by decide)).2 rfl⟩

theorem viewerAtFirstFrame_next (loopMode : Bool) :
    ViewerNextFrame (viewerAtFirstFrame loopMode) :=
  ⟨rfl, rfl, rfl, rfl, by cases loopMode <;> decide, by cases loopMode <;> decide⟩

/-- C8 (code bug): a viewer without loop mode on the range [1, 5] asks for the next frame at the
end of the range: playing forward with the timeline at 5 (`viewerAtLastFrame`), and playing
backward with the timeline at 1 (`viewerAtFirstFrame`). The request sets the countdown to 0 and
returns without `stopEngine()`: `_working` stays true, no signal is pending, and every following
`videoEngine(...)` call is rejected as busy. -/
theorem range_end_leaves_engine_working :
    (∃ s' : VideoEngine (Fin 2),
      computeFrameRequest sampleEnv 1 false true false true (viewerAtLastFrame false)
        = Except.ok s' ∧
      s'._frameRequestsCount = 0 ∧ s'._working = true ∧
      s'.workerWatcherPending = false ∧ s'.engineLoopWatcherPending = false ∧
      ∀ (fuel : Nat) (frameCount : Int) (fit forward sameFrame : Bool),
        videoEngine sampleEnv (fuel + 1) frameCount fit forward sameFrame s' = Except.ok s') ∧
    (∃ s' : VideoEngine (Fin 2),
      computeFrameRequest sampleEnv 1 false false false true (viewerAtFirstFrame false)
        = Except.ok s' ∧
      s'._frameRequestsCount = 0 ∧ s'._working = true ∧
      s'.workerWatcherPending = false ∧ s'.engineLoopWatcherPending = false ∧
      ∀ (fuel : Nat) (frameCount : Int) (fit forward sameFrame : Bool),
        videoEngine sampleEnv (fuel + 1) frameCount fit forward sameFrame s' = Except.ok s') :=
  ⟨⟨_, computeFrameRequest_range_end sampleEnv 0 true false (viewerAtLastFrame false)
      (viewerAtLastFrame_next false) rfl (by decide) rfl, rfl, rfl, rfl, rfl,
    fun fuel frameCount fit forward sameFrame =>
      videoEngine_busy sampleEnv fuel frameCount fit forward sameFrame _ (Or.inl rfl)⟩,
   ⟨_, computeFrameRequest_range_start sampleEnv 0 false false (viewerAtFirstFrame false)
      (viewerAtFirstFrame_next false) rfl (by decide) rfl, rfl, rfl, rfl, rfl,
    fun fuel frameCount fit forward sameFrame =>
      videoEngine_busy sampleEnv fuel frameCount fit forward sameFrame _ (Or.inl rfl)⟩⟩

/-- First request on a viewer whose DAG has no reader among its inputs: nothing is read, and
the request returns with `_working` set. -/
theorem computeFrameRequest_no_reader (E : Env ν) (fuel : Nat) (forward fit : Bool)
    (s : VideoEngine ν) (hv : s._dag._isViewer = true) (ho : s._dag._output.isSome = true)
    (hin : getReaders E s = []) (ha : s._aborted = false) (hp : s._paused = false)
    (hc : s._frameRequestsCount ≠ 0) :
    ∃ s', computeFrameRequest E (fuel + 1) false forward fit false s = Except.ok s' ∧
      s'._working = true ∧ s'._frameRequestsCount = s._frameRequestsCount ∧
      s'._paused = s._paused ∧
      s'.workerWatcherPending = s.workerWatcherPending ∧
      s'.engineLoopWatcherPending = s.engineLoopWatcherPending ∧
      presentedFrames s'.trace = presentedFrames s.trace := by
  obtain ⟨o, ho⟩ := Option.isSome_iff_exists.mp ho
  have hin' : List.filter E.isReader s._dag._inputs = [] := hin
  rw [computeFrameRequest]
  simp [writerPrologue, isOutputAViewer, hv, entryCheck, ha, hp, hc, ho, viewerFrame,
    validateOutput, requestFrames, getReaders, seek, record, startReading, forFrames,
    presentedFrames, List.filterMap_append, hin']

/-- Function `_startEngine` returns the engine as it was when the DAG's output is null or the
DAG has no input node (the guard of line 775); it does not call `videoEngine`: it returns even
when the fuel left for a nested call is 0. -/
theorem startEngine_guard_noop (E : Env ν) (fuel : Nat) (frameNB frameCount : Int)
    (initViewer forward : Bool) (output : Option ν) (s : VideoEngine ν)
    (h : s._dag._output = none ∨ s._dag._inputs = []) :
    _startEngine E (fuel + 1) frameNB frameCount initViewer forward output s = Except.ok s := by
  rw [_startEngine]
  rcases h with h | h
  · simp [h]
  · simp [h]

/-- A start on the idle engine whose DAG has a viewer output and no input node: `videoEngine`
resets the request state and the first request returns with `_working` set, nothing read and
nothing presented. -/
theorem videoEngine_without_inputs (fuel : Nat) (count : Int) (forward : Bool)
    (hcount : count ≠ 0) :
    ∃ s' : VideoEngine (Fin 2),
      videoEngine sampleEnv (fuel + 2) count false forward false engineWithoutInputs =
        Except.ok s' ∧
      s'._working = true ∧ s'._frameRequestsCount = count ∧ s'._paused = false ∧
      s'.workerWatcherPending = false ∧ s'.engineLoopWatcherPending = false ∧
      presentedFrames s'.trace = [] := by
  rw [videoEngine_idle sampleEnv (fuel + 1) count false forward false engineWithoutInputs rfl
    rfl]
  obtain ⟨s', hs', hw, hc, hpa, hwp, hep, hpr⟩ := computeFrameRequest_no_reader sampleEnv fuel
    forward false
    { engineWithoutInputs with playState := PlayState.RUNNING, _frameRequestsCount := count,
                               _frameRequestIndex := 0, _forward := forward, _paused := false,
                               _aborted := false }
    rfl rfl rfl rfl rfl hcount
  exact ⟨s', hs', hw, hc, hpa, hwp, hep, hpr⟩

/-- With a null output, `videoEngine` uses a member of the null output node. -/
theorem videoEngine_without_output (fuel : Nat) (isViewer : Bool) :
    videoEngine sampleEnv (fuel + 2) 3 false true false (engineWithoutOutput isViewer) =
      Except.error Fault.nullOutput := by
  rw [videoEngine_idle sampleEnv (fuel + 1) 3 false true false (engineWithoutOutput isViewer)
    rfl rfl, computeFrameRequest]
  cases isViewer <;>
    simp [writerPrologue, isOutputAViewer, engineWithoutOutput, entryCheck, viewerFrame,
      validateOutput, idleEngine]

/-- On an idle engine whose DAG has a null output and is not flagged as a viewer,
`startEngine(nbFrames)`, which tests nothing, calls `videoEngine(0, nbFrames, true, true)`, and
the request validates the null output node (line 132). -/
theorem startEngine_without_output (fuel : Nat) (nbFrames : Int) :
    startEngine sampleEnv (fun n => decide (n = 1)) (fuel + 2) nbFrames
        (engineWithoutOutput false) =
      Except.error Fault.nullOutput := by
  have e : startEngine sampleEnv (fun n => decide (n = 1)) (fuel + 2) nbFrames
      (engineWithoutOutput false) =
      videoEngine sampleEnv (fuel + 2) 0 (decide (nbFrames ≠ 0)) true true
        (engineWithoutOutput false) := rfl
  rw [e, videoEngine_idle sampleEnv (fuel + 1) 0 _ true true (engineWithoutOutput false)
    rfl rfl, computeFrameRequest]
  simp [writerPrologue, isOutputAViewer, engineWithoutOutput, entryCheck, viewerFrame,
    validateOutput, idleEngine]

/-- C9 (code bug): `videoEngine` is not a no-op without a valid graph. On the idle engine whose
DAG has a viewer output and no input node, `videoEngine(-1, false, true)`, the call that
`startPause(true)` makes after testing the output only (line 635), changes the countdown (0 to
-1), clears the pause flag and leaves the engine working, with no signal pending and no frame
presented, so every later start is rejected as busy. On the idle engine whose DAG has a null
output `videoEngine` uses the null output node, which is a fault, also when it is called by
`startEngine(0)`, which tests nothing (`videoEngine(0, false, true, true)`). The sibling entry
point `_startEngine` tests both conditions (line 775) and returns the engine as it was on
either engine. -/
theorem videoEngine_without_valid_graph_not_noop :
    (engineWithoutInputs._dag._output = some 1 ∧ engineWithoutInputs._dag._inputs = [] ∧
      engineWithoutInputs._working = false ∧ engineWithoutInputs._frameRequestsCount = 0 ∧
      engineWithoutInputs._paused = true ∧
      (∃ s' : VideoEngine (Fin 2),
        videoEngine sampleEnv 2 (-1) false true false engineWithoutInputs = Except.ok s' ∧
        s'._working = true ∧ s'._frameRequestsCount = -1 ∧ s'._paused = false ∧
        s'.workerWatcherPending = false ∧ s'.engineLoopWatcherPending = false ∧
        presentedFrames s'.trace = [] ∧
        ∀ (fuel : Nat) (frameCount : Int) (fit forward sameFrame : Bool),
          videoEngine sampleEnv (fuel + 1) frameCount fit forward sameFrame s' =
            Except.ok s') ∧
      _startEngine sampleEnv 1 5 (-1) false true (some 1) engineWithoutInputs =
        Except.ok engineWithoutInputs) ∧
    ((engineWithoutOutput true)._dag._output = none ∧
      videoEngine sampleEnv 2 3 false true false (engineWithoutOutput true) =
        Except.error Fault.nullOutput ∧
      _startEngine sampleEnv 1 5 3 false true none (engineWithoutOutput true) =
        Except.ok (engineWithoutOutput true)) ∧
    ((engineWithoutOutput false)._dag._output = none ∧
      startEngine sampleEnv (fun n => decide (n = 1)) 2 0 (engineWithoutOutput false) =
        Except.error Fault.nullOutput ∧
      _startEngine sampleEnv 1 5 1 false true none (engineWithoutOutput false) =
        Except.ok (engineWithoutOutput false)) := by
  refine ⟨⟨rfl, rfl, rfl, rfl, rfl, ?_,
      startEngine_guard_noop sampleEnv 0 5 (-1) false true (some 1) engineWithoutInputs
        (Or.inr rfl)⟩,
    ⟨rfl, videoEngine_without_output 0 true,
      startEngine_guard_noop sampleEnv 0 5 3 false true none (engineWithoutOutput true)
        (Or.inl rfl)⟩,
    rfl, startEngine_without_output 0 0,
    startEngine_guard_noop sampleEnv 0 5 1 false true none (engineWithoutOutput false)
      (Or.inl rfl)⟩
  obtain ⟨s', hs', hw, hc, hpa, hwp, hep, hpr⟩ :=
    videoEngine_without_inputs 0 (-1) true (by decide)
  exact ⟨s', hs', hw, hc, hpa, hwp, hep, hpr,
    fun fuel frameCount fit forward sameFrame =>
      videoEngine_busy sampleEnv fuel frameCount fit forward sameFrame s' (Or.inl hw)⟩

end engine_proofs
section writer_proofs
set_option linter.unusedSectionVars false
variable {ν : Type} [DecidableEq ν]

/-! ### Writer playback -/

theorem buildRows_completed (offset right : Int) (channels : Nat) (ys : List Int) (counter : Int)
    (acc : List Row) :
    ∃ rows, buildRows false false offset right channels ys counter acc =
      (rows, RowLoopExit.completed) := by
  induction ys generalizing counter acc with
  | nil => exact ⟨acc, rfl⟩
  | cons y rest ih =>
    obtain ⟨rows, h⟩ := ih (counter + 1)
      (acc ++ [{ offset := offset, y := y, right := right, channels := channels,
                 zoomedY := counter }])
    exact ⟨rows, by simp [buildRows, h]⟩

theorem ite_pair_record (c : Prop) [Decidable c] (a b : List ReadFrame) (e1 e2 : Event ν)
    (s : VideoEngine ν) (h1 : encodedFrames [e1] = []) (h2 : encodedFrames [e2] = [])
    (h3 : presentedFrames [e1] = []) (h4 : presentedFrames [e2] = []) :
    ∃ evs, (if c then (a, record e1 s) else (b, record e2 s)).2 =
        { s with trace := s.trace ++ evs } ∧
      encodedFrames evs = [] ∧ presentedFrames evs = [] := by
  by_cases hc : c
  · rw [if_pos hc]
    exact ⟨[e1], rfl, h1, h3⟩
  · rw [if_neg hc]
    exact ⟨[e2], rfl, h2, h4⟩

/-- The look-ahead read of `engineLoop` only adds reader calls to the trace. -/
theorem startReading_ahead (E : Env ν) (readers : List ν) (s : VideoEngine ν) :
    ∃ evs, (startReading E readers false true s).2 = { s with trace := s.trace ++ evs } ∧
      encodedFrames evs = [] ∧ presentedFrames evs = [] := by
  cases readers with
  | nil => exact ⟨[], by simp [startReading], rfl, rfl⟩
  | cons r rest =>
    simp only [startReading, Bool.false_eq_true, Bool.true_eq_false, if_false]
    by_cases h1 : E.readerFirstFrame r = E.readerLastFrame r
    · rw [if_pos h1]
      exact ⟨[], by simp, rfl, rfl⟩
    · rw [if_neg h1]
      exact ite_pair_record _ _ _ _ _ s rfl rfl rfl rfl

theorem startReading_ahead_eq (E : Env ν) (readers : List ν) (s : VideoEngine ν) :
    (startReading E readers false true s).2 =
      { s with trace := s.trace ++ aheadEvents E readers s } := by
  obtain ⟨evs, hev, _, _⟩ := startReading_ahead E readers s
  have : aheadEvents E readers s = evs := by
    unfold aheadEvents
    rw [hev]
    simp
  rw [this, hev]

theorem presentedFrames_ahead (E : Env ν) (readers : List ν) (s : VideoEngine ν) :
    presentedFrames (aheadEvents E readers s) = [] := by
  obtain ⟨evs, hev, _, h⟩ := startReading_ahead E readers s
  have : aheadEvents E readers s = evs := by
    unfold aheadEvents
    rw [hev]
    simp
  rw [this, h]

theorem presentedFrames_append (a b : List (Event ν)) :
    presentedFrames (a ++ b) = presentedFrames a ++ presentedFrames b := by
  simp [presentedFrames, List.filterMap_append]

theorem deliverSignals_idle (E : Env ν) (fuel : Nat) (s : VideoEngine ν)
    (h1 : s.workerWatcherPending = false) (h2 : s.engineLoopWatcherPending = false) :
    deliverSignals E fuel s = Except.ok s := by
  cases fuel <;> simp [deliverSignals, h1, h2]

end writer_proofs
section viewer_proofs
set_option linter.unusedSectionVars false
variable {ν : Type} [DecidableEq ν]

/-! ### Viewer playback in loop mode -/

/-- On a range of `int` frames that ends below 2147483647 the `int` addition of `nextFrame`
does not wrap. -/
theorem nextFrame_eq (first last c : Int) (hmin : -2147483648 ≤ first)
    (hmax : last < 2147483647) (h1 : first ≤ c) (h2 : c ≤ last) :
    nextFrame first last c = if c + 1 > last then first else c + 1 := by
  unfold nextFrame
  rw [wrapInt_eq (c + 1) (by omega) (by omega)]

theorem nextFrame_range (first last c : Int) (hmin : -2147483648 ≤ first)
    (hmax : last < 2147483647) (h1 : first ≤ c) (h2 : c ≤ last) :
    first ≤ nextFrame first last c ∧ nextFrame first last c ≤ last := by
  rw [nextFrame_eq first last c hmin hmax h1 h2]
  split <;> omega

/-- A recursive request with the countdown at 0 drains the (empty) queue and stops. -/
theorem requestSpec_zero (E : Env ν) (r : ν) (first last : Int) :
    RequestSpec E r first last 0 := by
  intro s forward fit h hc hi f1 f2 hf1 hf2
  obtain ⟨k, rfl⟩ : ∃ k, f1 = k + 2 := ⟨f1 - 2, by omega⟩
  obtain ⟨hv, ho, hr, ha, hp, hlm, hfw, hq, hif, hil, hws, hls⟩ := h
  obtain ⟨o, ho⟩ := Option.isSome_iff_exists.mp ho
  have hc' : s._frameRequestsCount = 0 := by simpa using hc
  have hrun : ∀ st : VideoEngine ν, st._waitingTasks = [] →
      runTasks (fun t x => callTask E (k + 1) t x) (k + 1) st = Except.ok st :=
    fun st hst => runTasks_empty _ k st hst
  have hreq : computeFrameRequest E (k + 2) false forward fit true s =
      Except.ok (stopEngine (stopEngine { s with _working := true, _sameFrame := false })) := by
    rw [computeFrameRequest]
    simp only [writerPrologue, isOutputAViewer, hv, if_true, entryCheck, ha, hc']
    simp only [stopRunTasksStop]
    rw [hrun _ (by rw [stopEngine_waitingTasks]; exact hq)]
    simp
  refine ⟨_, _, hreq, deliverSignals_idle E f2 _ ?_ ?_, ?_, ?_⟩
  · rw [stopEngine_workerSignal, stopEngine_workerSignal]
    exact hws
  · rw [stopEngine_loopSignal, stopEngine_loopSignal]
    exact hls
  · refine ⟨stopEngine_working _, stopEngine_countdown _, stopEngine_paused _,
      stopEngine_aborted _, ?_, ?_⟩
    · rw [stopEngine_workerSignal, stopEngine_workerSignal]
      exact hws
    · rw [stopEngine_loopSignal, stopEngine_loopSignal]
      exact hls
  · rw [stopEngine_trace, stopEngine_trace]
    simp [loopFrames]

theorem presentedFrames_single_present (f : Int) :
    presentedFrames ([Event.copyPBOtoTexture f] : List (Event ν)) = [f] := rfl

/-- The bookkeeping of `engineLoop` in a viewer playback with `m + 1` frames left, the current
one included: the countdown becomes `m`, the request index advances, the current frame is
presented, and the next request is made. -/
theorem engineLoop_viewer (E : Env ν) (r : ν) (first last : Int) (fuel : Nat)
    (s : VideoEngine ν) (h : ViewerPlaying E r first last s) (m : Nat)
    (hc : s._frameRequestsCount = (m : Int) + 1) (hi : 0 ≤ s._frameRequestIndex) :
    ∃ s4, engineLoop E (fuel + 1) s = computeFrameRequest E fuel false s4._forward false true s4 ∧
      ViewerPlaying E r first last s4 ∧ s4._frameRequestsCount = (m : Int) ∧
      1 ≤ s4._frameRequestIndex ∧ s4.timelineFrame = s.timelineFrame ∧
      presentedFrames s4.trace = presentedFrames s.trace ++ [s.timelineFrame] := by
  obtain ⟨hv, ho, hr, ha, hp, hlm, hfw, hq, hif, hil, hws, hls⟩ := h
  have hr' : List.filter E.isReader s._dag._inputs = [r] := hr
  have hs1 : (if s._frameRequestIndex = 0 ∧ s._frameRequestsCount = 1 ∧ s._sameFrame = false then
        { s with _frameRequestsCount := 0 }
      else if s._frameRequestsCount ≠ -1 then
        { s with _frameRequestsCount := s._frameRequestsCount - 1 }
      else s) = { s with _frameRequestsCount := (m : Int) } := by
    split_ifs with h1 h2
    · have : (m : Int) = 0 := by omega
      rw [this]
    · have : s._frameRequestsCount - 1 = (m : Int) := by omega
      rw [this]
    · exfalso
      omega
  by_cases hm : m = 0
  · refine ⟨{ s with _frameRequestsCount := (m : Int),
                     _frameRequestIndex := s._frameRequestIndex + 1,
                     trace := s.trace ++ [Event.copyPBOtoTexture s.timelineFrame] },
      ?_, ⟨hv, ho, hr, ha, hp, hlm, hfw, hq, hif, hil, hws, hls⟩, rfl, ?_, rfl, ?_⟩
    · rw [engineLoop]
      simp only []
      rw [hs1]
      simp [isOutputAViewer, hv, record, hm]
    · show 1 ≤ s._frameRequestIndex + 1
      omega
    · show presentedFrames (s.trace ++ [Event.copyPBOtoTexture s.timelineFrame]) = _
      rw [presentedFrames_append, presentedFrames_single_present]
  · refine ⟨{ s with _frameRequestsCount := (m : Int),
                     _frameRequestIndex := s._frameRequestIndex + 1,
                     trace := s.trace ++ [Event.copyPBOtoTexture s.timelineFrame] ++
                       aheadEvents E [r]
                         { s with _frameRequestsCount := (m : Int),
                                  _frameRequestIndex := s._frameRequestIndex + 1,
                                  trace := s.trace ++ [Event.copyPBOtoTexture s.timelineFrame] } },
      ?_, ⟨hv, ho, hr, ha, hp, hlm, hfw, hq, hif, hil, hws, hls⟩, rfl, ?_, rfl, ?_⟩
    · rw [engineLoop]
      simp only []
      rw [hs1]
      simp [isOutputAViewer, hv, record, hm, hp, getReaders, hr', startReading_ahead_eq]
    · show 1 ≤ s._frameRequestIndex + 1
      omega
    · show presentedFrames (s.trace ++ [Event.copyPBOtoTexture s.timelineFrame] ++
        aheadEvents E [r] _) = _
      rw [presentedFrames_append, presentedFrames_append, presentedFrames_single_present,
        presentedFrames_ahead, List.append_nil]

theorem engineLoopSpec_of_requestSpec (E : Env ν) (r : ν) (first last : Int) (m : Nat)
    (hreq : RequestSpec E r first last m) : EngineLoopSpec E r first last m := by
  intro s h hc hi f1 f2 hf1 hf2
  obtain ⟨k, rfl⟩ : ∃ k, f1 = k + 1 := ⟨f1 - 1, by omega⟩
  obtain ⟨s4, hs4, hv4, hc4, hi4, ht4, hp4⟩ := engineLoop_viewer E r first last k s h m hc hi
  obtain ⟨s1, s', h1, h2, h3, h4⟩ := hreq s4 s4._forward false hv4 hc4 hi4 k f2 (by omega) hf2
  refine ⟨s1, s', hs4.trans h1, h2, h3, ?_⟩
  rw [h4, hp4, ht4, List.append_assoc]
  rfl

theorem except_match_id {ε α : Type} (x : Except ε α) :
    (match x with
      | Except.error e => Except.error e
      | Except.ok v => Except.ok v) = x := by
  cases x <;> rfl

/-- A frame found in the viewer cache goes to `cachedFrameEngine` and `engineLoop`. -/
theorem requestFrames_cached (E : Env ν) (r : ν) (first last : Int)
    (run loop : VideoEngine ν → Except Fault (VideoEngine ν))
    (tree : Int → Bool → VideoEngine ν → Except Fault (VideoEngine ν)) (fit : Bool)
    (s : VideoEngine ν) (h : ViewerPlaying E r first last s)
    (hcache : E.viewerCacheGet s.trace r s.timelineFrame = true) :
    requestFrames E run loop tree fit s = loop (afterCacheHit E r s) := by
  obtain ⟨hv, ho, hr, ha, hp, hlm, hfw, hq, hif, hil, hws, hls⟩ := h
  obtain ⟨o, ho⟩ := Option.isSome_iff_exists.mp ho
  have hr' : List.filter E.isReader s._dag._inputs = [r] := hr
  simp [afterCacheHit, requestFrames, getReaders, hr', startReading, readOnMainThread, isOutputAViewer, hv,
    frameToRead, hcache, validateOutput, ho, record, forFrames, cachedFrameEngine, hp, ha]
  generalize loop _ = x
  cases x <;> rfl

/-- A frame that is not in the viewer cache goes to `computeTreeForFrame`. -/
theorem requestFrames_miss (E : Env ν) (r : ν) (first last : Int)
    (run loop : VideoEngine ν → Except Fault (VideoEngine ν))
    (tree : Int → Bool → VideoEngine ν → Except Fault (VideoEngine ν)) (fit : Bool)
    (s : VideoEngine ν) (hdec : ∀ tr f, E.decodeFrames tr r f = 1)
    (h : ViewerPlaying E r first last s)
    (hcache : E.viewerCacheGet s.trace r s.timelineFrame = false) :
    requestFrames E run loop tree fit s = tree s.timelineFrame fit (afterCacheMiss E r s) := by
  obtain ⟨hv, ho, hr, ha, hp, hlm, hfw, hq, hif, hil, hws, hls⟩ := h
  obtain ⟨o, ho⟩ := Option.isSome_iff_exists.mp ho
  have hr' : List.filter E.isReader s._dag._inputs = [r] := hr
  simp [afterCacheMiss, requestFrames, getReaders, hr', startReading, readOnMainThread, isOutputAViewer, hv,
    frameToRead, hcache, validateOutput, ho, record, forFrames, hdec]
  generalize tree _ _ _ = x
  cases x <;> rfl

/-- A frame whose texture is cached goes from `computeTreeForFrame` straight to `engineLoop`. -/
theorem computeTreeForFrame_texture (E : Env ν) (r : ν) (first last : Int) (fuel : Nat)
    (frame : Int) (fit : Bool) (s : VideoEngine ν) (h : ViewerPlaying E r first last s)
    (htex : E.isTextureCached s.trace frame = true) :
    computeTreeForFrame E (fuel + 1) frame fit s = engineLoop E fuel s := by
  obtain ⟨hv, ho, hr, ha, hp, hlm, hfw, hq, hif, hil, hws, hls⟩ := h
  obtain ⟨o, ho⟩ := Option.isSome_iff_exists.mp ho
  rw [computeTreeForFrame]
  simp [ho, isOutputAViewer, hv, htex]

/-- A frame that has to be computed: its rows go to the worker pool. -/
theorem computeTreeForFrame_dispatch (E : Env ν) (r : ν) (first last : Int) (fuel : Nat)
    (frame : Int) (fit : Bool) (s : VideoEngine ν) (h : ViewerPlaying E r first last s)
    (htex : E.isTextureCached s.trace frame = false) :
    ∃ rows, computeTreeForFrame E (fuel + 1) frame fit s =
      Except.ok (afterDispatch frame rows s) := by
  obtain ⟨hv, ho, hr, ha, hp, hlm, hfw, hq, hif, hil, hws, hls⟩ := h
  obtain ⟨o, ho⟩ := Option.isSome_iff_exists.mp ho
  obtain ⟨rows, hrows⟩ := buildRows_completed E.dataWindowX E.dataWindowRight
    (Nat.land E.displayChannels E.infoChannels) E.computeRowSpan 0 s._sequenceToWork
  refine ⟨rows, ?_⟩
  rw [computeTreeForFrame]
  simp [afterDispatch, ho, isOutputAViewer, hv, htex, ha, hp, hrows]

/-- Delivery of the two signals of a computed frame on a viewer: `finishComputeFrameRequest`
hands the frame to `fillPBO`, whose completion runs `engineLoop`. -/
theorem deliverSignals_dispatched (E : Env ν) (fuel : Nat) (s : VideoEngine ν)
    (hv : s._dag._isViewer = true) (hw : s.workerWatcherPending = true) :
    deliverSignals E (fuel + 2) s =
      match engineLoop E fuel (afterFillPBO s) with
      | Except.error e => Except.error e
      | Except.ok s' => deliverSignals E fuel s' := by
  rw [deliverSignals]
  simp only [hw, if_true]
  rw [finishComputeFrameRequest]
  simp only [isOutputAViewer, hv, if_true]
  rw [deliverSignals]
  simp [afterFillPBO, record]

/-- One frame of a viewer playback, from the read to the end of the playback: whichever way the
frame is produced (viewer cache, texture cache, worker pool), `engineLoop` presents it. -/
theorem requestFrames_viewer (E : Env ν) (r : ν) (first last : Int) (m : Nat)
    (hdec : ∀ tr f, E.decodeFrames tr r f = 1)
    (hvf : E.validatedFirstFrame = first) (hvl : E.validatedLastFrame = last)
    (hloop : EngineLoopSpec E r first last m)
    (s : VideoEngine ν) (fit : Bool) (h : ViewerPlaying E r first last s)
    (hc : s._frameRequestsCount = (m : Int) + 1) (hi : 0 ≤ s._frameRequestIndex)
    (g f2 : Nat) (hg : 3 * m + 4 ≤ g) (hf2 : 3 * m + 5 ≤ f2) :
    ∃ s1 s',
      requestFrames E (runTasks (fun t st => callTask E g t st) g)
        (fun st => engineLoop E g st)
        (fun frame fit st => computeTreeForFrame E g frame fit st) fit s = Except.ok s1 ∧
      deliverSignals E f2 s1 = Except.ok s' ∧ Stopped s' ∧
      presentedFrames s'.trace = presentedFrames s.trace ++
        loopFrames first last s.timelineFrame (m + 1) := by
  have h0 := h
  obtain ⟨hv, ho, hr, ha, hp, hlm, hfw, hq, hif, hil, hws, hls⟩ := h
  by_cases hcache : E.viewerCacheGet s.trace r s.timelineFrame = true
  · -- the frame is in the viewer cache
    rw [requestFrames_cached E r first last _ _ _ fit s h0 hcache]
    have hST : ViewerPlaying E r first last (afterCacheHit E r s) :=
      ⟨hv, ho, hr, ha, hp, hlm, hfw, hq, hvf, hvl, hws, hls⟩
    obtain ⟨s1, s', h1, h2, h3, h4⟩ :=
      hloop (afterCacheHit E r s) hST hc hi g f2 (by omega) (by omega)
    refine ⟨s1, s', h1, h2, h3, ?_⟩
    rw [h4]
    simp [afterCacheHit, cachedFrameEngine, record, presentedFrames_append, presentedFrames]
  · have hcache' : E.viewerCacheGet s.trace r s.timelineFrame = false := by
      simpa using hcache
    rw [requestFrames_miss E r first last _ _ _ fit s hdec h0 hcache']
    have hST : ViewerPlaying E r first last (afterCacheMiss E r s) :=
      ⟨hv, ho, hr, ha, hp, hlm, hfw, hq, hvf, hvl, hws, hls⟩
    have hpres : presentedFrames (afterCacheMiss E r s).trace = presentedFrames s.trace := by
      simp [afterCacheMiss, record, presentedFrames_append, presentedFrames]
    obtain ⟨k, rfl⟩ : ∃ k, g = k + 1 := ⟨g - 1, by omega⟩
    by_cases htex : E.isTextureCached (afterCacheMiss E r s).trace s.timelineFrame = true
    · -- the texture of the frame is cached
      rw [computeTreeForFrame_texture E r first last k s.timelineFrame fit _ hST htex]
      obtain ⟨s1, s', h1, h2, h3, h4⟩ :=
        hloop (afterCacheMiss E r s) hST hc hi k f2 (by omega) (by omega)
      refine ⟨s1, s', h1, h2, h3, ?_⟩
      have ht : (afterCacheMiss E r s).timelineFrame = s.timelineFrame := rfl
      rw [h4, hpres, ht]
    · -- the rows of the frame go to the worker pool
      have htex' : E.isTextureCached (afterCacheMiss E r s).trace s.timelineFrame = false := by
        simpa using htex
      obtain ⟨rows, hrows⟩ :=
        computeTreeForFrame_dispatch E r first last k s.timelineFrame fit _ hST htex'
      rw [hrows]
      obtain ⟨x, rfl⟩ : ∃ x, f2 = x + 2 := ⟨f2 - 2, by omega⟩
      have hD : ViewerPlaying E r first last
          (afterFillPBO (afterDispatch s.timelineFrame rows (afterCacheMiss E r s))) :=
        ⟨hv, ho, hr, ha, hp, hlm, hfw, hq, hvf, hvl, rfl, rfl⟩
      obtain ⟨s1, s', h1, h2, h3, h4⟩ :=
        hloop (afterFillPBO (afterDispatch s.timelineFrame rows (afterCacheMiss E r s))) hD hc hi
          x x (by omega) (by omega)
      refine ⟨_, s', rfl, ?_, h3, ?_⟩
      · rw [deliverSignals_dispatched E x
          (afterDispatch s.timelineFrame rows (afterCacheMiss E r s)) hv rfl, h1]
        exact h2
      · rw [h4]
        have : presentedFrames
            (afterFillPBO (afterDispatch s.timelineFrame rows (afterCacheMiss E r s))).trace =
            presentedFrames s.trace := by
          simp [afterFillPBO, afterDispatch, afterCacheMiss, record, presentedFrames_append,
            presentedFrames]
        have ht : (afterFillPBO
            (afterDispatch s.timelineFrame rows (afterCacheMiss E r s))).timelineFrame =
            s.timelineFrame := by
          simp [afterFillPBO, afterDispatch, afterCacheMiss, record]
        rw [this, ht]

/-- A recursive request with `m + 1` frames left seeks the next frame of the loop and produces
it. -/
theorem requestSpec_succ (E : Env ν) (r : ν) (first last : Int) (m : Nat)
    (hdec : ∀ tr f, E.decodeFrames tr r f = 1)
    (hvf : E.validatedFirstFrame = first) (hvl : E.validatedLastFrame = last)
    (hloop : EngineLoopSpec E r first last m) : RequestSpec E r first last (m + 1) := by
  intro s forward fit h hc hi f1 f2 hf1 hf2
  obtain ⟨g, rfl⟩ : ∃ g, f1 = g + 1 := ⟨f1 - 1, by omega⟩
  have hc' : s._frameRequestsCount = (m : Int) + 1 := by
    rw [hc]
    push_cast
    rfl
  have hnext : ViewerNextFrame s :=
    ⟨h.viewer, h.output, h.notAborted, h.notPaused, by omega, by omega⟩
  obtain ⟨hv, ho, hr, ha, hp, hlm, hfw, hq, hif, hil, hws, hls⟩ := h
  obtain ⟨o, ho'⟩ := Option.isSome_iff_exists.mp ho
  have hframe : viewerFrame E false true { s with _working := true, _sameFrame := false } =
      Except.ok (seek (nextFrame first last s.timelineFrame)
        (record Event.nodeCacheClear { s with _working := true, _sameFrame := false }),
        false) := by
    unfold nextFrame
    by_cases hpast : wrapInt (s.timelineFrame + 1) > last
    · simp [viewerFrame, isOutputAViewer, record, hv, ho', hfw, hpast, hlm, hil, hif]
    · simp [viewerFrame, isOutputAViewer, record, hv, ho', hfw, hpast, hlm, hil, hif]
  have hS2 : ViewerPlaying E r first last
      (seek (nextFrame first last s.timelineFrame)
        (record Event.nodeCacheClear { s with _working := true, _sameFrame := false })) :=
    ⟨hv, ho, hr, ha, hp, hlm, hfw, hq, hif, hil, hws, hls⟩
  obtain ⟨s1, s', h1, h2, h3, h4⟩ :=
    requestFrames_viewer E r first last m hdec hvf hvl hloop _ fit hS2 hc' (by
      show 0 ≤ s._frameRequestIndex
      omega) g f2 (by omega) (by omega)
  refine ⟨s1, s', ?_, h2, h3, ?_⟩
  · rw [computeFrameRequest_next E g forward fit s hnext, hframe]
    exact h1
  · rw [h4]
    simp [seek, record, presentedFrames_append, presentedFrames, loopFrames]

theorem requestSpec_all (E : Env ν) (r : ν) (first last : Int)
    (hdec : ∀ tr f, E.decodeFrames tr r f = 1)
    (hvf : E.validatedFirstFrame = first) (hvl : E.validatedLastFrame = last) (m : Nat) :
    RequestSpec E r first last m := by
  induction m with
  | zero => exact requestSpec_zero E r first last
  | succ m ih =>
    exact requestSpec_succ E r first last m hdec hvf hvl
      (engineLoopSpec_of_requestSpec E r first last m ih)

/-- Closed form of the loop order: frame `i` is
`first + ((c - first + i) mod (last - first + 1))`. -/
theorem loopFrames_eq (first last : Int) (hmin : -2147483648 ≤ first)
    (hmax : last < 2147483647) (m : Nat) :
    ∀ c, first ≤ c → c ≤ last →
      loopFrames first last c m =
        (List.range m).map (fun (i : Nat) => first + (c - first + (i : Int)) % (last - first + 1)) := by
  induction m with
  | zero => intro c _ _; rfl
  | succ m ih =>
    intro c h1 h2
    have hr := nextFrame_range first last c hmin hmax h1 h2
    rw [loopFrames, ih _ hr.1 hr.2, List.range_succ_eq_map]
    simp only [List.map_cons, List.map_map, Nat.cast_zero, add_zero]
    have hhead : first + (c - first) % (last - first + 1) = c := by
      rw [Int.emod_eq_of_lt (by omega) (by omega)]
      omega
    rw [hhead]
    congr 1
    apply List.map_congr_left
    intro i _
    simp only [Function.comp_apply, Nat.succ_eq_add_one, Nat.cast_add, Nat.cast_one]
    rw [nextFrame_eq first last c hmin hmax h1 h2]
    split
    · have hc : c = last := by omega
      have e : c - first + ((i : Int) + 1) = (i : Int) + (last - first + 1) := by omega
      rw [e, Int.add_emod_self, sub_self, zero_add]
    · have e : c + 1 - first + (i : Int) = c - first + ((i : Int) + 1) := by omega
      rw [e]

/-- A viewer playback of `n` frames in loop mode, forward, from a frame `c` of the range: the
frames presented are `c` and the frames that `nextFrame` gives one after the other
(`loopFrames`), and the engine has stopped. -/
theorem playback_loopFrames (E : Env ν) (r : ν) (first last : Int) (n : Nat)
    (s : VideoEngine ν) (fitFrameToViewer : Bool)
    (hidle : s._working = false) (hpost : s.postProcessFinished = true)
    (hsig1 : s.workerWatcherPending = false) (hsig2 : s.engineLoopWatcherPending = false)
    (htasks : s._waitingTasks = [])
    (hviewer : s._dag._isViewer = true) (hout : s._dag._output.isSome = true)
    (hinputs : s._dag._inputs = [r]) (hreader : E.isReader r = true)
    (hdec : ∀ tr f, E.decodeFrames tr r f = 1)
    (hvf : E.validatedFirstFrame = first) (hvl : E.validatedLastFrame = last)
    (hloop : s._loopMode = true)
    (hlower : first ≤ s.timelineFrame) (hupper : s.timelineFrame ≤ last) (hn : 1 ≤ n) :
    ∀ fuel, 3 * n + 3 ≤ fuel →
      ∃ s', playback E fuel (n : Int) fitFrameToViewer true false s = Except.ok s' ∧
        presentedFrames s'.trace = presentedFrames s.trace ++
          loopFrames first last s.timelineFrame n ∧
        s'._working = false ∧ s'._frameRequestsCount = 0 ∧
        s'.workerWatcherPending = false ∧ s'.engineLoopWatcherPending = false := by
  intro fuel hfuel
  obtain ⟨g, rfl⟩ : ∃ g, fuel = g + 2 := ⟨fuel - 2, by omega⟩
  obtain ⟨m, rfl⟩ : ∃ m, n = m + 1 := ⟨n - 1, by omega⟩
  obtain ⟨o, ho⟩ := Option.isSome_iff_exists.mp hout
  have hspec := engineLoopSpec_of_requestSpec E r first last m
    (requestSpec_all E r first last hdec hvf hvl m)
  -- the state in which the first frame is read
  have hS2 : ViewerPlaying E r first last
      (seek s.timelineFrame
        { s with playState := PlayState.RUNNING, _frameRequestsCount := ((m + 1 : Nat) : Int),
                 _frameRequestIndex := 0, _forward := true, _paused := false,
                 _aborted := false, _working := true, _sameFrame := false,
                 infoFirstFrame := E.validatedFirstFrame,
                 infoLastFrame := E.validatedLastFrame }) :=
    ⟨hviewer, hout, by simp [getReaders, seek, record, hinputs, hreader], rfl, rfl, hloop, rfl,
      htasks, hvf, hvl, hsig1, hsig2⟩
  obtain ⟨s1, s', h1, h2, h3, h4⟩ :=
    requestFrames_viewer E r first last m hdec hvf hvl hspec _ fitFrameToViewer hS2
      (by
        show ((m + 1 : Nat) : Int) = (m : Int) + 1
        push_cast
        rfl)
      (le_refl (0 : Int)) g (g + 2) (by omega) (by omega)
  have hreq : computeFrameRequest E (g + 1) false true fitFrameToViewer false
      { s with playState := PlayState.RUNNING, _frameRequestsCount := ((m + 1 : Nat) : Int),
               _frameRequestIndex := 0, _forward := true, _paused := false,
               _aborted := false } = Except.ok s1 := by
    rw [← h1, computeFrameRequest]
    have hcnt : ¬ ((m : Int) + 1 = 0) := by omega
    simp [writerPrologue, isOutputAViewer, hviewer, entryCheck, ho, viewerFrame, validateOutput,
      hvf, hvl, hlower, hupper, not_lt.mpr hlower, not_lt.mpr hupper, hcnt]
  have hpres : presentedFrames s'.trace = presentedFrames s.trace ++
      loopFrames first last s.timelineFrame (m + 1) := by
    rw [h4]
    simp [seek, record, presentedFrames_append, presentedFrames]
  refine ⟨s', ?_, hpres, h3.idle, h3.countdown, h3.workerSignal, h3.loopSignal⟩
  unfold playback
  rw [videoEngine_idle E (g + 1) _ fitFrameToViewer true false s hidle hpost, hreq]
  exact h2

/-- C6 (counterexample): the idle viewer of `idleAtIntMax` on a sequence whose validated range
is [1, 2147483647], loop mode on, timeline at 2147483647 (a frame of the range), asked for
2 frames forward. The claim gives the frames 2147483647 and 1; the engine presents 2147483647
and -2147483648, the `int` value of 2147483647 + 1 (line 198), which is not beyond
`lastFrame`. -/
theorem viewer_loop_at_int_max :
    idleAtIntMax._working = false ∧ idleAtIntMax._dag._isViewer = true ∧
    idleAtIntMax._loopMode = true ∧ idleAtIntMax.timelineFrame = 2147483647 ∧
    longSequenceEnv.validatedFirstFrame = 1 ∧
    longSequenceEnv.validatedLastFrame = 2147483647 ∧
    (List.range 2).map
      (fun (i : Nat) => (1 : Int) + (2147483647 - 1 + (i : Int)) % (2147483647 - 1 + 1)) =
      [2147483647, 1] ∧
    ∃ s', playback longSequenceEnv 9 2 false true false idleAtIntMax = Except.ok s' ∧
      presentedFrames s'.trace = [2147483647, -2147483648] ∧
      s'._working = false ∧ s'._frameRequestsCount = 0 := by
  refine ⟨rfl, rfl, rfl, rfl, rfl, rfl, by decide, ?_⟩
  obtain ⟨s', h1, h2, h3, h4, _, _⟩ :=
    playback_loopFrames longSequenceEnv 0 1 2147483647 2 idleAtIntMax false rfl rfl rfl rfl rfl
      rfl rfl rfl rfl (fun _ _ => rfl) rfl rfl rfl (by decide) (by decide) (by decide) 9
      (by decide)
  refine ⟨s', h1, ?_, h3, h4⟩
  rw [h2]
  decide

/-- C6 (amended): an idle engine (not working, post-process future finished, no signal pending,
no deferred task) whose DAG has a viewer output and one source node, a reader that decodes one
frame per request; the validated frame range is [`first`, `last`] with `first` an `int` and
`last` below 2147483647, the largest `int`; loop mode is on, and the timeline is at a frame `c`
of the range. `videoEngine(n, fit, forward = true, sameFrame = false)` with `n >= 1`, followed
by the signals it causes (no pause, no abort), returns with enough fuel; the viewer has then
presented exactly `n` frames, the `i`-th one (from 0) being
`first + ((c - first + i) mod (last - first + 1))`, and the engine has stopped. -/
theorem viewer_loop_presents_frames (E : Env ν) (r : ν) (first last : Int) (n : Nat)
    (s : VideoEngine ν) (fitFrameToViewer : Bool)
    (hidle : s._working = false) (hpost : s.postProcessFinished = true)
    (hsig1 : s.workerWatcherPending = false) (hsig2 : s.engineLoopWatcherPending = false)
    (htasks : s._waitingTasks = [])
    (hviewer : s._dag._isViewer = true) (hout : s._dag._output.isSome = true)
    (hinputs : s._dag._inputs = [r]) (hreader : E.isReader r = true)
    (hdec : ∀ tr f, E.decodeFrames tr r f = 1)
    (hvf : E.validatedFirstFrame = first) (hvl : E.validatedLastFrame = last)
    (hloop : s._loopMode = true)
    (hmin : -2147483648 ≤ first) (hmax : last < 2147483647)
    (hlower : first ≤ s.timelineFrame) (hupper : s.timelineFrame ≤ last) (hn : 1 ≤ n) :
    ∀ fuel, 3 * n + 3 ≤ fuel →
      ∃ s', playback E fuel (n : Int) fitFrameToViewer true false s = Except.ok s' ∧
        presentedFrames s'.trace = presentedFrames s.trace ++
          (List.range n).map
            (fun (i : Nat) => first + (s.timelineFrame - first + (i : Int)) % (last - first + 1)) ∧
        (presentedFrames s'.trace).length = (presentedFrames s.trace).length + n ∧
        s'._working = false ∧ s'._frameRequestsCount = 0 ∧
        s'.workerWatcherPending = false ∧ s'.engineLoopWatcherPending = false := by
  intro fuel hfuel
  obtain ⟨s', h1, h2, h3, h4, h5, h6⟩ :=
    playback_loopFrames E r first last n s fitFrameToViewer hidle hpost hsig1 hsig2 htasks
      hviewer hout hinputs hreader hdec hvf hvl hloop hlower hupper hn fuel hfuel
  have hpres : presentedFrames s'.trace = presentedFrames s.trace ++
      (List.range n).map
        (fun (i : Nat) => first + (s.timelineFrame - first + (i : Int)) % (last - first + 1)) := by
    rw [h2, loopFrames_eq first last hmin hmax n s.timelineFrame hlower hupper]
  refine ⟨s', h1, hpres, ?_, h3, h4, h5, h6⟩
  rw [hpres]
  simp

/-- Witness of C6 (amended): the viewer of `idleEngine true` (range [1, 5], loop mode, timeline
at 5) asked for 3 frames presents 5, 1, 2. -/
theorem viewer_loop_presents_frames_sample :
    (idleEngine true)._working = false ∧ (idleEngine true)._dag._isViewer = true ∧
    (idleEngine true)._loopMode = true ∧ (idleEngine true).timelineFrame = 5 ∧
    sampleEnv.validatedFirstFrame = 1 ∧ sampleEnv.validatedLastFrame = 5 ∧
    ∃ s', playback sampleEnv 12 3 false true false (idleEngine true) = Except.ok s' ∧
      presentedFrames s'.trace = [5, 1, 2] ∧
      s'._working = false ∧ s'._frameRequestsCount = 0 := by
  refine ⟨rfl, rfl, rfl, rfl, rfl, rfl, ?_⟩
  obtain ⟨s', h1, h2, _, h3, h4, _, _⟩ :=
    viewer_loop_presents_frames sampleEnv 0 1 5 3 (idleEngine true) false rfl rfl rfl rfl rfl
      rfl rfl rfl rfl (fun _ _ => rfl) rfl rfl rfl (by decide) (by decide) (by decide)
      (by decide) (by decide) 12 (by decide)
  refine ⟨s', h1, ?_, h3, h4⟩
  rw [h2]
  decide

end viewer_proofs

section request_proofs
set_option linter.unusedSectionVars false
variable {ν : Type} [DecidableEq ν]

/-! ### Start of a sequence and the first request -/

/-- C11: on an engine that is not busy (`_working` false and the post-process future finished),
`videoEngine(frameCount, fitFrameToViewer, forward, sameFrame)` calls
`computeFrameRequest(sameFrame, forward, fitFrameToViewer, false)` on a state whose countdown is
`frameCount`, request index 0, direction `forward`, paused false, aborted false and play state
RUNNING, whatever these fields held before; every other field is the one of the engine before
the call. -/
theorem videoEngine_resets_request_state (E : Env ν) (fuel : Nat) (frameCount : Int)
    (fitFrameToViewer forward sameFrame : Bool) (s : VideoEngine ν)
    (hw : s._working = false) (hp : s.postProcessFinished = true) :
    ∃ s1 : VideoEngine ν,
      videoEngine E (fuel + 1) frameCount fitFrameToViewer forward sameFrame s =
        computeFrameRequest E fuel sameFrame forward fitFrameToViewer false s1 ∧
      s1._frameRequestsCount = frameCount ∧ s1._frameRequestIndex = 0 ∧
      s1._forward = forward ∧ s1._paused = false ∧ s1._aborted = false ∧
      s1.playState = PlayState.RUNNING ∧
      s1 = { s with playState := PlayState.RUNNING, _frameRequestsCount := frameCount,
                    _frameRequestIndex := 0, _forward := forward, _paused := false,
                    _aborted := false } :=
  ⟨_, videoEngine_idle E fuel frameCount fitFrameToViewer forward sameFrame s hw hp,
    rfl, rfl, rfl, rfl, rfl, rfl, rfl⟩

/-- Witness of C11: a start on an idle engine whose countdown is 4, request index 9, direction
backward, with the paused and aborted flags set. -/
theorem videoEngine_resets_request_state_sample :
    staleIdleEngine._working = false ∧ staleIdleEngine.postProcessFinished = true ∧
    staleIdleEngine._frameRequestsCount = 4 ∧ staleIdleEngine._frameRequestIndex = 9 ∧
    staleIdleEngine._forward = false ∧ staleIdleEngine._paused = true ∧
    staleIdleEngine._aborted = true ∧
    ∃ s1 : VideoEngine (Fin 2),
      videoEngine sampleEnv 3 (-1) false true false staleIdleEngine =
        computeFrameRequest sampleEnv 2 false true false false s1 ∧
      s1._frameRequestsCount = -1 ∧ s1._frameRequestIndex = 0 ∧
      s1._forward = true ∧ s1._paused = false ∧ s1._aborted = false ∧
      s1.playState = PlayState.RUNNING ∧
      s1 = { staleIdleEngine with playState := PlayState.RUNNING, _frameRequestsCount := -1,
                                  _frameRequestIndex := 0, _forward := true, _paused := false,
                                  _aborted := false } :=
  ⟨rfl, rfl, rfl, rfl, rfl, rfl, rfl,
    videoEngine_resets_request_state sampleEnv 2 (-1) false true false staleIdleEngine rfl rfl⟩

theorem clampFrame_range (first last c : Int) (h : first ≤ last) :
    first ≤ clampFrame first last c ∧ clampFrame first last c ≤ last := by
  unfold clampFrame
  split_ifs <;> omega

/-- The first (non-recursive) request of a sequence on a viewer, `sameFrame = false`, that
passes the entry checks: the output is validated, the timeline's frame is clamped and seeked,
then the frames are read and produced. -/
theorem computeFrameRequest_first (E : Env ν) (fuel : Nat) (forward fit : Bool)
    (s : VideoEngine ν) (hv : s._dag._isViewer = true) (ho : s._dag._output.isSome = true)
    (ha : s._aborted = false) (hp : s._paused = false) (hc : s._frameRequestsCount ≠ 0) :
    computeFrameRequest E (fuel + 1) false forward fit false s =
      requestFrames E (runTasks (fun t st => callTask E fuel t st) fuel)
        (fun st => engineLoop E fuel st)
        (fun frame fit st => computeTreeForFrame E fuel frame fit st) fit
        (seek (clampFrame E.validatedFirstFrame E.validatedLastFrame s.timelineFrame)
          { s with _working := true, _sameFrame := false,
                   infoFirstFrame := E.validatedFirstFrame,
                   infoLastFrame := E.validatedLastFrame }) := by
  obtain ⟨o, ho⟩ := Option.isSome_iff_exists.mp ho
  rw [computeFrameRequest]
  simp only [writerPrologue, isOutputAViewer, hv, if_true, entryCheck, ha, hp, hc, ho]
  simp [viewerFrame, isOutputAViewer, validateOutput, hv, ho, clampFrame]

/-- A non-recursive request with `sameFrame = true` on a viewer that passes the entry checks
(the abort flag is not tested): no validation of the range, no seek; the frames are read and
produced at the timeline's frame. -/
theorem computeFrameRequest_sameFrame (E : Env ν) (fuel : Nat) (forward fit : Bool)
    (s : VideoEngine ν) (hv : s._dag._isViewer = true) (ho : s._dag._output.isSome = true)
    (hp : s._paused = false) (hc : s._frameRequestsCount ≠ 0) :
    computeFrameRequest E (fuel + 1) true forward fit false s =
      requestFrames E (runTasks (fun t st => callTask E fuel t st) fuel)
        (fun st => engineLoop E fuel st)
        (fun frame fit st => computeTreeForFrame E fuel frame fit st) fit
        { s with _working := true, _sameFrame := true } := by
  obtain ⟨o, ho⟩ := Option.isSome_iff_exists.mp ho
  rw [computeFrameRequest]
  simp only [writerPrologue, isOutputAViewer, hv, if_true, entryCheck, hp, hc, ho]
  simp [viewerFrame, isOutputAViewer, hv]

/-- C20: the first (non-recursive) request of a sequence on a viewer with `sameFrame = false`
that passes the entry checks, the validated range being [`first`, `last`] with `first <= last`.
The request goes on to read and produce frames in a state whose timeline is at the frame `c` of
the timeline before the call clamped into the range (`first` if `c < first`, `last` if
`c > last`, `c` otherwise); the one call added to the trace is the seek of that frame; every
frame that is read, hence every frame handed to the cache path or to `computeTreeForFrame`,
is that frame; and it lies in [`first`, `last`]. -/
theorem computeFrameRequest_clamps_viewer_frame (E : Env ν) (fuel : Nat)
    (forward fitFrameToViewer : Bool) (s : VideoEngine ν)
    (hv : s._dag._isViewer = true) (ho : s._dag._output.isSome = true)
    (ha : s._aborted = false) (hp : s._paused = false) (hc : s._frameRequestsCount ≠ 0)
    (hrange : E.validatedFirstFrame ≤ E.validatedLastFrame) :
    ∃ s2 : VideoEngine ν,
      computeFrameRequest E (fuel + 1) false forward fitFrameToViewer false s =
        requestFrames E (runTasks (fun t st => callTask E fuel t st) fuel)
          (fun st => engineLoop E fuel st)
          (fun frame fit st => computeTreeForFrame E fuel frame fit st) fitFrameToViewer s2 ∧
      s2.timelineFrame =
        (if s.timelineFrame < E.validatedFirstFrame then E.validatedFirstFrame
         else if s.timelineFrame > E.validatedLastFrame then E.validatedLastFrame
         else s.timelineFrame) ∧
      s2.trace = s.trace ++ [Event.seek s2.timelineFrame] ∧
      s2.infoFirstFrame = E.validatedFirstFrame ∧ s2.infoLastFrame = E.validatedLastFrame ∧
      (∀ rf ∈ (startReading E (getReaders E s2) true true s2).1,
        rf.frame = s2.timelineFrame) ∧
      E.validatedFirstFrame ≤ s2.timelineFrame ∧ s2.timelineFrame ≤ E.validatedLastFrame := by
  refine ⟨_, computeFrameRequest_first E fuel forward fitFrameToViewer s hv ho ha hp hc,
    rfl, ?_, rfl, rfl, ?_, ?_⟩
  · simp [seek, record]
  · intro rf hrf
    rw [startReading_main_frames E _ true _ rf hrf]
    simp [frameToRead, seek, record, isOutputAViewer, hv]
  · exact clampFrame_range _ _ _ hrange

/-- Witness of C20: the viewer of `sampleEnv` (validated range [1, 5]) with the timeline at
frame 9: the frame seeked and read is 5. -/
theorem computeFrameRequest_clamps_viewer_frame_sample :
    (viewerAtFrame 9)._dag._isViewer = true ∧ (viewerAtFrame 9)._dag._output.isSome = true ∧
    (viewerAtFrame 9)._aborted = false ∧ (viewerAtFrame 9)._paused = false ∧
    (viewerAtFrame 9)._frameRequestsCount ≠ 0 ∧
    sampleEnv.validatedFirstFrame ≤ sampleEnv.validatedLastFrame ∧
    ∃ s2 : VideoEngine (Fin 2),
      computeFrameRequest sampleEnv 1 false true false false (viewerAtFrame 9) =
        requestFrames sampleEnv (runTasks (fun t st => callTask sampleEnv 0 t st) 0)
          (fun st => engineLoop sampleEnv 0 st)
          (fun frame fit st => computeTreeForFrame sampleEnv 0 frame fit st) false s2 ∧
      s2.timelineFrame = 5 ∧
      s2.trace = [Event.seek 5] ∧
      (∀ rf ∈ (startReading sampleEnv (getReaders sampleEnv s2) true true s2).1,
        rf.frame = 5) := by
  refine ⟨rfl, rfl, rfl, rfl, by decide, by decide, ?_⟩
  obtain ⟨s2, h1, h2, h3, _, _, h6, _, _⟩ :=
    computeFrameRequest_clamps_viewer_frame sampleEnv 0 true false (viewerAtFrame 9)
      rfl rfl rfl rfl (by decide) (by decide)
  have h5 : s2.timelineFrame = 5 := by
    rw [h2]
    decide
  refine ⟨s2, h1, h5, ?_, ?_⟩
  · rw [h3, h5]
    rfl
  · intro rf hrf
    rw [h6 rf hrf, h5]

end request_proofs

section same_frame_proofs
set_option linter.unusedSectionVars false
variable {ν : Type} [DecidableEq ν]

/-! ### A frame requested with `sameFrame = true` -/

theorem stopEngine_requestIndex (s : VideoEngine ν) :
    (stopEngine s)._frameRequestIndex = s._frameRequestIndex := by
  unfold stopEngine; split <;> rfl

/-- The recursive call of `engineLoop` is made on `engineLoopRequest`. -/
theorem engineLoop_request (E : Env ν) (fuel : Nat) (s : VideoEngine ν) :
    engineLoop E (fuel + 1) s =
      computeFrameRequest E fuel false (engineLoopRequest E s)._forward false true
        (engineLoopRequest E s) := by
  rw [engineLoop]
  rfl

/-- The counters and the timeline in the state in which `engineLoop` makes its recursive call. -/
theorem engineLoopRequest_counters (E : Env ν) (s : VideoEngine ν) :
    (engineLoopRequest E s)._frameRequestIndex = s._frameRequestIndex + 1 ∧
    (engineLoopRequest E s)._frameRequestsCount =
      (if s._frameRequestIndex = 0 ∧ s._frameRequestsCount = 1 ∧ s._sameFrame = false then 0
       else if s._frameRequestsCount ≠ -1 then s._frameRequestsCount - 1
       else s._frameRequestsCount) ∧
    (engineLoopRequest E s).timelineFrame = s.timelineFrame := by
  unfold engineLoopRequest
  simp only [startReading_ahead_eq]
  refine ⟨?_, ?_, ?_⟩ <;> split_ifs <;> simp [record]

/-- A recursive request on a viewer with the countdown at 0, no abort and an empty task queue:
`stopEngine(); runTasks(); stopEngine();`. -/
theorem computeFrameRequest_drain_empty (E : Env ν) (fuel : Nat) (forward fit : Bool)
    (s : VideoEngine ν) (hv : s._dag._isViewer = true) (ha : s._aborted = false)
    (hc : s._frameRequestsCount = 0) (hq : s._waitingTasks = []) :
    computeFrameRequest E (fuel + 2) false forward fit true s =
      Except.ok (stopEngine (stopEngine { s with _working := true, _sameFrame := false })) := by
  rw [computeFrameRequest]
  simp only [writerPrologue, isOutputAViewer, hv, if_true, entryCheck, ha, hc]
  simp only [stopRunTasksStop]
  rw [runTasks_empty _ fuel _ (by rw [stopEngine_waitingTasks]; exact hq)]
  simp

theorem sameFrame_started_playing (count : Int) :
    ViewerPlaying sampleEnv 0 1 5
      { startedEngine count true (idleEngine true) with _working := true, _sameFrame := true } :=
  ⟨rfl, rfl, rfl, rfl, rfl, rfl, rfl, rfl, rfl, rfl, rfl, rfl⟩

/-- A start with `sameFrame = true` on the idle viewer of `sampleEnv`: the frame at the timeline
is found in the viewer cache and `engineLoop` is entered on `sameFrameProduced`. -/
theorem videoEngine_sameFrame_sample (fuel : Nat) (count : Int) (hc : count ≠ 0) :
    videoEngine sampleEnv (fuel + 3) count false true true (idleEngine true) =
      engineLoop sampleEnv (fuel + 1) (sameFrameProduced count) := by
  rw [videoEngine_idle sampleEnv (fuel + 2) count false true true (idleEngine true) rfl rfl]
  have h := computeFrameRequest_sameFrame sampleEnv (fuel + 1) true false
    (startedEngine count true (idleEngine true)) rfl rfl rfl hc
  have h2 := requestFrames_cached sampleEnv 0 1 5
    (runTasks (fun t st => callTask sampleEnv (fuel + 1) t st) (fuel + 1))
    (fun st => engineLoop sampleEnv (fuel + 1) st)
    (fun frame fit st => computeTreeForFrame sampleEnv (fuel + 1) frame fit st) false
    _ (sameFrame_started_playing count) rfl
  exact h.trans h2

/-- C12 (counterexample): a frame requested with `sameFrame = true` is counted. On the idle
viewer of `sampleEnv`, `videoEngine(2, false, true, true)` resets the request index to 0 and the
countdown to 2 and, the frame being in the viewer cache, enters `engineLoop` in the state
`sameFrameProduced 2` (`_sameFrame` true, index 0, countdown 2); `engineLoop` then makes its
recursive request with the index at 1 and the countdown at 1. With a countdown of 1 the run
ends with the request index at 1, frame 5 presented once, and the engine stopped. -/
theorem sameFrame_request_advances_counters :
    (sameFrameProduced 2)._sameFrame = true ∧ (sameFrameProduced 2)._frameRequestIndex = 0 ∧
    (sameFrameProduced 2)._frameRequestsCount = 2 ∧
    (∀ fuel : Nat, videoEngine sampleEnv (fuel + 3) 2 false true true (idleEngine true) =
      engineLoop sampleEnv (fuel + 1) (sameFrameProduced 2)) ∧
    (∀ fuel : Nat, engineLoop sampleEnv (fuel + 1) (sameFrameProduced 2) =
      computeFrameRequest sampleEnv fuel false true false true
        (engineLoopRequest sampleEnv (sameFrameProduced 2))) ∧
    (engineLoopRequest sampleEnv (sameFrameProduced 2))._frameRequestIndex = 1 ∧
    (engineLoopRequest sampleEnv (sameFrameProduced 2))._frameRequestsCount = 1 ∧
    ∃ s' : VideoEngine (Fin 2),
      videoEngine sampleEnv 5 1 false true true (idleEngine true) = Except.ok s' ∧
      s'._frameRequestIndex = 1 ∧ s'._frameRequestsCount = 0 ∧ s'._working = false ∧
      presentedFrames s'.trace = [5] := by
  refine ⟨rfl, rfl, rfl, fun fuel => videoEngine_sameFrame_sample fuel 2 (by decide),
    fun fuel => engineLoop_request sampleEnv fuel _, by decide, by decide, ?_⟩
  have hrun : videoEngine sampleEnv 5 1 false true true (idleEngine true) =
      Except.ok (stopEngine (stopEngine
        { engineLoopRequest sampleEnv (sameFrameProduced 1) with
          _working := true, _sameFrame := false })) := by
    rw [videoEngine_sameFrame_sample 2 1 (by decide), engineLoop_request sampleEnv 2]
    exact computeFrameRequest_drain_empty sampleEnv 0 _ false
      (engineLoopRequest sampleEnv (sameFrameProduced 1)) rfl (by decide) (by decide) (by decide)
  refine ⟨_, hrun, ?_, stopEngine_countdown _, stopEngine_working _, ?_⟩
  · rw [stopEngine_requestIndex, stopEngine_requestIndex]
    decide
  · rw [stopEngine_trace, stopEngine_trace]
    decide

/-- C12 (amended): a frame requested with `sameFrame = true` on a viewer is produced at the
timeline's frame and counted like any other frame. The non-recursive request that passes the
entry checks goes on to read and produce frames without a seek: the timeline, the trace, the
request index and the countdown are the ones before the request, `_sameFrame` is set, and every
frame read is the timeline's frame. `engineLoop`, entered with `_sameFrame` set, makes its
recursive request with the request index advanced by one and the countdown decremented by one
unless it is -1 (unbounded); the timeline's frame is unchanged. -/
theorem sameFrame_request_keeps_frame_and_counts (E : Env ν) (fuel : Nat)
    (forward fitFrameToViewer : Bool) (s : VideoEngine ν)
    (hv : s._dag._isViewer = true) (ho : s._dag._output.isSome = true)
    (hp : s._paused = false) (hc : s._frameRequestsCount ≠ 0) :
    (∃ s2 : VideoEngine ν,
      computeFrameRequest E (fuel + 1) true forward fitFrameToViewer false s =
        requestFrames E (runTasks (fun t st => callTask E fuel t st) fuel)
          (fun st => engineLoop E fuel st)
          (fun frame fit st => computeTreeForFrame E fuel frame fit st) fitFrameToViewer s2 ∧
      s2._sameFrame = true ∧ s2.timelineFrame = s.timelineFrame ∧ s2.trace = s.trace ∧
      s2._frameRequestIndex = s._frameRequestIndex ∧
      s2._frameRequestsCount = s._frameRequestsCount ∧
      ∀ rf ∈ (startReading E (getReaders E s2) true true s2).1,
        rf.frame = s.timelineFrame) ∧
    ∀ (g : Nat) (t : VideoEngine ν), t._sameFrame = true →
      engineLoop E (g + 1) t =
        computeFrameRequest E g false (engineLoopRequest E t)._forward false true
          (engineLoopRequest E t) ∧
      (engineLoopRequest E t)._frameRequestIndex = t._frameRequestIndex + 1 ∧
      (engineLoopRequest E t)._frameRequestsCount =
        (if t._frameRequestsCount = -1 then -1 else t._frameRequestsCount - 1) ∧
      (engineLoopRequest E t).timelineFrame = t.timelineFrame := by
  constructor
  · refine ⟨_, computeFrameRequest_sameFrame E fuel forward fitFrameToViewer s hv ho hp hc,
      rfl, rfl, rfl, rfl, rfl, ?_⟩
    intro rf hrf
    rw [startReading_main_frames E _ true _ rf hrf]
    simp [frameToRead, isOutputAViewer, hv]
  · intro g t ht
    obtain ⟨h1, h2, h3⟩ := engineLoopRequest_counters E t
    refine ⟨engineLoop_request E g t, h1, ?_, h3⟩
    rw [h2]
    simp only [ht, Bool.true_eq_false, and_false, if_false]
    by_cases h : t._frameRequestsCount = -1
    · simp [h]
    · simp [h]

/-- Witness of C12 (amended): the refresh of the frame at the timeline (frame 5) on the viewer
of `sampleEnv`, with a countdown of 1: the request reads frame 5 without a seek, and
`engineLoop` makes the next request with the index at 1 and the countdown at 0. -/
theorem sameFrame_request_keeps_frame_and_counts_sample :
    (startedEngine 1 true (idleEngine true))._dag._isViewer = true ∧
    (startedEngine 1 true (idleEngine true))._dag._output.isSome = true ∧
    (startedEngine 1 true (idleEngine true))._paused = false ∧
    (startedEngine 1 true (idleEngine true))._frameRequestsCount ≠ 0 ∧
    (sameFrameProduced 1)._sameFrame = true ∧
    (∃ s2 : VideoEngine (Fin 2),
      computeFrameRequest sampleEnv 1 true true false false
          (startedEngine 1 true (idleEngine true)) =
        requestFrames sampleEnv (runTasks (fun t st => callTask sampleEnv 0 t st) 0)
          (fun st => engineLoop sampleEnv 0 st)
          (fun frame fit st => computeTreeForFrame sampleEnv 0 frame fit st) false s2 ∧
      s2.trace = [] ∧ s2._frameRequestIndex = 0 ∧ s2._frameRequestsCount = 1 ∧
      ∀ rf ∈ (startReading sampleEnv (getReaders sampleEnv s2) true true s2).1,
        rf.frame = 5) ∧
    (engineLoopRequest sampleEnv (sameFrameProduced 1))._frameRequestIndex = 1 ∧
    (engineLoopRequest sampleEnv (sameFrameProduced 1))._frameRequestsCount = 0 ∧
    (engineLoopRequest sampleEnv (sameFrameProduced 1)).timelineFrame = 5 := by
  have h := sameFrame_request_keeps_frame_and_counts sampleEnv 0 true false
    (startedEngine 1 true (idleEngine true)) rfl rfl rfl (by decide)
  obtain ⟨⟨s2, h1, _, _, h4, h5, h6, h7⟩, h8⟩ := h
  obtain ⟨_, h9, h10, h11⟩ := h8 0 (sameFrameProduced 1) rfl
  exact ⟨rfl, rfl, rfl, by decide, rfl, ⟨s2, h1, h4, h5, h6, h7⟩, h9, h10, h11⟩

end same_frame_proofs

section abort_proofs
set_option linter.unusedSectionVars false
variable {ν : Type} [DecidableEq ν]

/-! ### Abort and pause -/

/-- At the entry of `computeFrameRequest` with `sameFrame = false` on a viewer, a set abort flag
is served first, whatever the pause flag and the countdown: the task queue is cleared, no task
is called, and the engine stops. -/
theorem computeFrameRequest_abort_entry (E : Env ν) (fuel : Nat)
    (forward fit recursiveCall : Bool) (s : VideoEngine ν)
    (hv : s._dag._isViewer = true) (ha : s._aborted = true) :
    computeFrameRequest E (fuel + 1) false forward fit recursiveCall s =
      Except.ok (stopEngine
        { s with _working := true, _sameFrame := false, _waitingTasks := [] }) := by
  rw [computeFrameRequest]
  simp [writerPrologue, isOutputAViewer, hv, entryCheck, ha]

/-- The entry of a recursive request on a writer with the abort flag set: the writer's frame
counter is incremented, the task queue is cleared, no task is called, and the engine stops. -/
theorem computeFrameRequest_abort_writer (E : Env ν) (fuel : Nat) (forward fit : Bool)
    (s : VideoEngine ν) (hv : s._dag._isViewer = false) (ho : s._dag._output.isSome = true)
    (ha : s._aborted = true) :
    computeFrameRequest E (fuel + 1) false forward fit true s =
      Except.ok (stopEngine
        { s with _working := true, _sameFrame := false,
                 writerCurrentFrame := s.writerCurrentFrame + 1, _waitingTasks := [] }) := by
  obtain ⟨o, ho⟩ := Option.isSome_iff_exists.mp ho
  rw [computeFrameRequest]
  simp [writerPrologue, isOutputAViewer, hv, entryCheck, ha, ho]

theorem buildRows_aborted (paused : Bool) (offset right : Int) (channels : Nat) (y : Int)
    (ys : List Int) (counter : Int) (acc : List Row) :
    buildRows true paused offset right channels (y :: ys) counter acc =
      (acc, RowLoopExit.aborted) := by
  simp [buildRows]

/-- In the row loop of `computeTreeForFrame` (at least one row to build, no cached texture), a
set abort flag is served first, whatever the pause flag: the task queue is cleared, no task is
called, no row is dispatched, and the engine stops. -/
theorem computeTreeForFrame_abort_rows (E : Env ν) (fuel : Nat) (frame : Int) (fit : Bool)
    (s : VideoEngine ν) (ho : s._dag._output.isSome = true) (ha : s._aborted = true)
    (htex : isOutputAViewer s = true → E.isTextureCached s.trace frame = false)
    (hrows : (if isOutputAViewer s then E.computeRowSpan else writerRows E) ≠ []) :
    computeTreeForFrame E (fuel + 1) frame fit s =
      Except.ok (stopEngine { s with _waitingTasks := [] }) := by
  obtain ⟨o, ho⟩ := Option.isSome_iff_exists.mp ho
  obtain ⟨y, ys, hys⟩ := List.exists_cons_of_ne_nil hrows
  rw [computeTreeForFrame]
  have hc : ¬ (isOutputAViewer s = true ∧ E.isTextureCached s.trace frame = true) := by
    intro h
    rw [htex h.1] at h
    exact absurd h.2 (by simp)
  simp only [ho, if_neg hc, ha, hys, buildRows_aborted]

/-- After a cache-hit presentation with the pause flag set, the engine stops and runs the
deferred tasks whether or not the abort flag is set: the pause test (line 244) comes first. -/
theorem requestFrames_cached_paused (E : Env ν) (r : ν)
    (run loop : VideoEngine ν → Except Fault (VideoEngine ν))
    (tree : Int → Bool → VideoEngine ν → Except Fault (VideoEngine ν)) (fit : Bool)
    (s : VideoEngine ν) (hv : s._dag._isViewer = true) (ho : s._dag._output.isSome = true)
    (hr : getReaders E s = [r])
    (hcache : E.viewerCacheGet s.trace r s.timelineFrame = true) (hp : s._paused = true) :
    requestFrames E run loop tree fit s = stopRunTasksStop run (afterCacheHit E r s) := by
  obtain ⟨o, ho⟩ := Option.isSome_iff_exists.mp ho
  have hr' : List.filter E.isReader s._dag._inputs = [r] := hr
  simp [afterCacheHit, requestFrames, getReaders, hr', startReading, readOnMainThread,
    isOutputAViewer, hv, frameToRead, hcache, validateOutput, ho, record, forFrames,
    cachedFrameEngine, hp]
  generalize stopRunTasksStop run _ = x
  cases x <;> rfl

/-- C13 (code bug): after a cache-hit presentation the pause flag is tested before the abort
flag (lines 244-255). The viewer of `sampleEnv` is in a request for frame 5, which is in the
viewer cache, with both flags set (`pause()` and `abort()` have run, as they can in the event
loop that `cachedFrameEngine` enters) and one deferred request in the queue. The part of
`computeFrameRequest` that reads and produces the frame (`requestFrames`, lines 222-260) stops
the engine and runs the tasks: the deferred request is called (the last call of the trace),
though the abort flag was set. This is so with a task function that just returns and with the
engine's own `_startEngine` (a seek to frame 7, outside the range [1, 5], which returns at
once); `requestFrames_cached_paused` has it for every viewer. At the two other points the abort
flag is tested first (`computeFrameRequest_abort_entry`, `computeTreeForFrame_abort_rows`). -/
theorem cache_hit_pause_runs_task_despite_abort :
    (pausedAndAborted [seekTask 2])._aborted = true ∧
    (pausedAndAborted [seekTask 2])._paused = true ∧
    (requestFrames sampleEnv (runTasks callAndReturn 2) (fun st => engineLoop sampleEnv 0 st)
        (fun frame fit st => computeTreeForFrame sampleEnv 0 frame fit st) false
        (pausedAndAborted [seekTask 2])).toOption.map
      (fun s => (s.trace, s._waitingTasks, s._working)) =
      some ([Event.openCachedFrame 0 5 false, Event.cachedFrameEngine 5,
             Event.callTask (seekTask 2)], [], false) ∧
    (requestFrames sampleEnv (runTasks (fun t st => callTask sampleEnv 2 t st) 2)
        (fun st => engineLoop sampleEnv 0 st)
        (fun frame fit st => computeTreeForFrame sampleEnv 0 frame fit st) false
        (pausedAndAborted [seekTask 7])).toOption.map
      (fun s => (s.trace, s._waitingTasks, s._working)) =
      some ([Event.openCachedFrame 0 5 false, Event.cachedFrameEngine 5,
             Event.callTask (seekTask 7)], [], false) := by
  refine ⟨rfl, rfl, ?_, ?_⟩ <;> decide

end abort_proofs

section abort_in_flight_proofs
set_option linter.unusedSectionVars false
variable {ν : Type} [DecidableEq ν]

/-! ### Abort while the rows of a frame are with the worker pool -/

/-- The look-ahead read of `engineLoop` adds calls on readers only. -/
theorem startReading_ahead_calls (E : Env ν) (readers : List ν) (s : VideoEngine ν) :
    ∀ e ∈ aheadEvents E readers s, isReaderCall e = true := by
  unfold aheadEvents
  cases readers with
  | nil => simp [startReading]
  | cons r rest =>
    simp only [startReading, Bool.false_eq_true, Bool.true_eq_false, if_false]
    by_cases h1 : E.readerFirstFrame r = E.readerLastFrame r
    · simp [h1]
    · rw [if_neg h1]
      split_ifs <;> simp [record, isReaderCall]

/-- The state in which `engineLoop` makes its recursive request: the countdown and the request
index are updated, a viewer has presented the frame, and the look-ahead read has added calls on
readers; every other field is unchanged. -/
theorem engineLoopRequest_eq (E : Env ν) (s : VideoEngine ν) :
    ∃ ahead : List (Event ν),
      engineLoopRequest E s =
        { s with _frameRequestsCount := countdownAfterFrame s,
                 _frameRequestIndex := s._frameRequestIndex + 1,
                 trace := s.trace ++
                   (if s._dag._isViewer = true then [Event.copyPBOtoTexture s.timelineFrame]
                    else []) ++ ahead } ∧
      ∀ e ∈ ahead, isReaderCall e = true := by
  have h3 : ∀ s3 : VideoEngine ν,
      ∃ ahead : List (Event ν),
        (if s3._frameRequestsCount ≠ 0 ∧ s3._paused = false then
          (startReading E (getReaders E s3) false true s3).2 else s3) =
          { s3 with trace := s3.trace ++ ahead } ∧
        ∀ e ∈ ahead, isReaderCall e = true := by
    intro s3
    split_ifs
    · exact ⟨_, startReading_ahead_eq E _ s3, startReading_ahead_calls E _ s3⟩
    · exact ⟨[], by simp, by simp⟩
  obtain ⟨ahead, h, hcalls⟩ := h3
    { s with _frameRequestsCount := countdownAfterFrame s,
             _frameRequestIndex := s._frameRequestIndex + 1,
             trace := s.trace ++
               (if s._dag._isViewer = true then [Event.copyPBOtoTexture s.timelineFrame]
                else []) }
  refine ⟨ahead, ?_, hcalls⟩
  rw [← h]
  unfold engineLoopRequest countdownAfterFrame
  by_cases hv : s._dag._isViewer = true
  · split_ifs <;> simp_all [isOutputAViewer, record]
  · split_ifs <;> simp_all [isOutputAViewer, record]

/-- Abort on a viewer while rows are with the worker pool: the worker signal runs
`finishComputeFrameRequest` (`fillPBO`), its signal runs `engineLoop`, and the request that
`engineLoop` makes finds the abort flag, clears the task queue and stops the engine. -/
theorem deliverSignals_aborted_viewer (E : Env ν) (fuel : Nat) (s : VideoEngine ν)
    (hv : s._dag._isViewer = true) (hw : s.workerWatcherPending = true) :
    deliverSignals E (fuel + 4) (abort s) =
      Except.ok (stopEngine
        { engineLoopRequest E (afterFillPBO (abort s)) with
          _working := true, _sameFrame := false, _waitingTasks := [] }) := by
  obtain ⟨ahead, heq, -⟩ := engineLoopRequest_eq E (afterFillPBO (abort s))
  rw [deliverSignals_dispatched E (fuel + 2) (abort s) hv hw,
    engineLoop_request E (fuel + 1),
    computeFrameRequest_abort_entry E fuel _ false true _ (by rw [heq]; exact hv)
      (by rw [heq]; rfl)]
  simp only []
  apply deliverSignals_idle
  · rw [stopEngine_workerSignal, heq]
    rfl
  · rw [stopEngine_loopSignal, heq]
    rfl

/-- Delivery of the worker signal of a computed frame on a writer: `finishComputeFrameRequest`
encodes the frame and runs `engineLoop`. -/
theorem deliverSignals_written (E : Env ν) (fuel : Nat) (s : VideoEngine ν)
    (hv : s._dag._isViewer = false) (ho : s._dag._output.isSome = true)
    (hw : s.workerWatcherPending = true) :
    deliverSignals E (fuel + 2) s =
      match engineLoop E fuel (afterStartWriting s) with
      | Except.error e => Except.error e
      | Except.ok s' => deliverSignals E (fuel + 1) s' := by
  obtain ⟨o, ho⟩ := Option.isSome_iff_exists.mp ho
  rw [deliverSignals]
  simp only [hw, if_true]
  rw [finishComputeFrameRequest]
  simp [afterStartWriting, record, isOutputAViewer, hv, ho]

/-- Abort on a writer while rows are with the worker pool: the worker signal runs
`finishComputeFrameRequest`, which encodes the frame and runs `engineLoop`, and the request
that `engineLoop` makes finds the abort flag, clears the task queue and stops the engine. -/
theorem deliverSignals_aborted_writer (E : Env ν) (fuel : Nat) (s : VideoEngine ν)
    (hv : s._dag._isViewer = false) (ho : s._dag._output.isSome = true)
    (hw : s.workerWatcherPending = true) (hl : s.engineLoopWatcherPending = false) :
    deliverSignals E (fuel + 4) (abort s) =
      Except.ok (stopEngine
        { engineLoopRequest E (afterStartWriting (abort s)) with
          _working := true, _sameFrame := false,
          writerCurrentFrame :=
            (engineLoopRequest E (afterStartWriting (abort s))).writerCurrentFrame + 1,
          _waitingTasks := [] }) := by
  obtain ⟨ahead, heq, -⟩ := engineLoopRequest_eq E (afterStartWriting (abort s))
  rw [deliverSignals_written E (fuel + 2) (abort s) hv ho hw,
    engineLoop_request E (fuel + 1),
    computeFrameRequest_abort_writer E fuel _ false _ (by rw [heq]; exact hv)
      (by rw [heq]; exact ho) (by rw [heq]; rfl)]
  simp only []
  apply deliverSignals_idle
  · rw [stopEngine_workerSignal, heq]
    rfl
  · rw [stopEngine_loopSignal, heq]
    exact hl

/-- C14 (code bug): abort while the rows of frame 5 are with the worker pool, on the viewer of
`sampleEnv` with one deferred request queued. When the pool completes, the worker signal and
the `fillPBO` signal are delivered as without abort, `finishComputeFrameRequest` and
`engineLoop` not reading the abort flag: the trace gets `fillPBO 5` and `copyPBOtoTexture 5`
(frame 5 is presented) and the look-ahead read of frame 1; only then the next request finds the
abort flag, clears the queue and stops the engine (not working, countdown 0, empty queue). -/
theorem abort_in_flight_still_presents :
    rowsInFlight.workerWatcherPending = true ∧ rowsInFlight._waitingTasks = [seekTask 2] ∧
    (abort rowsInFlight)._aborted = true ∧ presentedFrames rowsInFlight.trace = [] ∧
    ∃ s' : VideoEngine (Fin 2),
      deliverSignals sampleEnv 4 (abort rowsInFlight) = Except.ok s' ∧
      s'._working = false ∧ s'._frameRequestsCount = 0 ∧ s'._waitingTasks = [] ∧
      s'.trace = rowsInFlight.trace ++
        [Event.fillPBO 5, Event.copyPBOtoTexture 5, Event.decodeFrames 0 1 false true true] ∧
      presentedFrames s'.trace = [5] := by
  refine ⟨rfl, rfl, rfl, by decide, _,
    deliverSignals_aborted_viewer sampleEnv 0 rowsInFlight rfl rfl,
    stopEngine_working _, stopEngine_countdown _, ?_, ?_, ?_⟩
  · rw [stopEngine_waitingTasks]
  · rw [stopEngine_trace]
    decide
  · rw [stopEngine_trace]
    decide

/-- Abort while the rows of a frame are with the worker pool (worker signal pending, output
not null), for every engine: `abort()` followed by the delivery of the signals returns with
enough fuel; the frame in flight is still presented (`fillPBO` and `copyPBOtoTexture` on a
viewer, `startWriting` on a writer), `engineLoop` may start its look-ahead read (calls on
readers only), and the request that `engineLoop` makes then finds the abort flag: the task
queue is cleared without any task being called, no further row is dispatched, and the engine is
stopped (not working, countdown 0, flags cleared, no signal pending). -/
theorem abort_in_flight_presents_then_stops (E : Env ν) (s : VideoEngine ν)
    (ho : s._dag._output.isSome = true) (hw : s.workerWatcherPending = true)
    (hl : s.engineLoopWatcherPending = false) (fuel : Nat) (hf : 4 ≤ fuel) :
    ∃ (s' : VideoEngine ν) (ahead : List (Event ν)),
      deliverSignals E fuel (abort s) = Except.ok s' ∧ Stopped s' ∧ s'._waitingTasks = [] ∧
      s'.trace = s.trace ++ presentationCalls s ++ ahead ∧
      ∀ e ∈ ahead, isReaderCall e = true := by
  obtain ⟨k, rfl⟩ : ∃ k, fuel = k + 4 := ⟨fuel - 4, by omega⟩
  by_cases hv : s._dag._isViewer = true
  · obtain ⟨ahead, heq, hcalls⟩ := engineLoopRequest_eq E (afterFillPBO (abort s))
    refine ⟨_, ahead, deliverSignals_aborted_viewer E k s hv hw,
      ⟨stopEngine_working _, stopEngine_countdown _, stopEngine_paused _, stopEngine_aborted _,
        ?_, ?_⟩, ?_, ?_, hcalls⟩
    · rw [stopEngine_workerSignal, heq]
      rfl
    · rw [stopEngine_loopSignal, heq]
      rfl
    · rw [stopEngine_waitingTasks]
    · rw [stopEngine_trace]
      show (engineLoopRequest E (afterFillPBO (abort s))).trace = _
      rw [heq]
      simp [presentationCalls, hv, afterFillPBO, abort, record]
  · have hv' : s._dag._isViewer = false := by simpa using hv
    obtain ⟨ahead, heq, hcalls⟩ := engineLoopRequest_eq E (afterStartWriting (abort s))
    refine ⟨_, ahead, deliverSignals_aborted_writer E k s hv' ho hw hl,
      ⟨stopEngine_working _, stopEngine_countdown _, stopEngine_paused _, stopEngine_aborted _,
        ?_, ?_⟩, ?_, ?_, hcalls⟩
    · rw [stopEngine_workerSignal, heq]
      rfl
    · rw [stopEngine_loopSignal, heq]
      exact hl
    · rw [stopEngine_waitingTasks]
    · rw [stopEngine_trace]
      show (engineLoopRequest E (afterStartWriting (abort s))).trace = _
      rw [heq]
      simp [presentationCalls, hv', afterStartWriting, abort, record]

end abort_in_flight_proofs

section dag_rebuild_proofs
set_option linter.unusedSectionVars false
variable {ν : Type} [DecidableEq ν]

/-! ### `resetAndSort`: null output, determinism, cycles -/

/-- C15: `DAG::resetAndSort(null, isViewer)` returns whatever the bound on the recursion (it
makes no recursive call) and whatever the DAG and the marks held before; `_graph`, `_sorted` and
`_inputs` are then empty, `_output` is null, `_isViewer` is the argument, and the marks are
untouched. The model has no fault value for the DAG functions: returning a state is returning
without fault. -/
theorem resetAndSort_null_output (G : NodeGraph ν) (fuel : Nat) (isViewer : Bool)
    (s0 : GraphState ν) :
    ∃ s, resetAndSort G fuel none isViewer s0 = some s ∧
      s.dag._graph = [] ∧ s.dag._sorted = [] ∧ s.dag._inputs = [] ∧
      s.dag._output = none ∧ s.dag._isViewer = isViewer ∧ s.marked = s0.marked :=
  ⟨_, rfl, rfl, rfl, rfl, rfl, rfl, rfl⟩

theorem foldlM_optionRel {σ α : Type} (R : σ → σ → Prop) (f : σ → α → Option σ) (ps : List α)
    (h : ∀ p ∈ ps, ∀ a b, R a b → Option.Rel R (f a p) (f b p)) :
    ∀ a b, R a b → Option.Rel R (ps.foldlM f a) (ps.foldlM f b) := by
  induction ps with
  | nil => exact fun a b hab => Option.Rel.some hab
  | cons p ps ih =>
    intro a b hab
    rw [List.foldlM_cons, List.foldlM_cons]
    have hp := h p (List.mem_cons_self p ps) a b hab
    revert hp
    generalize f a p = x
    generalize f b p = y
    intro hp
    cases hp with
    | none => exact Option.Rel.none
    | some hr => exact ih (fun q hq => h q (List.mem_cons_of_mem p hq)) _ _ hr

/-- Function `fillGraph` reads and writes the three sequences only (and clears marks): runs from
states with the same sequences end alike. -/
theorem fillGraph_sameLists (G : NodeGraph ν) (fuel : Nat) :
    ∀ (n : ν) (s t : GraphState ν), SameLists s t →
      Option.Rel SameLists (fillGraph G fuel n s) (fillGraph G fuel n t) := by
  induction fuel with
  | zero => exact fun _ _ _ _ => Option.Rel.none
  | succ fuel ih =>
    intro n s t hst
    rw [fillGraph, fillGraph]
    refine foldlM_optionRel SameLists _ _ (fun p _ a b hab => ih p a b hab) _ _ ?_
    obtain ⟨hg, hs, hi⟩ := hst
    by_cases hn : n ∈ s.dag._graph
    · have hn' : n ∈ t.dag._graph := by
        rw [← hg]
        exact hn
      rw [if_pos hn, if_pos hn']
      exact ⟨hg, hs, hi⟩
    · have hn' : n ∉ t.dag._graph := by
        rw [← hg]
        exact hn
      rw [if_neg hn, if_neg hn']
      exact ⟨by simp [hg], hs, by simp [hi]⟩

/-- Function `_depthCycle` on a node of a set `S` closed under parents: runs from states with
the same sequences and the same marks on `S` end alike. -/
theorem depthCycle_sameSort (G : NodeGraph ν) (S : ν → Prop)
    (hS : ∀ x, S x → ∀ p ∈ G.getParents x, S p) (fuel : Nat) :
    ∀ (n : ν) (s t : GraphState ν), S n → SameSort S s t →
      Option.Rel (SameSort S) (_depthCycle G fuel n s) (_depthCycle G fuel n t) := by
  induction fuel with
  | zero => exact fun _ _ _ _ _ => Option.Rel.none
  | succ fuel ih =>
    intro n s t hn hst
    rw [_depthCycle, _depthCycle]
    have hfold := foldlM_optionRel (SameSort S)
      (fun acc p => if acc.marked p then some acc else _depthCycle G fuel p acc)
      (G.getParents n)
      (fun p hp a b hab => by
        have hm : a.marked p = b.marked p := hab.marks p (hS n hn p hp)
        show Option.Rel (SameSort S) (if a.marked p then some a else _depthCycle G fuel p a)
          (if b.marked p then some b else _depthCycle G fuel p b)
        rw [← hm]
        by_cases hmp : a.marked p = true
        · rw [if_pos hmp, if_pos hmp]
          exact Option.Rel.some hab
        · rw [if_neg hmp, if_neg hmp]
          exact ih p a b (hS n hn p hp) hab)
      { s with marked := setMarked s.marked n true }
      { t with marked := setMarked t.marked n true }
      ⟨⟨hst.lists.graph_eq, hst.lists.sorted_eq, hst.lists.inputs_eq⟩, fun x hx => by
        show setMarked s.marked n true x = setMarked t.marked n true x
        simp only [setMarked]
        split
        · rfl
        · exact hst.marks x hx⟩
    revert hfold
    simp only []
    generalize List.foldlM
      (fun acc p => if acc.marked p = true then some acc else _depthCycle G fuel p acc)
      { s with marked := setMarked s.marked n true } (G.getParents n) = x
    generalize List.foldlM
      (fun acc p => if acc.marked p = true then some acc else _depthCycle G fuel p acc)
      { t with marked := setMarked t.marked n true } (G.getParents n) = y
    intro hfold
    cases hfold with
    | none => exact Option.Rel.none
    | some hr =>
      refine Option.Rel.some ⟨⟨hr.lists.graph_eq, ?_, hr.lists.inputs_eq⟩, hr.marks⟩
      show _ ++ [n] = _ ++ [n]
      rw [hr.lists.sorted_eq]

/-- Function `topologicalSort` on a graph whose nodes are in a set `S` closed under parents. -/
theorem topologicalSort_sameSort (G : NodeGraph ν) (S : ν → Prop)
    (hS : ∀ x, S x → ∀ p ∈ G.getParents x, S p) (fuel : Nat) (s t : GraphState ν)
    (hg : ∀ x ∈ s.dag._graph, S x) (hst : SameSort S s t) :
    Option.Rel (SameSort S) (topologicalSort G fuel s) (topologicalSort G fuel t) := by
  unfold topologicalSort
  rw [← hst.lists.graph_eq]
  refine foldlM_optionRel (SameSort S) _ _ (fun p hp a b hab => ?_) s t hst
  have hm : a.marked p = b.marked p := hab.marks p (hg p hp)
  show Option.Rel (SameSort S) (if a.marked p then some a else _depthCycle G fuel p a)
    (if b.marked p then some b else _depthCycle G fuel p b)
  rw [← hm]
  by_cases hmp : a.marked p = true
  · rw [if_pos hmp, if_pos hmp]
    exact Option.Rel.some hab
  · rw [if_neg hmp, if_neg hmp]
    exact depthCycle_sameSort G S hS fuel p a b (hg p hp) hab

theorem optionRel_some {α : Type} {R : α → α → Prop} {a b : α}
    (h : Option.Rel R (some a) (some b)) : R a b := by
  cases h with
  | some hr => exact hr

/-- On an acyclic graph the sequences that `resetAndSort` builds do not depend on the state it
starts from (previous DAG content, marks of the nodes). -/
theorem resetAndSort_deterministic [Finite ν] (G : NodeGraph ν) (hac : G.Acyclic) (out : ν)
    (isViewer : Bool) :
    ∃ f0, ∀ fuel, f0 ≤ fuel → ∀ s0 t0 : GraphState ν, ∃ s t,
      resetAndSort G fuel (some out) isViewer s0 = some s ∧
      resetAndSort G fuel (some out) isViewer t0 = some t ∧ SameLists s t := by
  have hwf := wf_of_acyclic G hac
  obtain ⟨f1, h1⟩ := fillGraph_spec G hwf out
  obtain ⟨f2, h2⟩ := resetAndSort_spec G hac out isViewer
  refine ⟨max f1 f2, fun fuel hfuel s0 t0 => ?_⟩
  obtain ⟨s2, hs2, hfillS, -⟩ := h1 fuel (le_trans (le_max_left _ _) hfuel)
    { s0 with dag := clearGraph { s0.dag with _output := some out, _isViewer := isViewer,
                                              _validate := ValidateFn.validate,
                                              _hasValidated := false } }
  obtain ⟨t2, ht2, hfillT, -⟩ := h1 fuel (le_trans (le_max_left _ _) hfuel)
    { t0 with dag := clearGraph { t0.dag with _output := some out, _isViewer := isViewer,
                                              _validate := ValidateFn.validate,
                                              _hasValidated := false } }
  obtain ⟨s, hs, -⟩ := h2 fuel (le_trans (le_max_right _ _) hfuel) s0
  obtain ⟨t, ht, -⟩ := h2 fuel (le_trans (le_max_right _ _) hfuel) t0
  have hlists : SameLists s2 t2 := by
    have h := fillGraph_sameLists G fuel out _ _
      (⟨rfl, rfl, rfl⟩ : SameLists
        { s0 with dag := clearGraph { s0.dag with _output := some out, _isViewer := isViewer,
                                                  _validate := ValidateFn.validate,
                                                  _hasValidated := false } }
        { t0 with dag := clearGraph { t0.dag with _output := some out, _isViewer := isViewer,
                                                  _validate := ValidateFn.validate,
                                                  _hasValidated := false } })
    rw [hs2, ht2] at h
    exact optionRel_some h
  have hmemS : ∀ x, x ∈ s2.dag._graph ↔ G.Reachable out x := by
    intro x
    rw [hfillS.mem]
    simp [clearGraph]
  have hsort : SameSort (G.Reachable out) s2 t2 := by
    refine ⟨hlists, fun x hx => ?_⟩
    have hxs : x ∈ s2.dag._graph := (hmemS x).mpr hx
    have hxt : x ∈ t2.dag._graph := hlists.graph_eq ▸ hxs
    rw [hfillS.unmarked (by simp [clearGraph]) x hxs,
      hfillT.unmarked (by simp [clearGraph]) x hxt]
  simp only [resetAndSort] at hs ht
  rw [hs2] at hs
  rw [ht2] at ht
  have hs' : topologicalSort G fuel s2 = some s := hs
  have ht' : topologicalSort G fuel t2 = some t := ht
  have h := topologicalSort_sameSort G (G.Reachable out)
    (fun x hx p hp => Relation.ReflTransGen.tail hx hp) fuel s2 t2
    (fun x hx => (hmemS x).mp hx) hsort
  rw [hs', ht'] at h
  exact ⟨s, t, by simp only [resetAndSort]; rw [hs2]; exact hs,
    by simp only [resetAndSort]; rw [ht2]; exact ht, (optionRel_some h).lists⟩

/-- C16: on an acyclic node graph, `DAG::resetAndSort(output, isViewer)` called twice in a row
(with enough fuel, from any previous DAG content and any marks) returns both times, and the
second call leaves the same `_graph`, `_sorted` and `_inputs` sequences as the first; the
sequences of the first call are the ones that a call from any other previous content and marks
builds. -/
theorem resetAndSort_idempotent [Finite ν] (G : NodeGraph ν) (hac : G.Acyclic) (out : ν)
    (isViewer : Bool) :
    ∃ f0, ∀ fuel, f0 ≤ fuel → ∀ s0 : GraphState ν, ∃ s1 s2,
      resetAndSort G fuel (some out) isViewer s0 = some s1 ∧
      resetAndSort G fuel (some out) isViewer s1 = some s2 ∧
      s2.dag._graph = s1.dag._graph ∧ s2.dag._sorted = s1.dag._sorted ∧
      s2.dag._inputs = s1.dag._inputs ∧
      ∀ t0 : GraphState ν, ∃ t1,
        resetAndSort G fuel (some out) isViewer t0 = some t1 ∧
        t1.dag._graph = s1.dag._graph ∧ t1.dag._sorted = s1.dag._sorted ∧
        t1.dag._inputs = s1.dag._inputs := by
  obtain ⟨f0, h⟩ := resetAndSort_deterministic G hac out isViewer
  refine ⟨f0, fun fuel hfuel s0 => ?_⟩
  obtain ⟨s1, s2, h1, h2, h12⟩ := h fuel hfuel s0 s0
  obtain ⟨s1', s3, h1', h3, h13⟩ := h fuel hfuel s0 s1
  have e : s1' = s1 := Option.some.inj (h1'.symm.trans h1)
  rw [e] at h13
  refine ⟨s1, s3, h1, h3, h13.graph_eq.symm, h13.sorted_eq.symm, h13.inputs_eq.symm, ?_⟩
  intro t0
  obtain ⟨s1'', t1, h1'', ht, hst⟩ := h fuel hfuel s0 t0
  have e' : s1'' = s1 := Option.some.inj (h1''.symm.trans h1)
  rw [e'] at hst
  exact ⟨t1, ht, hst.graph_eq.symm, hst.sorted_eq.symm, hst.inputs_eq.symm⟩

/-- Witness of C16 on the diamond graph. -/
theorem resetAndSort_idempotent_diamond :
    diamond.Acyclic ∧
    ∃ f0, ∀ fuel, f0 ≤ fuel → ∀ s0 : GraphState (Fin 4), ∃ s1 s2,
      resetAndSort diamond fuel (some 3) true s0 = some s1 ∧
      resetAndSort diamond fuel (some 3) true s1 = some s2 ∧
      s2.dag._graph = s1.dag._graph ∧ s2.dag._sorted = s1.dag._sorted ∧
      s2.dag._inputs = s1.dag._inputs ∧
      ∀ t0 : GraphState (Fin 4), ∃ t1,
        resetAndSort diamond fuel (some 3) true t0 = some t1 ∧
        t1.dag._graph = s1.dag._graph ∧ t1.dag._sorted = s1.dag._sorted ∧
        t1.dag._inputs = s1.dag._inputs :=
  ⟨diamond_acyclic, resetAndSort_idempotent diamond diamond_acyclic 3 true⟩

end dag_rebuild_proofs

section dag_cycle_proofs
set_option linter.unusedSectionVars false
variable {ν : Type} [DecidableEq ν]

theorem foldlM_none_of_mem {σ α : Type} (f : σ → α → Option σ) (p : α)
    (hf : ∀ a, f a p = none) (ps : List α) (hp : p ∈ ps) (a : σ) :
    ps.foldlM f a = none := by
  induction ps generalizing a with
  | nil => exact absurd hp (List.not_mem_nil p)
  | cons q qs ih =>
    rw [List.foldlM_cons]
    rcases List.mem_cons.mp hp with e | hq
    · rw [← e, hf a]
      rfl
    · cases f a q with
      | none => rfl
      | some b => exact ih hq b

/-- A node from which a cycle is reachable has a parent from which a cycle is reachable. -/
theorem cycle_reachable_parent (G : NodeGraph ν) (n : ν)
    (h : ∃ c, G.Reachable n c ∧ Relation.TransGen G.Edge c c) :
    ∃ p ∈ G.getParents n, ∃ c, G.Reachable p c ∧ Relation.TransGen G.Edge c c := by
  obtain ⟨c, hnc, hcc⟩ := h
  rcases Relation.ReflTransGen.cases_head hnc with e | ⟨p, hp, hpc⟩
  · obtain ⟨p, hp, hpc⟩ := Relation.TransGen.head'_iff.mp hcc
    exact ⟨p, e ▸ hp, c, hpc, hcc⟩
  · exact ⟨p, hp, c, hpc, hcc⟩

/-- Function `fillGraph` on a node from which a cycle of parent edges is reachable: the
recursion over the parents is made whether or not the node is recorded, so no bound on its depth
is enough. -/
theorem fillGraph_cycle (G : NodeGraph ν) (fuel : Nat) :
    ∀ (n : ν), (∃ c, G.Reachable n c ∧ Relation.TransGen G.Edge c c) →
      ∀ s : GraphState ν, fillGraph G fuel n s = none := by
  induction fuel with
  | zero => exact fun _ _ _ => rfl
  | succ fuel ih =>
    intro n h s
    obtain ⟨p, hp, hc⟩ := cycle_reachable_parent G n h
    rw [fillGraph]
    exact foldlM_none_of_mem _ p (fun a => ih p hc a) _ hp _

theorem resetAndSort_cycle (G : NodeGraph ν) (out : ν)
    (h : ∃ c, G.Reachable out c ∧ Relation.TransGen G.Edge c c) (fuel : Nat) (isViewer : Bool)
    (s : GraphState ν) : resetAndSort G fuel (some out) isViewer s = none := by
  simp only [resetAndSort]
  rw [fillGraph_cycle G fuel out h]

theorem twoCycle_edge (n p : Fin 3) (h : p ∈ twoCycle.getParents n) : twoCycle.Edge n p := h

theorem twoCycle_cycle : Relation.TransGen twoCycle.Edge 0 0 :=
  Relation.TransGen.tail (Relation.TransGen.single (twoCycle_edge 0 1 (by decide)))
    (twoCycle_edge 1 0 (by decide))

/-- C17 (code bug): a graph with a cycle. In `twoCycle` the nodes 0 and 1 are each other's
parent and node 2 has the parent 0. `resetAndSort` with the output 2, or 0, does not return
whatever the bound on the depth of the recursion: `fillGraph` calls itself on the parents of a
node also when the node is already in `_graph`, and it does not read the marks. The marks stop
`_depthCycle` only: `topologicalSort` on the three nodes, unmarked, returns with each node
sorted once. -/
theorem resetAndSort_cycle_never_returns :
    twoCycle.getParents 0 = [1] ∧ twoCycle.getParents 1 = [0] ∧ twoCycle.getParents 2 = [0] ∧
    (∀ (fuel : Nat) (isViewer : Bool) (s : GraphState (Fin 3)),
      resetAndSort twoCycle fuel (some 2) isViewer s = none ∧
      resetAndSort twoCycle fuel (some 0) isViewer s = none) ∧
    (topologicalSort twoCycle 3
        { dag := { _output := some 2, _isViewer := true, _validate := ValidateFn.validate,
                   _hasValidated := false, _graph := [2, 0, 1], _sorted := [], _inputs := [] },
          marked := fun _ => false }).map (fun s => s.dag._sorted) = some [1, 0, 2] := by
  refine ⟨rfl, rfl, rfl, fun fuel isViewer s => ⟨?_, ?_⟩, by decide⟩
  · exact resetAndSort_cycle twoCycle 2
      ⟨0, Relation.ReflTransGen.single (twoCycle_edge 2 0 (by decide)), twoCycle_cycle⟩
      fuel isViewer s
  · exact resetAndSort_cycle twoCycle 0 ⟨0, Relation.ReflTransGen.refl, twoCycle_cycle⟩
      fuel isViewer s

end dag_cycle_proofs

section tree_version_proofs
set_option linter.unusedSectionVars false
variable {ν : Type} [DecidableEq ν]

/-! ### The tree version: `computeTreeHash` and `changeTreeVersion` -/

theorem computeTreeHash_succ (E : Env ν) (fuel : Nat) (acc : List (String × Nat)) (n : ν) :
    computeTreeHash E (fuel + 1) acc n =
      if nameComputed E acc n = true then some acc
      else (E.nodes.getParents n).foldlM (fun a p => computeTreeHash E fuel a p)
        (acc ++ [hashEntry E n]) := by
  rw [computeTreeHash]
  rfl

theorem nameComputed_append (E : Env ν) (acc L : List (String × Nat)) (x : ν) :
    nameComputed E (acc ++ L) x = (nameComputed E acc x || nameComputed E L x) := by
  simp [nameComputed]

theorem nameComputed_self (E : Env ν) (n : ν) : nameComputed E [hashEntry E n] n = true := by
  simp [nameComputed, hashEntry]

/-- The nodes whose name `alreadyComputed` does not hold: the measure of `computeTreeHash`. -/
theorem unseen_card_append [Fintype ν] (E : Env ν) (acc L : List (String × Nat)) :
    (Finset.univ.filter (fun x : ν => nameComputed E (acc ++ L) x = false)).card ≤
      (Finset.univ.filter (fun x : ν => nameComputed E acc x = false)).card := by
  apply Finset.card_le_card
  intro x
  simp only [Finset.mem_filter, Finset.mem_univ, true_and, nameComputed_append]
  intro h
  cases hx : nameComputed E acc x
  · rfl
  · rw [hx] at h
    simp at h

theorem unseen_card_record [Fintype ν] (E : Env ν) (acc : List (String × Nat)) (n : ν)
    (hn : nameComputed E acc n = false) :
    (Finset.univ.filter (fun x : ν => nameComputed E (acc ++ [hashEntry E n]) x = false)).card <
      (Finset.univ.filter (fun x : ν => nameComputed E acc x = false)).card := by
  apply Finset.card_lt_card
  rw [Finset.ssubset_iff_of_subset]
  · refine ⟨n, by simp [hn], ?_⟩
    simp [nameComputed_append, nameComputed_self]
  · intro x
    simp only [Finset.mem_filter, Finset.mem_univ, true_and, nameComputed_append]
    intro h
    cases hx : nameComputed E acc x
    · rfl
    · rw [hx] at h
      simp at h

/-- The loop of `computeTreeHash` over parents returns when each call returns. -/
theorem computeTreeHash_fold_returns [Fintype ν] (E : Env ν) (fuel : Nat)
    (ih : ∀ (acc : List (String × Nat)) (n : ν),
      (Finset.univ.filter (fun x : ν => nameComputed E acc x = false)).card < fuel →
      ∃ L, computeTreeHash E fuel acc n = some (acc ++ L))
    (ps : List ν) : ∀ (acc : List (String × Nat)),
      (Finset.univ.filter (fun x : ν => nameComputed E acc x = false)).card < fuel →
      ∃ L, ps.foldlM (fun a p => computeTreeHash E fuel a p) acc = some (acc ++ L) := by
  induction ps with
  | nil => exact fun acc _ => ⟨[], by simp⟩
  | cons p ps ihps =>
    intro acc hacc
    obtain ⟨L1, h1⟩ := ih acc p hacc
    obtain ⟨L2, h2⟩ := ihps (acc ++ L1)
      (lt_of_le_of_lt (unseen_card_append E acc L1) hacc)
    refine ⟨L1 ++ L2, ?_⟩
    rw [List.foldlM_cons, h1]
    show List.foldlM _ (acc ++ L1) ps = _
    rw [h2, List.append_assoc]

/-- Function `computeTreeHash` returns on every graph over finitely many nodes, cycles and
shared names included: each call that does not return at once records a name that was not
recorded. -/
theorem computeTreeHash_returns [Fintype ν] (E : Env ν) (fuel : Nat) :
    ∀ (acc : List (String × Nat)) (n : ν),
      (Finset.univ.filter (fun x : ν => nameComputed E acc x = false)).card < fuel →
      ∃ L, computeTreeHash E fuel acc n = some (acc ++ L) := by
  induction fuel with
  | zero => exact fun _ _ h => absurd h (Nat.not_lt_zero _)
  | succ fuel ih =>
    intro acc n hacc
    rw [computeTreeHash_succ]
    by_cases hn : nameComputed E acc n = true
    · rw [if_pos hn]
      exact ⟨[], by simp⟩
    · rw [if_neg hn]
      have hn' : nameComputed E acc n = false := by simpa using hn
      obtain ⟨L, hL⟩ := computeTreeHash_fold_returns E fuel ih (E.nodes.getParents n)
        (acc ++ [hashEntry E n])
        (lt_of_lt_of_le (unseen_card_record E acc n hn') (Nat.lt_succ_iff.mp hacc))
      exact ⟨[hashEntry E n] ++ L, by rw [hL, List.append_assoc]⟩

theorem computeTreeHash_output_returns [Finite ν] (E : Env ν) (fuel : Nat)
    (hfuel : Nat.card ν < fuel) (out : ν) :
    ∃ L, computeTreeHash E fuel [] out = some L := by
  cases nonempty_fintype ν
  rw [Nat.card_eq_fintype_card] at hfuel
  obtain ⟨L, hL⟩ := computeTreeHash_returns E fuel [] out
    (lt_of_le_of_lt (Finset.card_filter_le _ _) hfuel)
  exact ⟨L, by simpa using hL⟩

/-- The value of `changeTreeVersion`: the tree version is rebuilt from the output of the DAG and
the node heap, nothing else is read or written. -/
theorem changeTreeVersion_eq (E : Env ν) (fuel : Nat) (s : VideoEngine ν) :
    changeTreeVersion E fuel s =
      match s._dag._output with
      | none => some { s with _treeVersion := resetHash }
      | some out =>
        (computeTreeHash E fuel [] out).map (fun nodeHashs =>
          { s with _treeVersion :=
              { nodeHashes := nodeHashs.map (fun e => e.2),
                hashValue := E.computeHash (nodeHashs.map (fun e => e.2)) } }) := by
  unfold changeTreeVersion
  cases s._dag._output with
  | none => rfl
  | some out =>
    show (match computeTreeHash E fuel [] out with
      | none => none
      | some nodeHashs => some _) = (computeTreeHash E fuel [] out).map _
    generalize computeTreeHash E fuel [] out = r
    cases r <;> rfl

/-- C18: `changeTreeVersion` on a fixed node heap (parents, names, hash values) and a fixed DAG
output, over finitely many nodes. With more fuel than there are nodes two successive calls both
return; the node
hashes appended to the accumulator after its reset and the hash value computed from them are
the same after the second call as after the first, and they are the ones any engine with the
same DAG output gets, whatever its tree version held before. With a null output the tree
version is left in its reset state (no node hash, value 0). No other field of the engine
changes. -/
theorem changeTreeVersion_deterministic [Finite ν] (E : Env ν) (fuel : Nat)
    (hfuel : Nat.card ν < fuel) (s : VideoEngine ν) :
    ∃ s1 s2,
      changeTreeVersion E fuel s = some s1 ∧ changeTreeVersion E fuel s1 = some s2 ∧
      s2._treeVersion = s1._treeVersion ∧
      s1 = { s with _treeVersion := s1._treeVersion } ∧
      (∀ t : VideoEngine ν, t._dag._output = s._dag._output →
        ∃ t1, changeTreeVersion E fuel t = some t1 ∧ t1._treeVersion = s1._treeVersion) ∧
      (s._dag._output = none → s1._treeVersion = resetHash) ∧
      (∀ out, s._dag._output = some out → ∃ nodeHashs,
        computeTreeHash E fuel [] out = some nodeHashs ∧
        s1._treeVersion.nodeHashes = nodeHashs.map (fun e => e.2) ∧
        s1._treeVersion.hashValue = E.computeHash (nodeHashs.map (fun e => e.2))) := by
  cases ho : s._dag._output with
  | none =>
    refine ⟨{ s with _treeVersion := resetHash }, { s with _treeVersion := resetHash },
      ?_, ?_, rfl, rfl, ?_, fun _ => rfl, fun out h => by simp at h⟩
    · rw [changeTreeVersion_eq, ho]
    · rw [changeTreeVersion_eq]
      simp only [ho]
    · intro t ht
      exact ⟨{ t with _treeVersion := resetHash }, by rw [changeTreeVersion_eq, ht], rfl⟩
  | some out =>
    obtain ⟨L, hL⟩ := computeTreeHash_output_returns E fuel hfuel out
    refine ⟨{ s with _treeVersion :=
                { nodeHashes := L.map (fun e => e.2),
                  hashValue := E.computeHash (L.map (fun e => e.2)) } },
      { s with _treeVersion :=
                { nodeHashes := L.map (fun e => e.2),
                  hashValue := E.computeHash (L.map (fun e => e.2)) } },
      ?_, ?_, rfl, rfl, ?_, fun h => by simp at h, ?_⟩
    · rw [changeTreeVersion_eq, ho]
      simp only [hL, Option.map_some']
    · rw [changeTreeVersion_eq]
      simp only [ho, hL, Option.map_some']
    · intro t ht
      exact ⟨{ t with _treeVersion :=
                { nodeHashes := L.map (fun e => e.2),
                  hashValue := E.computeHash (L.map (fun e => e.2)) } },
        by rw [changeTreeVersion_eq, ht]; simp only [hL, Option.map_some'], rfl⟩
    · intro out' h
      have e : out' = out := (Option.some.inj h).symm
      rw [e]
      exact ⟨L, hL, rfl, rfl⟩

theorem computeTreeHash_sample :
    computeTreeHash sampleEnv 3 [] 1 = some [("Output", 1), ("Reader", 0)] := by
  decide

/-- Witness of C18: the engine of `sampleEnv` (output 1 with hash value 1, reader 0 with hash
value 0), whose tree version is in its initial state: the node hashes are 1, 0 and the hash
value (their sum in `sampleEnv`) is 1, after one call and after two. -/
theorem changeTreeVersion_deterministic_sample :
    Nat.card (Fin 2) < 3 ∧
    ∃ s1 s2,
      changeTreeVersion sampleEnv 3 (idleEngine true) = some s1 ∧
      changeTreeVersion sampleEnv 3 s1 = some s2 ∧
      s2._treeVersion = s1._treeVersion ∧
      s1._treeVersion.nodeHashes = [1, 0] ∧ s1._treeVersion.hashValue = 1 := by
  have hf : Nat.card (Fin 2) < 3 := by simp
  obtain ⟨s1, s2, h1, h2, h3, _, _, _, h7⟩ :=
    changeTreeVersion_deterministic sampleEnv 3 hf (idleEngine true)
  obtain ⟨L, hL, hn, hv⟩ := h7 1 rfl
  rw [computeTreeHash_sample] at hL
  have e : L = [("Output", 1), ("Reader", 0)] := (Option.some.inj hL).symm
  rw [e] at hn hv
  exact ⟨hf, s1, s2, h1, h2, h3, hn, hv⟩

end tree_version_proofs

section tree_hash_proofs
set_option linter.unusedSectionVars false
variable {ν : Type} [DecidableEq ν]

/-- With distinct names on the nodes reachable from the output, the name test of
`computeTreeHash` is the test whether the node itself is recorded. -/
theorem nameComputed_iff (E : Env ν) (out : ν)
    (hnames : ∀ a b, E.nodes.Reachable out a → E.nodes.Reachable out b →
      E.getName a = E.getName b → a = b)
    (seen : List ν) (hseen : ∀ x ∈ seen, E.nodes.Reachable out x) (n : ν)
    (hn : E.nodes.Reachable out n) :
    nameComputed E (seen.map (hashEntry E)) n = true ↔ n ∈ seen := by
  simp only [nameComputed, List.any_eq_true, List.mem_map, beq_iff_eq]
  constructor
  · rintro ⟨e, ⟨x, hx, rfl⟩, hxn⟩
    rw [← hnames x n (hseen x hx) hn hxn]
    exact hx
  · intro h
    exact ⟨hashEntry E n, ⟨n, h, rfl⟩, rfl⟩

theorem foldlM_cons_some {σ α : Type} (f : σ → α → Option σ) (p : α) (ps : List α) (a r : σ)
    (h : (p :: ps).foldlM f a = some r) : ∃ b, f a p = some b ∧ ps.foldlM f b = some r := by
  rw [List.foldlM_cons] at h
  cases hb : f a p with
  | none =>
    rw [hb] at h
    exact absurd h (by simp)
  | some b =>
    rw [hb] at h
    exact ⟨b, rfl, h⟩

/-- The loop of `computeTreeHash` over the parents `ps`, when each call meets `HashPost`. -/
theorem computeTreeHash_fold_post (E : Env ν) (out : ν) (fuel : Nat)
    (ih : ∀ (seen : List ν) (n : ν) (acc' : List (String × Nat)),
      (∀ x ∈ seen, E.nodes.Reachable out x) → E.nodes.Reachable out n →
      computeTreeHash E fuel (seen.map (hashEntry E)) n = some acc' →
      ∃ new, acc' = (seen ++ new).map (hashEntry E) ∧ HashPost E.nodes seen n new)
    (ps : List ν) :
    ∀ (seen : List ν) (acc' : List (String × Nat)),
      (∀ x ∈ seen, E.nodes.Reachable out x) → (∀ p ∈ ps, E.nodes.Reachable out p) →
      ps.foldlM (fun a p => computeTreeHash E fuel a p) (seen.map (hashEntry E)) = some acc' →
      ∃ new, acc' = (seen ++ new).map (hashEntry E) ∧ HashFoldPost E.nodes seen ps new := by
  induction ps with
  | nil =>
    intro seen acc' _ _ h
    refine ⟨[], ?_, ⟨List.nodup_nil, ?_, ?_, ?_, ?_, ?_⟩⟩
    · rw [List.foldlM_nil] at h
      rw [List.append_nil]
      exact (Option.some.inj h).symm
    all_goals simp
  | cons p qs ihqs =>
    intro seen acc' hseen hps h
    obtain ⟨a1, h1, h2⟩ := foldlM_cons_some _ p qs _ acc' h
    obtain ⟨new1, e1, post1⟩ := ih seen p a1 hseen (hps p (List.mem_cons_self p qs)) h1
    have hseen1 : ∀ x ∈ seen ++ new1, E.nodes.Reachable out x := by
      intro x hx
      rcases List.mem_append.mp hx with hx | hx
      · exact hseen x hx
      · exact Relation.ReflTransGen.trans (hps p (List.mem_cons_self p qs)) (post1.reach x hx)
    rw [e1] at h2
    obtain ⟨new2, e2, post2⟩ := ihqs (seen ++ new1) acc' hseen1
      (fun q hq => hps q (List.mem_cons_of_mem p hq)) h2
    refine ⟨new1 ++ new2, by rw [e2, List.append_assoc], ⟨?_, ?_, ?_, ?_, ?_, ?_⟩⟩
    · refine List.Nodup.append post1.nodup post2.nodup ?_
      intro x hx1 hx2
      exact post2.fresh x hx2 (List.mem_append_right seen hx1)
    · intro x hx
      rcases List.mem_append.mp hx with hx | hx
      · exact post1.fresh x hx
      · exact fun hs => post2.fresh x hx (List.mem_append_left new1 hs)
    · intro x hx
      rcases List.mem_append.mp hx with hx | hx
      · exact ⟨p, List.mem_cons_self p qs, post1.reach x hx⟩
      · obtain ⟨q, hq, hqx⟩ := post2.reach x hx
        exact ⟨q, List.mem_cons_of_mem p hq, hqx⟩
    · intro q hq
      rcases List.mem_cons.mp hq with e | hq
      · rw [e]
        rcases post1.visited with hv | hv
        · exact Or.inl hv
        · exact Or.inr (List.mem_append_left new2 hv)
      · rcases post2.visited q hq with hv | hv
        · rcases List.mem_append.mp hv with hv | hv
          · exact Or.inl hv
          · exact Or.inr (List.mem_append_left new2 hv)
        · exact Or.inr (List.mem_append_right new1 hv)
    · intro x hx q hq
      rcases List.mem_append.mp hx with hx | hx
      · rcases post1.closed x hx q hq with hv | hv
        · exact Or.inl hv
        · exact Or.inr (List.mem_append_left new2 hv)
      · rcases post2.closed x hx q hq with hv | hv
        · rcases List.mem_append.mp hv with hv | hv
          · exact Or.inl hv
          · exact Or.inr (List.mem_append_left new2 hv)
        · exact Or.inr (List.mem_append_right new1 hv)
    · intro x hx
      rcases List.mem_append.mp hx with hx | hx
      · by_cases hxp : x = p
        · exact Or.inl (hxp ▸ List.mem_cons_self p qs)
        · obtain ⟨l1, m, l2, l3, e, hm, hl2⟩ := post1.preorder x hx hxp
          exact Or.inr ⟨l1, m, l2, l3 ++ new2, by rw [e]; simp, hm, hl2⟩
      · rcases post2.preorder x hx with hq | ⟨l1, m, l2, l3, e, hm, hl2⟩
        · exact Or.inl (List.mem_cons_of_mem p hq)
        · exact Or.inr ⟨new1 ++ l1, m, l2, l3, by rw [e]; simp, hm, hl2⟩

/-- What a returning call of `computeTreeHash` has appended, with distinct names on the nodes
reachable from the output `out` and a list `alreadyComputed` that holds the entries of the nodes
`seen`. -/
theorem computeTreeHash_post (E : Env ν) (out : ν)
    (hnames : ∀ a b, E.nodes.Reachable out a → E.nodes.Reachable out b →
      E.getName a = E.getName b → a = b) (fuel : Nat) :
    ∀ (seen : List ν) (n : ν) (acc' : List (String × Nat)),
      (∀ x ∈ seen, E.nodes.Reachable out x) → E.nodes.Reachable out n →
      computeTreeHash E fuel (seen.map (hashEntry E)) n = some acc' →
      ∃ new, acc' = (seen ++ new).map (hashEntry E) ∧ HashPost E.nodes seen n new := by
  induction fuel with
  | zero =>
    intro seen n acc' _ _ h
    exact absurd h (by simp [computeTreeHash])
  | succ fuel ih =>
    intro seen n acc' hseen hn h
    rw [computeTreeHash_succ] at h
    by_cases hc : nameComputed E (seen.map (hashEntry E)) n = true
    · rw [if_pos hc] at h
      have hmem : n ∈ seen := (nameComputed_iff E out hnames seen hseen n hn).mp hc
      refine ⟨[], ?_, ⟨List.nodup_nil, ?_, ?_, Or.inl hmem, ?_, fun h' => absurd hmem h', ?_⟩⟩
      · rw [List.append_nil]
        exact (Option.some.inj h).symm
      all_goals simp
    · rw [if_neg hc] at h
      have hmem : n ∉ seen := fun h' =>
        hc ((nameComputed_iff E out hnames seen hseen n hn).mpr h')
      have hseen1 : ∀ x ∈ seen ++ [n], E.nodes.Reachable out x := by
        intro x hx
        rcases List.mem_append.mp hx with hx | hx
        · exact hseen x hx
        · rw [List.mem_singleton.mp hx]
          exact hn
      have e0 : seen.map (hashEntry E) ++ [hashEntry E n] = (seen ++ [n]).map (hashEntry E) := by
        simp
      rw [e0] at h
      obtain ⟨new, e, post⟩ := computeTreeHash_fold_post E out fuel ih (E.nodes.getParents n)
        (seen ++ [n]) acc' hseen1 (fun p hp => Relation.ReflTransGen.tail hn hp) h
      have hfresh : ∀ x ∈ new, x ≠ n ∧ x ∉ seen := by
        intro x hx
        have := post.fresh x hx
        simp only [List.mem_append, List.mem_singleton, not_or] at this
        exact ⟨this.2, this.1⟩
      have hreach : ∀ x ∈ new, E.nodes.Reachable n x := by
        intro x hx
        obtain ⟨p, hp, hpx⟩ := post.reach x hx
        exact Relation.ReflTransGen.head hp hpx
      refine ⟨n :: new, by rw [e]; simp, ⟨?_, ?_, ?_, ?_, ?_, ?_, ?_⟩⟩
      · exact List.nodup_cons.mpr ⟨fun hx => (hfresh n hx).1 rfl, post.nodup⟩
      · intro x hx
        rcases List.mem_cons.mp hx with e | hx
        · rw [e]
          exact hmem
        · exact (hfresh x hx).2
      · intro x hx
        rcases List.mem_cons.mp hx with e | hx
        · rw [e]
          exact Relation.ReflTransGen.refl
        · exact hreach x hx
      · exact Or.inr (List.mem_cons_self n new)
      · intro x hx p hp
        have key : p ∈ seen ++ [n] ∨ p ∈ new := by
          rcases List.mem_cons.mp hx with e | hx
          · rw [e] at hp
            exact post.visited p hp
          · exact post.closed x hx p hp
        rcases key with hv | hv
        · rcases List.mem_append.mp hv with hv | hv
          · exact Or.inl hv
          · rw [List.mem_singleton.mp hv]
            exact Or.inr (List.mem_cons_self n new)
        · exact Or.inr (List.mem_cons_of_mem n hv)
      · exact fun _ => ⟨new, rfl⟩
      · intro x hx hxn
        have hx' : x ∈ new := by
          rcases List.mem_cons.mp hx with e | hx
          · exact absurd e hxn
          · exact hx
        rcases post.preorder x hx' with hp | ⟨l1, m, l2, l3, e, hm, hl2⟩
        · obtain ⟨l2, l3, e⟩ := List.append_of_mem hx'
          refine ⟨[], n, l2, l3, by rw [e]; rfl, hp, fun y hy => hreach y ?_⟩
          rw [e]
          exact List.mem_append_left _ hy
        · exact ⟨n :: l1, m, l2, l3, by rw [e]; rfl, hm, hl2⟩

/-- C19: `computeTreeHash` started at the output with an empty list, on a graph over finitely
many nodes (cycles allowed) whose nodes reachable from the output have pairwise distinct names.
With more fuel than there are nodes the call returns, and the list it produces is the list of
the (name, hash) entries of a sequence `order` of nodes such that: `order` holds each node
reachable from the output over parent edges once and nothing else; no name occurs twice; the
output comes first; and every other node `x` comes after a node `m` that has `x` among its
parents, all the nodes between `m` and `x` being reachable from `m` (`x` is recorded during the
call on `m`, after the nodes recorded through the parents of `m` that come before it):
depth-first pre-order. -/
theorem computeTreeHash_preorder [Finite ν] (E : Env ν) (out : ν)
    (hnames : ∀ a b, E.nodes.Reachable out a → E.nodes.Reachable out b →
      E.getName a = E.getName b → a = b) (fuel : Nat) (hfuel : Nat.card ν < fuel) :
    ∃ order : List ν,
      computeTreeHash E fuel [] out =
        some (order.map (fun n => (E.getName n, E.getHashValue n))) ∧
      order.Nodup ∧ (∀ n, n ∈ order ↔ E.nodes.Reachable out n) ∧
      (order.map E.getName).Nodup ∧ order.head? = some out ∧
      ∀ x ∈ order, x ≠ out → ∃ l1 m l2 l3,
        order = l1 ++ m :: (l2 ++ x :: l3) ∧ x ∈ E.nodes.getParents m ∧
        ∀ y ∈ l2, E.nodes.Reachable m y := by
  obtain ⟨L, hL⟩ := computeTreeHash_output_returns E fuel hfuel out
  obtain ⟨order, e, post⟩ := computeTreeHash_post E out hnames fuel [] out L
    (fun x hx => absurd hx (List.not_mem_nil x)) Relation.ReflTransGen.refl hL
  have hout : out ∈ order := by
    rcases post.visited with h | h
    · exact absurd h (List.not_mem_nil out)
    · exact h
  refine ⟨order, ?_, post.nodup, ?_, ?_, ?_, post.preorder⟩
  · rw [hL, e]
    rfl
  · intro n
    constructor
    · exact post.reach n
    · intro hn
      induction hn with
      | refl => exact hout
      | tail _ hedge ih =>
        rcases post.closed _ ih _ hedge with h | h
        · exact absurd h (List.not_mem_nil _)
        · exact h
  · exact List.Nodup.map_on
      (fun a ha b hb hab => hnames a b (post.reach a ha) (post.reach b hb) hab) post.nodup
  · obtain ⟨rest, hrest⟩ := post.first (List.not_mem_nil out)
    rw [hrest]
    rfl

/-- Witness of C19 on the diamond graph with four distinct names (the node 0 is shared by the
nodes 1 and 2). -/
theorem computeTreeHash_preorder_diamond :
    (∀ a b, diamondEnv.nodes.Reachable 3 a → diamondEnv.nodes.Reachable 3 b →
      diamondEnv.getName a = diamondEnv.getName b → a = b) ∧
    Nat.card (Fin 4) < 5 ∧
    ∃ order : List (Fin 4),
      computeTreeHash diamondEnv 5 [] 3 =
        some (order.map (fun n => (diamondEnv.getName n, diamondEnv.getHashValue n))) ∧
      order.Nodup ∧ (∀ n, n ∈ order ↔ diamondEnv.nodes.Reachable 3 n) ∧
      (order.map diamondEnv.getName).Nodup ∧ order.head? = some 3 ∧
      ∀ x ∈ order, x ≠ 3 → ∃ l1 m l2 l3,
        order = l1 ++ m :: (l2 ++ x :: l3) ∧ x ∈ diamondEnv.nodes.getParents m ∧
        ∀ y ∈ l2, diamondEnv.nodes.Reachable m y :=
  have key : ∀ a b : Fin 4, diamondEnv.getName a = diamondEnv.getName b → a = b := by decide
  have hn : ∀ a b : Fin 4, diamondEnv.nodes.Reachable 3 a → diamondEnv.nodes.Reachable 3 b →
      diamondEnv.getName a = diamondEnv.getName b → a = b :=
    fun a b _ _ h => key a b h
  have hf : Nat.card (Fin 4) < 5 := by simp
  ⟨hn, hf, computeTreeHash_preorder diamondEnv 3 hn 5 hf⟩

/-- The run of `computeTreeHash` on the diamond graph: the shared node 0 is recorded once,
through the node 1. -/
theorem computeTreeHash_diamond_run :
    computeTreeHash diamondEnv 5 [] 3 =
      some [("Viewer", 13), ("Grade", 11), ("Reader", 10), ("Blur", 12)] := by
  decide

end tree_hash_proofs

section entry_point_proofs
set_option linter.unusedSectionVars false
variable {ν : Type} [DecidableEq ν]

/-! ### Bookkeeping of `engineLoop` and the entry points `startEngine`, `_startEngine` -/

theorem countdownAfterFrame_eq (s : VideoEngine ν) :
    countdownAfterFrame s =
      if s._frameRequestsCount = -1 then -1 else s._frameRequestsCount - 1 := by
  unfold countdownAfterFrame
  by_cases h1 : s._frameRequestsCount = -1
  · simp [h1]
  · by_cases h2 : s._frameRequestIndex = 0 ∧ s._frameRequestsCount = 1 ∧ s._sameFrame = false
    · rw [if_pos h2, if_neg h1, h2.2.1]
      rfl
    · rw [if_neg h2, if_pos h1, if_neg h1]

/-- C22: every call of `engineLoop` (with fuel for the call it makes) makes its recursive
request `computeFrameRequest(false, _forward, false, true)` in a state whose frame request
index is the index at the call plus 1 and whose countdown is -1 if the countdown at the call
was -1 and the countdown at the call minus 1 otherwise, whatever the other fields hold
(`_sameFrame`, index 0 with countdown 1, viewer or writer, paused or not). -/
theorem engineLoop_bookkeeping (E : Env ν) (fuel : Nat) (s : VideoEngine ν) :
    engineLoop E (fuel + 1) s =
      computeFrameRequest E fuel false (engineLoopRequest E s)._forward false true
        (engineLoopRequest E s) ∧
    (engineLoopRequest E s)._frameRequestIndex = s._frameRequestIndex + 1 ∧
    (engineLoopRequest E s)._frameRequestsCount =
      (if s._frameRequestsCount = -1 then -1 else s._frameRequestsCount - 1) := by
  obtain ⟨h1, h2, -⟩ := engineLoopRequest_counters E s
  refine ⟨engineLoop_request E fuel s, h1, ?_⟩
  rw [h2]
  exact countdownAfterFrame_eq s

/-- C30: `startEngine(nbFrames)` on an engine that is not busy calls
`computeFrameRequest(true, true, nbFrames != 0, false)` on a state whose countdown is 1 when the
output is a viewer node and 0 when it is not (or is null), whose request index is 0, direction
forward, paused and aborted false: `nbFrames` only decides `fitFrameToViewer`. -/
theorem startEngine_argument_mapping (E : Env ν) (isViewerNode : ν → Bool) (fuel : Nat)
    (nbFrames : Int) (s : VideoEngine ν)
    (hw : s._working = false) (hp : s.postProcessFinished = true) :
    startEngine E isViewerNode (fuel + 1) nbFrames s =
      videoEngine E (fuel + 1)
        (if (s._dag._output.map isViewerNode).getD false = true then 1 else 0)
        (decide (nbFrames ≠ 0)) true true s ∧
    ∃ s1 : VideoEngine ν,
      startEngine E isViewerNode (fuel + 1) nbFrames s =
        computeFrameRequest E fuel true true (decide (nbFrames ≠ 0)) false s1 ∧
      s1._frameRequestsCount =
        (if (s._dag._output.map isViewerNode).getD false = true then 1 else 0) ∧
      (s1._frameRequestsCount = 1 ∨ s1._frameRequestsCount = 0) ∧
      s1._frameRequestIndex = 0 ∧ s1._forward = true ∧ s1._paused = false ∧
      s1._aborted = false := by
  have e : startEngine E isViewerNode (fuel + 1) nbFrames s =
      videoEngine E (fuel + 1)
        (if (s._dag._output.map isViewerNode).getD false = true then 1 else 0)
        (decide (nbFrames ≠ 0)) true true s := by
    unfold startEngine
    cases s._dag._output <;> rfl
  refine ⟨e, _, e.trans (videoEngine_idle E fuel _ _ true true s hw hp), rfl, ?_, rfl, rfl,
    rfl, rfl⟩
  show (if (s._dag._output.map isViewerNode).getD false = true then (1 : Int) else 0) = 1 ∨
    (if (s._dag._output.map isViewerNode).getD false = true then (1 : Int) else 0) = 0
  split_ifs
  · exact Or.inl rfl
  · exact Or.inr rfl

/-- Witness of C30: `startEngine(25)` on the idle viewer of `sampleEnv` (node 1 is the viewer):
the countdown is 1, not 25. -/
theorem startEngine_argument_mapping_sample :
    (idleEngine true)._working = false ∧ (idleEngine true).postProcessFinished = true ∧
    ∃ s1 : VideoEngine (Fin 2),
      startEngine sampleEnv (fun n => decide (n = 1)) 3 25 (idleEngine true) =
        computeFrameRequest sampleEnv 2 true true true false s1 ∧
      s1._frameRequestsCount = 1 ∧ s1._frameRequestIndex = 0 ∧ s1._forward = true := by
  obtain ⟨_, s1, h1, h2, _, h4, h5, _, _⟩ :=
    startEngine_argument_mapping sampleEnv (fun n => decide (n = 1)) 2 25 (idleEngine true)
      rfl rfl
  exact ⟨rfl, rfl, s1, h1, h2, h4, h5⟩

end entry_point_proofs

section seek_proofs
set_option linter.unusedSectionVars false
variable {ν : Type} [DecidableEq ν]

/-- Function `_startEngine` with an output, an input node and a frame of the viewer's range:
the timeline is seeked and `videoEngine(frameCount, initViewer, forward)` is called. -/
theorem startEngine_start (E : Env ν) (fuel : Nat) (frameNB frameCount : Int)
    (initViewer forward : Bool) (output : Option ν) (s : VideoEngine ν)
    (ho : s._dag._output.isSome = true) (hin : s._dag._inputs ≠ [])
    (h1 : s.infoFirstFrame ≤ frameNB) (h2 : frameNB ≤ s.infoLastFrame) :
    _startEngine E (fuel + 1) frameNB frameCount initViewer forward output s =
      videoEngine E fuel frameCount initViewer forward false (seek frameNB s) := by
  rw [_startEngine, if_pos ⟨ho, hin⟩, if_neg (by omega)]

end seek_proofs

section next_frame_proofs
set_option linter.unusedSectionVars false
variable {ν : Type} [DecidableEq ν]

theorem nextViewerFrame_range (forward loopMode : Bool) (first last current f : Int)
    (hrange : first ≤ last) (h1 : first ≤ current) (h2 : current ≤ last)
    (h : nextViewerFrame forward loopMode first last current = some f) :
    first ≤ f ∧ f ≤ last := by
  unfold nextViewerFrame at h
  split_ifs at h <;> simp at h <;> omega

/-- The frame choice of a recursive request on a viewer (lines 191-219) is
`viewerNextFrame`. -/
theorem viewerFrame_next (E : Env ν) (s : VideoEngine ν) (hv : s._dag._isViewer = true)
    (ho : s._dag._output.isSome = true) :
    viewerFrame E false true s =
      match viewerNextFrame s._forward s._loopMode s.infoFirstFrame s.infoLastFrame
          s.timelineFrame with
      | some f => Except.ok (seek f (record Event.nodeCacheClear s), false)
      | none => Except.ok ({ record Event.nodeCacheClear s with _frameRequestsCount := 0 }, true)
      := by
  obtain ⟨o, ho⟩ := Option.isSome_iff_exists.mp ho
  unfold viewerNextFrame
  cases hf : s._forward <;> cases hl : s._loopMode <;>
    simp [viewerFrame, isOutputAViewer, record, hv, ho, hf, hl] <;>
    split_ifs <;> rfl

/-- When the `int` addition or subtraction does not wrap, the frame the code computes is the
frame of the specification. -/
theorem viewerNextFrame_eq (forward loopMode : Bool) (first last current : Int)
    (hmin : -2147483648 ≤ current) (hmax : current ≤ 2147483647)
    (hfw : forward = true → current < 2147483647)
    (hbw : forward = false → -2147483648 < current) :
    viewerNextFrame forward loopMode first last current =
      nextViewerFrame forward loopMode first last current := by
  unfold viewerNextFrame nextViewerFrame
  cases forward
  · have h := hbw rfl
    simp only [Bool.false_eq_true, if_false]
    rw [wrapInt_eq (current - 1) (by omega) (by omega)]
  · have h := hfw rfl
    simp only [if_true]
    rw [wrapInt_eq (current + 1) (by omega) (by omega)]

/-- A recursive request on a viewer that passes the entry checks clears the node cache, then
seeks the frame `viewerNextFrame` gives and goes on to read and produce frames, or returns when
there is none. -/
theorem computeFrameRequest_viewerNextFrame (E : Env ν) (fuel : Nat)
    (forward fitFrameToViewer : Bool) (s : VideoEngine ν) (h : ViewerNextFrame s) :
    (∀ f, viewerNextFrame s._forward s._loopMode s.infoFirstFrame s.infoLastFrame
        s.timelineFrame = some f →
      ∃ s2 : VideoEngine ν,
        computeFrameRequest E (fuel + 1) false forward fitFrameToViewer true s =
          requestFrames E (runTasks (fun t st => callTask E fuel t st) fuel)
            (fun st => engineLoop E fuel st)
            (fun frame fit st => computeTreeForFrame E fuel frame fit st) fitFrameToViewer s2 ∧
        s2.trace = s.trace ++ [Event.nodeCacheClear, Event.seek f] ∧
        s2.timelineFrame = f) ∧
    (viewerNextFrame s._forward s._loopMode s.infoFirstFrame s.infoLastFrame
        s.timelineFrame = none →
      ∃ s' : VideoEngine ν,
        computeFrameRequest E (fuel + 1) false forward fitFrameToViewer true s = Except.ok s' ∧
        s'.trace = s.trace ++ [Event.nodeCacheClear] ∧
        s'.timelineFrame = s.timelineFrame) := by
  have hreq := computeFrameRequest_next E fuel forward fitFrameToViewer s h
  rw [viewerFrame_next E { s with _working := true, _sameFrame := false } h.viewer h.output]
    at hreq
  have hshow : viewerNextFrame
      ({ s with _working := true, _sameFrame := false } : VideoEngine ν)._forward
      ({ s with _working := true, _sameFrame := false } : VideoEngine ν)._loopMode
      ({ s with _working := true, _sameFrame := false } : VideoEngine ν).infoFirstFrame
      ({ s with _working := true, _sameFrame := false } : VideoEngine ν).infoLastFrame
      ({ s with _working := true, _sameFrame := false } : VideoEngine ν).timelineFrame =
      viewerNextFrame s._forward s._loopMode s.infoFirstFrame s.infoLastFrame
        s.timelineFrame := rfl
  rw [hshow] at hreq
  constructor
  · intro f hf
    rw [hf] at hreq
    refine ⟨_, hreq, ?_, rfl⟩
    simp [seek, record]
  · intro hn
    rw [hn] at hreq
    exact ⟨_, hreq, rfl, rfl⟩

/-- C28 (counterexample): a seek outside the range. The viewer of `viewerAtIntMin` plays
backward in loop mode on the range [-2147483648, 5] with the timeline at -2147483648, a frame
of the range: the claim gives the frame 5 (`last`, before `first` with loop mode), the request
seeks 2147483647, the `int` value of -2147483648 - 1 (line 208), which is beyond `last`. The
viewer of `viewerAtIntMax` plays forward on the range [1, 2147483647] with the timeline at
2147483647: the request seeks -2147483648, which is before `first`. -/
theorem next_frame_out_of_range :
    (viewerAtIntMin true).infoFirstFrame ≤ (viewerAtIntMin true).infoLastFrame ∧
    (viewerAtIntMin true).infoFirstFrame ≤ (viewerAtIntMin true).timelineFrame ∧
    (viewerAtIntMin true).timelineFrame ≤ (viewerAtIntMin true).infoLastFrame ∧
    (viewerAtIntMin true).infoLastFrame = 5 ∧
    nextViewerFrame false true (-2147483648) 5 (-2147483648) = some 5 ∧
    (∃ s2 : VideoEngine (Fin 2),
      computeFrameRequest sampleEnv 1 false false false true (viewerAtIntMin true) =
        requestFrames sampleEnv (runTasks (fun t st => callTask sampleEnv 0 t st) 0)
          (fun st => engineLoop sampleEnv 0 st)
          (fun frame fit st => computeTreeForFrame sampleEnv 0 frame fit st) false s2 ∧
      s2.trace = [Event.nodeCacheClear, Event.seek 2147483647] ∧
      s2.timelineFrame = 2147483647) ∧
    (viewerAtIntMax true).infoFirstFrame ≤ (viewerAtIntMax true).timelineFrame ∧
    (viewerAtIntMax true).timelineFrame ≤ (viewerAtIntMax true).infoLastFrame ∧
    (viewerAtIntMax true).infoFirstFrame = 1 ∧
    nextViewerFrame true true 1 2147483647 2147483647 = some 1 ∧
    (∃ s2 : VideoEngine (Fin 2),
      computeFrameRequest sampleEnv 1 false true false true (viewerAtIntMax true) =
        requestFrames sampleEnv (runTasks (fun t st => callTask sampleEnv 0 t st) 0)
          (fun st => engineLoop sampleEnv 0 st)
          (fun frame fit st => computeTreeForFrame sampleEnv 0 frame fit st) false s2 ∧
      s2.trace = [Event.nodeCacheClear, Event.seek (-2147483648)] ∧
      s2.timelineFrame = -2147483648) := by
  have hmin : ViewerNextFrame (viewerAtIntMin true) :=
    ⟨rfl, rfl, rfl, rfl, by decide, by decide⟩
  have hmax : ViewerNextFrame (viewerAtIntMax true) :=
    ⟨rfl, rfl, rfl, rfl, by decide, by decide⟩
  exact ⟨by decide, by decide, by decide, rfl, by decide,
    (computeFrameRequest_viewerNextFrame sampleEnv 0 false false (viewerAtIntMin true) hmin).1
      2147483647 (by decide),
    by decide, by decide, rfl, by decide,
    (computeFrameRequest_viewerNextFrame sampleEnv 0 true false (viewerAtIntMax true) hmax).1
      (-2147483648) (by decide)⟩

/-- C28 (amended): a recursive (next-frame) request on a viewer that passes the entry checks,
with range `first <= last`, the viewer's current frame `c` in [`first`, `last`], and `c + 1`
(forward) or `c - 1` (backward) an `int`: `c` is an `int`, below 2147483647 when the direction
is forward and above -2147483648 when it is backward. Forward the request seeks `c + 1` or,
when `c + 1 > last`, `first` with loop mode; backward it seeks `c - 1` or, when
`c - 1 < first`, `last` with loop mode (`nextViewerFrame`). When there is such a frame `f`, the
request clears the node cache, seeks `f` (its only seek), goes on to read and produce frames
with the timeline at `f`, and `f` lies in [`first`, `last`]. At the boundary without loop mode
the request returns with the node-cache clear as its only call: no seek, the timeline stays at
`c`. -/
theorem computeFrameRequest_next_frame_in_range (E : Env ν) (fuel : Nat)
    (forward fitFrameToViewer : Bool) (s : VideoEngine ν) (h : ViewerNextFrame s)
    (hrange : s.infoFirstFrame ≤ s.infoLastFrame)
    (hlow : s.infoFirstFrame ≤ s.timelineFrame) (hup : s.timelineFrame ≤ s.infoLastFrame)
    (hmin : -2147483648 ≤ s.timelineFrame) (hmax : s.timelineFrame ≤ 2147483647)
    (hfw : s._forward = true → s.timelineFrame < 2147483647)
    (hbw : s._forward = false → -2147483648 < s.timelineFrame) :
    (∀ f, nextViewerFrame s._forward s._loopMode s.infoFirstFrame s.infoLastFrame
        s.timelineFrame = some f →
      ∃ s2 : VideoEngine ν,
        computeFrameRequest E (fuel + 1) false forward fitFrameToViewer true s =
          requestFrames E (runTasks (fun t st => callTask E fuel t st) fuel)
            (fun st => engineLoop E fuel st)
            (fun frame fit st => computeTreeForFrame E fuel frame fit st) fitFrameToViewer s2 ∧
        s2.trace = s.trace ++ [Event.nodeCacheClear, Event.seek f] ∧
        s2.timelineFrame = f ∧ s.infoFirstFrame ≤ f ∧ f ≤ s.infoLastFrame) ∧
    (nextViewerFrame s._forward s._loopMode s.infoFirstFrame s.infoLastFrame
        s.timelineFrame = none →
      ∃ s' : VideoEngine ν,
        computeFrameRequest E (fuel + 1) false forward fitFrameToViewer true s = Except.ok s' ∧
        s'.trace = s.trace ++ [Event.nodeCacheClear] ∧
        s'.timelineFrame = s.timelineFrame ∧ s._loopMode = false) := by
  have hreq := computeFrameRequest_viewerNextFrame E fuel forward fitFrameToViewer s h
  rw [viewerNextFrame_eq s._forward s._loopMode s.infoFirstFrame s.infoLastFrame
    s.timelineFrame hmin hmax hfw hbw] at hreq
  constructor
  · intro f hf
    obtain ⟨s2, h1, h2, h3⟩ := hreq.1 f hf
    exact ⟨s2, h1, h2, h3, nextViewerFrame_range _ _ _ _ _ f hrange hlow hup hf⟩
  · intro hn
    obtain ⟨s', h1, h2, h3⟩ := hreq.2 hn
    refine ⟨s', h1, h2, h3, ?_⟩
    unfold nextViewerFrame at hn
    cases hl : s._loopMode
    · rfl
    · rw [hl] at hn
      exfalso
      revert hn
      cases s._forward <;> simp only [if_true, Bool.false_eq_true, if_false] <;>
        split_ifs <;> simp

/-- Witness of C28 (amended): the viewer of `viewerAtFirstFrame` plays backward in loop mode on
the range [1, 5] with the timeline at frame 1: the request seeks frame 5. -/
theorem computeFrameRequest_next_frame_in_range_sample :
    ViewerNextFrame (viewerAtFirstFrame true) ∧
    (viewerAtFirstFrame true).infoFirstFrame ≤ (viewerAtFirstFrame true).infoLastFrame ∧
    (viewerAtFirstFrame true).infoFirstFrame ≤ (viewerAtFirstFrame true).timelineFrame ∧
    (viewerAtFirstFrame true).timelineFrame ≤ (viewerAtFirstFrame true).infoLastFrame ∧
    -2147483648 < (viewerAtFirstFrame true).timelineFrame ∧
    (viewerAtFirstFrame true).timelineFrame ≤ 2147483647 ∧
    nextViewerFrame false true 1 5 1 = some 5 ∧
    ∃ s2 : VideoEngine (Fin 2),
      computeFrameRequest sampleEnv 1 false false false true (viewerAtFirstFrame true) =
        requestFrames sampleEnv (runTasks (fun t st => callTask sampleEnv 0 t st) 0)
          (fun st => engineLoop sampleEnv 0 st)
          (fun frame fit st => computeTreeForFrame sampleEnv 0 frame fit st) false s2 ∧
      s2.trace = [Event.nodeCacheClear, Event.seek 5] ∧ s2.timelineFrame = 5 := by
  have h := (computeFrameRequest_next_frame_in_range sampleEnv 0 false false
    (viewerAtFirstFrame true) (viewerAtFirstFrame_next true) (by decide) (by decide)
    (by decide) (by decide) (by decide) (fun h => absurd h (by decide))
    (fun _ => by decide)).1 5 (by decide)
  obtain ⟨s2, h1, h2, h3, _, _⟩ := h
  exact ⟨viewerAtFirstFrame_next true, by decide, by decide, by decide, by decide, by decide,
    by decide, s2, h1, h2, h3⟩

end next_frame_proofs

section writer_rows_proofs
set_option linter.unusedSectionVars false
variable {ν : Type} [DecidableEq ν]

/-! ### Rows of a writer and routing of the frames read -/

/-- The row loop without abort or pause over the scanlines `y0, y0 + 1, ..., y0 + n - 1`. -/
theorem buildRows_scanlines (offset right : Int) (channels : Nat) (n : Nat) :
    ∀ (y0 counter : Int) (acc : List Row),
      buildRows false false offset right channels
          ((List.range n).map (fun (i : Nat) => y0 + (i : Int))) counter acc =
        (acc ++ (List.range n).map (fun (i : Nat) =>
          ({ offset := offset, y := y0 + (i : Int), right := right, channels := channels,
             zoomedY := counter + (i : Int) } : Row)), RowLoopExit.completed) := by
  induction n with
  | zero => intro y0 counter acc; simp [buildRows]
  | succ n ih =>
    intro y0 counter acc
    rw [List.range_succ_eq_map]
    simp only [List.map_cons, List.map_map, buildRows, Bool.false_eq_true, if_false]
    have e1 : ((fun (i : Nat) => y0 + (i : Int)) ∘ Nat.succ) =
        (fun (i : Nat) => (y0 + 1) + (i : Int)) := by
      funext i
      simp only [Function.comp_apply, Nat.succ_eq_add_one, Nat.cast_add, Nat.cast_one]
      omega
    rw [e1, ih (y0 + 1) (counter + 1)]
    simp only [Nat.cast_zero, add_zero, List.append_assoc, List.singleton_append, Prod.mk.injEq,
      and_true]
    congr 2
    apply List.map_congr_left
    intro i _
    simp only [Function.comp_apply, Nat.succ_eq_add_one, Nat.cast_add, Nat.cast_one]
    congr 1 <;> omega

theorem writerBatch_length (E : Env ν) :
    (writerBatch E).length = (E.dataWindowTop - E.dataWindowY).toNat := by
  simp [writerBatch]

theorem writerBatch_get (E : Env ν) (i : Nat) (hi : i < (E.dataWindowTop - E.dataWindowY).toNat) :
    (writerBatch E)[i]? =
      some { offset := E.dataWindowX, y := E.dataWindowY + (i : Int),
             right := E.dataWindowRight, channels := E.writerRequestedChannels,
             zoomedY := (i : Int) } := by
  simp [writerBatch, List.getElem?_map, List.getElem?_range hi]

/-- C24: `computeTreeForFrame` on a writer output (not null) with neither abort nor pause
pending. The call returns with the rows handed to the worker pool; the rows it has built
(appended to `_sequenceToWork`, which `finishComputeFrameRequest` empties after each batch) are
`writerBatch`: as many rows as there are integers `y` with `dataWindow.y <= y < dataWindow.top`,
the `i`-th row (from 0) having `y = dataWindow.y + i`, `zoomedY = i`, left bound
`dataWindow.x`, right bound `dataWindow.right` and the channels the writer requests; so the
`y` of the rows increase strictly and are exactly the integers of
[`dataWindow.y`, `dataWindow.top`). -/
theorem computeTreeForFrame_writer_rows (E : Env ν) (fuel : Nat) (frame : Int)
    (fitFrameToViewer : Bool) (s : VideoEngine ν)
    (hw : s._dag._isViewer = false) (ho : s._dag._output.isSome = true)
    (ha : s._aborted = false) (hp : s._paused = false) :
    computeTreeForFrame E (fuel + 1) frame fitFrameToViewer s =
      Except.ok (record (Event.dispatchRows frame (s._sequenceToWork ++ writerBatch E))
        { s with _sequenceToWork := s._sequenceToWork ++ writerBatch E,
                 workerWatcherPending := true }) ∧
    (writerBatch E).length = (E.dataWindowTop - E.dataWindowY).toNat ∧
    (∀ i : Nat, i < (E.dataWindowTop - E.dataWindowY).toNat →
      (writerBatch E)[i]? =
        some { offset := E.dataWindowX, y := E.dataWindowY + (i : Int),
               right := E.dataWindowRight, channels := E.writerRequestedChannels,
               zoomedY := (i : Int) }) ∧
    (writerBatch E).Pairwise (fun a b => a.y < b.y) ∧
    (∀ y : Int, (∃ row ∈ writerBatch E, row.y = y) ↔
      E.dataWindowY ≤ y ∧ y < E.dataWindowTop) := by
  obtain ⟨o, ho⟩ := Option.isSome_iff_exists.mp ho
  refine ⟨?_, writerBatch_length E, writerBatch_get E, ?_, ?_⟩
  · rw [computeTreeForFrame]
    have hrows := buildRows_scanlines E.dataWindowX E.dataWindowRight E.writerRequestedChannels
      (E.dataWindowTop - E.dataWindowY).toNat E.dataWindowY 0 s._sequenceToWork
    simp only [zero_add] at hrows
    simp only [ho, isOutputAViewer, hw, Bool.false_eq_true, false_and, if_false, ha, hp,
      writerRows, hrows, writerBatch]
  · unfold writerBatch
    rw [List.pairwise_map]
    refine List.Pairwise.imp ?_ (List.pairwise_lt_range _)
    intro a b hab
    show E.dataWindowY + (a : Int) < E.dataWindowY + (b : Int)
    omega
  · intro y
    simp only [writerBatch, List.mem_map, List.mem_range]
    constructor
    · rintro ⟨row, ⟨i, hi, rfl⟩, rfl⟩
      show E.dataWindowY ≤ E.dataWindowY + (i : Int) ∧ E.dataWindowY + (i : Int) < E.dataWindowTop
      omega
    · rintro ⟨h1, h2⟩
      refine ⟨_, ⟨(y - E.dataWindowY).toNat, by omega, rfl⟩, ?_⟩
      show E.dataWindowY + ((y - E.dataWindowY).toNat : Int) = y
      omega

/-- Witness of C24: the writer of `sampleEnv` (data window y = 0, top = 2, x = 0, right = 4):
two rows, y = 0 and y = 1. -/
theorem computeTreeForFrame_writer_rows_sample :
    (viewerAtFrame 5)._aborted = false ∧ (viewerAtFrame 5)._paused = false ∧
    computeTreeForFrame sampleEnv 1 5 false
        { viewerAtFrame 5 with _dag := sampleDag false } =
      Except.ok (record (Event.dispatchRows 5
          [{ offset := 0, y := 0, right := 4, channels := 7, zoomedY := 0 },
           { offset := 0, y := 1, right := 4, channels := 7, zoomedY := 1 }])
        { viewerAtFrame 5 with
          _dag := sampleDag false,
          _sequenceToWork :=
            [{ offset := 0, y := 0, right := 4, channels := 7, zoomedY := 0 },
             { offset := 0, y := 1, right := 4, channels := 7, zoomedY := 1 }],
          workerWatcherPending := true }) :=
  ⟨rfl, rfl,
    (computeTreeForFrame_writer_rows sampleEnv 0 5 false
      { viewerAtFrame 5 with _dag := sampleDag false } rfl rfl rfl rfl).1⟩

end writer_rows_proofs

section routing_proofs
set_option linter.unusedSectionVars false
variable {ν : Type} [DecidableEq ν]

end routing_proofs

section sorted_permutation_proofs
set_option linter.unusedSectionVars false
variable {ν : Type} [DecidableEq ν]

/-! ### `_sorted` is a permutation of `_graph` that ends in the output -/

/-- In a sorted DAG every node other than the output is sorted before the output: it is reached
from the output over parent edges, and each parent is sorted before its child. -/
theorem sortedDag_before_output (G : NodeGraph ν) (out : ν) (isViewer : Bool)
    (s : GraphState ν) (h : SortedDag G out isViewer s) (x : ν)
    (hx : Relation.TransGen G.Edge out x) :
    x ∈ s.dag._sorted ∧ s.dag._sorted.indexOf x < s.dag._sorted.indexOf out := by
  have hout : out ∈ s.dag._sorted :=
    h.sorted_all out ((h.graph_mem out).mpr Relation.ReflTransGen.refl)
  induction hx with
  | single e => exact h.sorted_inv.order out hout _ e
  | tail _ e ih =>
    obtain ⟨hm, hlt⟩ := ih
    obtain ⟨hp, hlt'⟩ := h.sorted_inv.order _ hm _ e
    exact ⟨hp, lt_trans hlt' hlt⟩

theorem sortedDag_last (G : NodeGraph ν) (out : ν) (isViewer : Bool) (s : GraphState ν)
    (h : SortedDag G out isViewer s) : s.dag._sorted.getLast? = some out := by
  have hout : out ∈ s.dag._sorted :=
    h.sorted_all out ((h.graph_mem out).mpr Relation.ReflTransGen.refl)
  have hne : s.dag._sorted ≠ [] := List.ne_nil_of_mem hout
  rw [List.getLast?_eq_getLast _ hne]
  congr 1
  by_contra hlast
  have hl : s.dag._sorted.getLast hne ∈ s.dag._sorted := List.getLast_mem hne
  have hreach : G.Reachable out (s.dag._sorted.getLast hne) :=
    (h.graph_mem _).mp (h.sorted_inv.inGraph _ hl)
  have htrans : Relation.TransGen G.Edge out (s.dag._sorted.getLast hne) := by
    rcases Relation.reflTransGen_iff_eq_or_transGen.mp hreach with e | t
    · exact absurd e hlast
    · exact t
  obtain ⟨-, hlt⟩ := sortedDag_before_output G out isViewer s h _ htrans
  have hidx : s.dag._sorted.indexOf (s.dag._sorted.getLast hne) = s.dag._sorted.length - 1 := by
    have := List.indexOf_getElem h.sorted_inv.nodup (s.dag._sorted.length - 1)
      (Nat.sub_lt (List.length_pos.mpr hne) Nat.one_pos)
    rw [← List.getLast_eq_getElem] at this
    exact this
  have hout_lt : s.dag._sorted.indexOf out < s.dag._sorted.length :=
    List.indexOf_lt_length.mpr hout
  omega

/-- C27: on an acyclic node graph, `DAG::resetAndSort(output)` with a non-null output returns
(with enough fuel, from any previous DAG content and marks), and then `_sorted` is a
permutation of `_graph`: both hold the same nodes, neither holds a node twice, and they have the
same length; the output is the first element of `_graph` and the last element of `_sorted`. -/
theorem resetAndSort_sorted_permutation [Finite ν] (G : NodeGraph ν) (hac : G.Acyclic)
    (out : ν) (isViewer : Bool) :
    ∃ f0, ∀ fuel, f0 ≤ fuel → ∀ s0 : GraphState ν, ∃ s,
      resetAndSort G fuel (some out) isViewer s0 = some s ∧
      s.dag._sorted.Perm s.dag._graph ∧
      (∀ x, x ∈ s.dag._sorted ↔ x ∈ s.dag._graph) ∧
      s.dag._sorted.Nodup ∧ s.dag._graph.Nodup ∧
      s.dag._sorted.length = s.dag._graph.length ∧
      s.dag._graph.head? = some out ∧ s.dag._sorted.getLast? = some out := by
  obtain ⟨f0, h⟩ := resetAndSort_spec G hac out isViewer
  refine ⟨f0, fun fuel hfuel s0 => ?_⟩
  obtain ⟨s, hs, hsd⟩ := h fuel hfuel s0
  have hmem : ∀ x, x ∈ s.dag._sorted ↔ x ∈ s.dag._graph :=
    fun x => ⟨hsd.sorted_inv.inGraph x, hsd.sorted_all x⟩
  have hperm : s.dag._sorted.Perm s.dag._graph :=
    (List.perm_ext_iff_of_nodup hsd.sorted_inv.nodup hsd.graph_nodup).mpr hmem
  exact ⟨s, hs, hperm, hmem, hsd.sorted_inv.nodup, hsd.graph_nodup, hperm.length_eq,
    hsd.graph_head, sortedDag_last G out isViewer s hsd⟩

/-- Witness of C27 on the diamond graph. -/
theorem resetAndSort_sorted_permutation_diamond :
    diamond.Acyclic ∧
    ∃ f0, ∀ fuel, f0 ≤ fuel → ∀ s0 : GraphState (Fin 4), ∃ s,
      resetAndSort diamond fuel (some 3) true s0 = some s ∧
      s.dag._sorted.Perm s.dag._graph ∧
      (∀ x, x ∈ s.dag._sorted ↔ x ∈ s.dag._graph) ∧
      s.dag._sorted.Nodup ∧ s.dag._graph.Nodup ∧
      s.dag._sorted.length = s.dag._graph.length ∧
      s.dag._graph.head? = some 3 ∧ s.dag._sorted.getLast? = some 3 :=
  ⟨diamond_acyclic, resetAndSort_sorted_permutation diamond diamond_acyclic 3 true⟩

end sorted_permutation_proofs

section single_frame_proofs
set_option linter.unusedSectionVars false
variable {ν : Type} [DecidableEq ν]

/-! ### Production of one frame of a viewer, in any direction -/

theorem presentedFrames_readerCalls (evs : List (Event ν))
    (h : ∀ e ∈ evs, isReaderCall e = true) : presentedFrames evs = [] := by
  induction evs with
  | nil => rfl
  | cons e rest ih =>
    have he := h e (List.mem_cons_self e rest)
    have hr := ih (fun x hx => h x (List.mem_cons_of_mem e hx))
    cases e <;> simp [isReaderCall] at he <;> simpa [presentedFrames] using hr

/-- A frame found in the viewer cache goes to `cachedFrameEngine` and `engineLoop`. -/
theorem requestFrames_hit (E : Env ν) (r : ν)
    (run loop : VideoEngine ν → Except Fault (VideoEngine ν))
    (tree : Int → Bool → VideoEngine ν → Except Fault (VideoEngine ν)) (fit : Bool)
    (s : VideoEngine ν) (h : ViewerRunning E r s)
    (hcache : E.viewerCacheGet s.trace r s.timelineFrame = true) :
    requestFrames E run loop tree fit s = loop (afterCacheHit E r s) := by
  obtain ⟨hv, ho, hr, ha, hp, hq, hws, hls⟩ := h
  obtain ⟨o, ho⟩ := Option.isSome_iff_exists.mp ho
  have hr' : List.filter E.isReader s._dag._inputs = [r] := hr
  simp [afterCacheHit, requestFrames, getReaders, hr', startReading, readOnMainThread,
    isOutputAViewer, hv, frameToRead, hcache, validateOutput, ho, record, forFrames,
    cachedFrameEngine, hp, ha]
  generalize loop _ = x
  cases x <;> rfl

/-- A frame that is not in the viewer cache goes to `computeTreeForFrame`. -/
theorem requestFrames_decode (E : Env ν) (r : ν)
    (run loop : VideoEngine ν → Except Fault (VideoEngine ν))
    (tree : Int → Bool → VideoEngine ν → Except Fault (VideoEngine ν)) (fit : Bool)
    (s : VideoEngine ν) (hdec : ∀ tr f, E.decodeFrames tr r f = 1)
    (h : ViewerRunning E r s)
    (hcache : E.viewerCacheGet s.trace r s.timelineFrame = false) :
    requestFrames E run loop tree fit s = tree s.timelineFrame fit (afterCacheMiss E r s) := by
  obtain ⟨hv, ho, hr, ha, hp, hq, hws, hls⟩ := h
  obtain ⟨o, ho⟩ := Option.isSome_iff_exists.mp ho
  have hr' : List.filter E.isReader s._dag._inputs = [r] := hr
  simp [afterCacheMiss, requestFrames, getReaders, hr', startReading, readOnMainThread,
    isOutputAViewer, hv, frameToRead, hcache, validateOutput, ho, record, forFrames, hdec]
  generalize tree _ _ _ = x
  cases x <;> rfl

theorem computeTreeForFrame_cachedTexture (E : Env ν) (fuel : Nat) (frame : Int) (fit : Bool)
    (s : VideoEngine ν) (hv : s._dag._isViewer = true) (ho : s._dag._output.isSome = true)
    (htex : E.isTextureCached s.trace frame = true) :
    computeTreeForFrame E (fuel + 1) frame fit s = engineLoop E fuel s := by
  obtain ⟨o, ho⟩ := Option.isSome_iff_exists.mp ho
  rw [computeTreeForFrame]
  simp [ho, isOutputAViewer, hv, htex]

theorem computeTreeForFrame_rows (E : Env ν) (fuel : Nat) (frame : Int) (fit : Bool)
    (s : VideoEngine ν) (hv : s._dag._isViewer = true) (ho : s._dag._output.isSome = true)
    (ha : s._aborted = false) (hp : s._paused = false)
    (htex : E.isTextureCached s.trace frame = false) :
    ∃ rows, computeTreeForFrame E (fuel + 1) frame fit s =
      Except.ok (afterDispatch frame rows s) := by
  obtain ⟨o, ho⟩ := Option.isSome_iff_exists.mp ho
  obtain ⟨rows, hrows⟩ := buildRows_completed E.dataWindowX E.dataWindowRight
    (Nat.land E.displayChannels E.infoChannels) E.computeRowSpan 0 s._sequenceToWork
  refine ⟨rows, ?_⟩
  rw [computeTreeForFrame]
  simp [afterDispatch, ho, isOutputAViewer, hv, htex, ha, hp, hrows]

/-- One frame of a viewer request, from the read to `engineLoop`: whichever way the frame is
produced (viewer cache, texture cache, worker pool and its signals), the run goes on as
`engineLoop` does on an engine that holds the frame. -/
theorem requestFrames_produced (E : Env ν) (r : ν)
    (hdec : ∀ tr f, E.decodeFrames tr r f = 1) (K : VideoEngine ν → Prop) (b : Nat)
    (s : VideoEngine ν) (fit : Bool) (h : ViewerRunning E r s)
    (hk : ∀ t, Produced E r s t → ∀ f1 f2, b ≤ f1 → b ≤ f2 →
      ∃ s1 s', engineLoop E f1 t = Except.ok s1 ∧
        deliverSignals E f2 s1 = Except.ok s' ∧ K s')
    (g f2 : Nat) (hg : b + 1 ≤ g) (hf2 : b + 2 ≤ f2) :
    ∃ s1 s',
      requestFrames E (runTasks (fun t st => callTask E g t st) g)
        (fun st => engineLoop E g st)
        (fun frame fit st => computeTreeForFrame E g frame fit st) fit s = Except.ok s1 ∧
      deliverSignals E f2 s1 = Except.ok s' ∧ K s' := by
  have h0 := h
  obtain ⟨hv, ho, hr, ha, hp, hq, hws, hls⟩ := h
  by_cases hcache : E.viewerCacheGet s.trace r s.timelineFrame = true
  · rw [requestFrames_hit E r _ _ _ fit s h0 hcache]
    have hP : Produced E r s (afterCacheHit E r s) :=
      ⟨⟨hv, ho, hr, ha, hp, hq, hws, hls⟩, rfl, rfl, rfl, rfl, rfl, rfl, rfl, by
        simp [afterCacheHit, cachedFrameEngine, record, presentedFrames_append,
          presentedFrames]⟩
    exact hk _ hP g f2 (by omega) (by omega)
  · have hcache' : E.viewerCacheGet s.trace r s.timelineFrame = false := by
      simpa using hcache
    rw [requestFrames_decode E r _ _ _ fit s hdec h0 hcache']
    have hpres : presentedFrames (afterCacheMiss E r s).trace = presentedFrames s.trace := by
      simp [afterCacheMiss, record, presentedFrames_append, presentedFrames]
    have hP : Produced E r s (afterCacheMiss E r s) :=
      ⟨⟨hv, ho, hr, ha, hp, hq, hws, hls⟩, rfl, rfl, rfl, rfl, rfl, rfl, rfl, hpres⟩
    obtain ⟨k, rfl⟩ : ∃ k, g = k + 1 := ⟨g - 1, by omega⟩
    by_cases htex : E.isTextureCached (afterCacheMiss E r s).trace s.timelineFrame = true
    · rw [computeTreeForFrame_cachedTexture E k s.timelineFrame fit (afterCacheMiss E r s)
        hv ho htex]
      exact hk _ hP k f2 (by omega) (by omega)
    · have htex' : E.isTextureCached (afterCacheMiss E r s).trace s.timelineFrame = false := by
        simpa using htex
      obtain ⟨rows, hrows⟩ :=
        computeTreeForFrame_rows E k s.timelineFrame fit (afterCacheMiss E r s) hv ho ha hp htex'
      rw [hrows]
      obtain ⟨x, rfl⟩ : ∃ x, f2 = x + 2 := ⟨f2 - 2, by omega⟩
      have hD : Produced E r s
          (afterFillPBO (afterDispatch s.timelineFrame rows (afterCacheMiss E r s))) :=
        ⟨⟨hv, ho, hr, ha, hp, hq, rfl, rfl⟩, rfl, rfl, rfl, rfl, rfl, rfl, rfl, by
          simp [afterFillPBO, afterDispatch, afterCacheMiss, record, presentedFrames_append,
            presentedFrames]⟩
      obtain ⟨s1, s', h1, h2, h3⟩ := hk _ hD x x (by omega) (by omega)
      refine ⟨_, s', rfl, ?_, h3⟩
      rw [deliverSignals_dispatched E x
        (afterDispatch s.timelineFrame rows (afterCacheMiss E r s)) hv rfl, h1]
      exact h2

/-! ### A sequence of one frame -/

/-- The first recursive request of an unbounded playback on a viewer whose range is one frame
(request index 1, countdown -1, no abort, no pause, no deferred task): the engine stops; nothing
is seeked, read or presented. -/
theorem computeFrameRequest_single_frame (E : Env ν) (fuel : Nat) (forward fit : Bool)
    (s : VideoEngine ν) (hv : s._dag._isViewer = true) (ho : s._dag._output.isSome = true)
    (ha : s._aborted = false) (hp : s._paused = false) (hc : s._frameRequestsCount = -1)
    (hi : s._frameRequestIndex = 1) (hrange : s.infoLastFrame = s.infoFirstFrame)
    (hq : s._waitingTasks = []) :
    computeFrameRequest E (fuel + 2) false forward fit true s =
      Except.ok (stopEngine (stopEngine { s with _working := true, _sameFrame := false })) := by
  obtain ⟨o, ho⟩ := Option.isSome_iff_exists.mp ho
  rw [computeFrameRequest]
  simp only [writerPrologue, isOutputAViewer, hv, if_true, entryCheck, ha, hp, hc, hi, ho,
    hrange]
  simp only [stopRunTasksStop, Bool.false_eq_true, and_false, if_false, or_self, and_self,
    Int.reduceNeg, reduceCtorEq, Int.neg_eq_zero, one_ne_zero, if_true]
  rw [runTasks_empty _ fuel _ (by rw [stopEngine_waitingTasks]; exact hq)]

/-- Function `engineLoop` on a viewer that holds the one frame of its range, in an unbounded
playback, before any frame was counted (request index 0): the frame is presented, and the
request that follows stops the engine. -/
theorem engineLoop_single_frame (E : Env ν) (r : ν) (t : VideoEngine ν)
    (h : ViewerRunning E r t) (hc : t._frameRequestsCount = -1)
    (hi : t._frameRequestIndex = 0) (hrange : t.infoLastFrame = t.infoFirstFrame)
    (f1 f2 : Nat) (hf1 : 3 ≤ f1) :
    ∃ s1 s', engineLoop E f1 t = Except.ok s1 ∧ deliverSignals E f2 s1 = Except.ok s' ∧
      Stopped s' ∧ s'._frameRequestIndex = 1 ∧
      presentedFrames s'.trace = presentedFrames t.trace ++ [t.timelineFrame] := by
  obtain ⟨k, rfl⟩ : ∃ k, f1 = k + 3 := ⟨f1 - 3, by omega⟩
  obtain ⟨hv, ho, hr, ha, hp, hq, hws, hls⟩ := h
  obtain ⟨ahead, heq, hcalls⟩ := engineLoopRequest_eq E t
  have hcd : countdownAfterFrame t = -1 := by
    rw [countdownAfterFrame_eq, if_pos hc]
  have hrun : engineLoop E (k + 3) t =
      Except.ok (stopEngine (stopEngine
        { engineLoopRequest E t with _working := true, _sameFrame := false })) := by
    rw [engineLoop_request E (k + 2) t]
    exact computeFrameRequest_single_frame E k _ false (engineLoopRequest E t)
      (by rw [heq]; exact hv) (by rw [heq]; exact ho) (by rw [heq]; exact ha)
      (by rw [heq]; exact hp) (by rw [heq]; exact hcd)
      (by rw [heq]; show t._frameRequestIndex + 1 = 1; omega)
      (by rw [heq]; exact hrange) (by rw [heq]; exact hq)
  have hw1 : (stopEngine (stopEngine
      { engineLoopRequest E t with _working := true, _sameFrame := false })
      ).workerWatcherPending = false := by
    rw [stopEngine_workerSignal, stopEngine_workerSignal, heq]
    exact hws
  have hl1 : (stopEngine (stopEngine
      { engineLoopRequest E t with _working := true, _sameFrame := false })
      ).engineLoopWatcherPending = false := by
    rw [stopEngine_loopSignal, stopEngine_loopSignal, heq]
    exact hls
  refine ⟨_, _, hrun, deliverSignals_idle E f2 _ hw1 hl1,
    ⟨stopEngine_working _, stopEngine_countdown _, stopEngine_paused _, stopEngine_aborted _,
      hw1, hl1⟩, ?_, ?_⟩
  · rw [stopEngine_requestIndex, stopEngine_requestIndex, heq]
    show t._frameRequestIndex + 1 = 1
    omega
  · rw [stopEngine_trace, stopEngine_trace]
    show presentedFrames (engineLoopRequest E t).trace = _
    rw [heq]
    show presentedFrames (t.trace ++
      (if t._dag._isViewer = true then [Event.copyPBOtoTexture t.timelineFrame] else []) ++
      ahead) = _
    rw [if_pos hv, presentedFrames_append, presentedFrames_append,
      presentedFrames_readerCalls ahead hcalls, List.append_nil]
    rfl

/-- C23: an idle engine (not working, post-process future finished, no signal pending, no
deferred task) whose DAG has a viewer output and one source node, a reader that decodes one
frame per request; the validated range has `firstFrame = lastFrame = f`. An unbounded playback
`videoEngine(-1, fit, forward, sameFrame = false)`, in either direction, with or without loop
mode and wherever the timeline is, followed by the signals it causes (no pause, no abort),
returns with enough fuel; the viewer has then presented one frame, `f`, and the engine has
stopped (not working, countdown 0, flags clear, no signal pending) with the request index at 1:
the first recursive request has stopped it. That request, taken alone (request index 1,
countdown -1, range of one frame), stops the engine without adding a call to the trace. -/
theorem single_frame_presented_once (E : Env ν) (r : ν) (f : Int) (s : VideoEngine ν)
    (fitFrameToViewer forward : Bool)
    (hidle : s._working = false) (hpost : s.postProcessFinished = true)
    (hsig1 : s.workerWatcherPending = false) (hsig2 : s.engineLoopWatcherPending = false)
    (htasks : s._waitingTasks = [])
    (hviewer : s._dag._isViewer = true) (hout : s._dag._output.isSome = true)
    (hinputs : s._dag._inputs = [r]) (hreader : E.isReader r = true)
    (hdec : ∀ tr f, E.decodeFrames tr r f = 1)
    (hvf : E.validatedFirstFrame = f) (hvl : E.validatedLastFrame = f) :
    (∀ fuel, 6 ≤ fuel →
      ∃ s', playback E fuel (-1) fitFrameToViewer forward false s = Except.ok s' ∧
        presentedFrames s'.trace = presentedFrames s.trace ++ [f] ∧
        Stopped s' ∧ s'._frameRequestIndex = 1) ∧
    (∀ (t : VideoEngine ν) (fuel : Nat) (fwd fit : Bool),
      t._dag._isViewer = true → t._dag._output.isSome = true → t._aborted = false →
      t._paused = false → t._frameRequestsCount = -1 → t._frameRequestIndex = 1 →
      t.infoLastFrame = t.infoFirstFrame → t._waitingTasks = [] →
      ∃ t', computeFrameRequest E (fuel + 2) false fwd fit true t = Except.ok t' ∧
        t'.trace = t.trace ∧ t'._working = false ∧ t'._frameRequestsCount = 0) := by
  constructor
  · intro fuel hfuel
    obtain ⟨g, rfl⟩ : ∃ g, fuel = g + 2 := ⟨fuel - 2, by omega⟩
    have hclamp : clampFrame E.validatedFirstFrame E.validatedLastFrame s.timelineFrame = f := by
      unfold clampFrame
      rw [hvf, hvl]
      split_ifs <;> omega
    have hS2 : ViewerRunning E r
        (seek (clampFrame E.validatedFirstFrame E.validatedLastFrame s.timelineFrame)
          { startedEngine (-1) forward s with
            _working := true, _sameFrame := false,
            infoFirstFrame := E.validatedFirstFrame,
            infoLastFrame := E.validatedLastFrame }) :=
      ⟨hviewer, hout, by simp [getReaders, seek, record, startedEngine, hinputs, hreader],
        rfl, rfl, htasks, hsig1, hsig2⟩
    obtain ⟨s1, s', h1, h2, h3, h4, h5⟩ := requestFrames_produced E r hdec
      (fun s' => Stopped s' ∧ s'._frameRequestIndex = 1 ∧
        presentedFrames s'.trace = presentedFrames s.trace ++ [f]) 3 _ fitFrameToViewer hS2
      (fun t hP f1 f2 hf1 _ => by
        obtain ⟨x1, x', e1, e2, e3, e4, e5⟩ := engineLoop_single_frame E r t hP.running
          hP.countdown hP.index (by rw [hP.infoFirst, hP.infoLast, hvf, hvl]) f1 f2 hf1
        refine ⟨x1, x', e1, e2, e3, e4, ?_⟩
        rw [e5, hP.presented, hP.timeline]
        show presentedFrames (s.trace ++ [Event.seek _]) ++ [clampFrame _ _ _] = _
        rw [hclamp, presentedFrames_append]
        simp [presentedFrames])
      g (g + 2) (by omega) (by omega)
    have hstart : videoEngine E (g + 2) (-1) fitFrameToViewer forward false s =
        Except.ok s1 := by
      have e1 := videoEngine_idle E (g + 1) (-1) fitFrameToViewer forward false s hidle hpost
      have e2 := computeFrameRequest_first E g forward fitFrameToViewer
        (startedEngine (-1) forward s) hviewer hout rfl rfl (by show (-1 : Int) ≠ 0; decide)
      exact (e1.trans e2).trans h1
    refine ⟨s', ?_, h5, h3, h4⟩
    unfold playback
    rw [hstart]
    exact h2
  · intro t fuel fwd fit hv ho ha hp hc hi hr hq
    refine ⟨_, computeFrameRequest_single_frame E fuel fwd fit t hv ho ha hp hc hi hr hq, ?_,
      stopEngine_working _, stopEngine_countdown _⟩
    rw [stopEngine_trace, stopEngine_trace]

/-- Witness of C23: the idle viewer of `idleEngine` (timeline at frame 5) on a sequence whose
only frame is 4: an unbounded playback presents frame 4 once and stops. -/
theorem single_frame_presented_once_sample :
    (idleEngine true)._working = false ∧ (idleEngine true)._dag._isViewer = true ∧
    (idleEngine true)._dag._inputs = [0] ∧
    singleFrameEnv.validatedFirstFrame = 4 ∧ singleFrameEnv.validatedLastFrame = 4 ∧
    6 ≤ 6 ∧
    ∃ s', playback singleFrameEnv 6 (-1) false true false (idleEngine true) = Except.ok s' ∧
      presentedFrames s'.trace = [4] ∧ s'._working = false ∧ s'._frameRequestsCount = 0 ∧
      s'._frameRequestIndex = 1 := by
  refine ⟨rfl, rfl, rfl, rfl, rfl, le_refl 6, ?_⟩
  obtain ⟨s', h1, h2, h3, h4⟩ :=
    (single_frame_presented_once singleFrameEnv 0 4 (idleEngine true) false true rfl rfl rfl
      rfl rfl rfl rfl rfl rfl (fun _ _ => rfl) rfl rfl).1 6 (le_refl 6)
  exact ⟨s', h1, h2, h3.idle, h3.countdown, h4⟩

end single_frame_proofs

section drain_proofs
set_option linter.unusedSectionVars false
variable {ν : Type} [DecidableEq ν]

/-! ### The drain of the task queue and the countdown -/

/-- A request on a viewer that is entered with the pause flag set or the countdown at 0, and
without an abort to serve: `stopEngine(); runTasks(); stopEngine();`. -/
theorem computeFrameRequest_drain (E : Env ν) (fuel : Nat)
    (sameFrame forward fit recursiveCall : Bool) (s : VideoEngine ν)
    (hv : s._dag._isViewer = true) (ha : sameFrame = true ∨ s._aborted = false)
    (hd : s._paused = true ∨ s._frameRequestsCount = 0) :
    computeFrameRequest E (fuel + 1) sameFrame forward fit recursiveCall s =
      stopRunTasksStop (runTasks (fun t st => callTask E fuel t st) fuel)
        { s with _working := true, _sameFrame := sameFrame } := by
  rw [computeFrameRequest]
  have h1 : ¬ (sameFrame = false ∧ s._aborted = true) := by
    rintro ⟨h, h'⟩
    rcases ha with ha | ha
    · rw [ha] at h
      exact Bool.noConfusion h
    · rw [ha] at h'
      exact Bool.noConfusion h'
  simp only [writerPrologue, isOutputAViewer, hv, if_true, entryCheck, if_neg h1, if_pos hd]

/-- Whatever the tasks do, the drain ends with `stopEngine()`: the engine is not working, the
countdown is 0 and both flags are clear. -/
theorem stopRunTasksStop_idle (run : VideoEngine ν → Except Fault (VideoEngine ν))
    (s s' : VideoEngine ν) (h : stopRunTasksStop run s = Except.ok s') :
    s'._working = false ∧ s'._frameRequestsCount = 0 ∧ s'._paused = false ∧
      s'._aborted = false := by
  unfold stopRunTasksStop at h
  cases hr : run (stopEngine s) with
  | error e =>
    rw [hr] at h
    exact Except.noConfusion h
  | ok s1 =>
    rw [hr] at h
    rw [← Except.ok.inj h]
    exact ⟨stopEngine_working _, stopEngine_countdown _, stopEngine_paused _,
      stopEngine_aborted _⟩

/-- A queue of one task whose execution leaves the queue empty. -/
theorem runTasks_single (call : Task ν → VideoEngine ν → Except Fault (VideoEngine ν))
    (fuel : Nat) (t : Task ν) (s s' : VideoEngine ν) (h : s._waitingTasks = [t])
    (hcall : call t { s with _waitingTasks := [] } = Except.ok s')
    (hq : s'._waitingTasks = []) :
    runTasks call (fuel + 2) s = Except.ok s' := by
  unfold runTasks
  rw [runTasksFrom, h]
  simp only [List.get?_cons_zero]
  rw [hcall]
  exact runTasksFrom_past_end call fuel 1 s' (by simp [hq])

theorem callTask_startEngine (E : Env ν) (fuel : Nat) (t : Task ν) (s : VideoEngine ν)
    (h : t._func = VengineFunction._startEngine) :
    callTask E (fuel + 1) t s =
      _startEngine E fuel t._newFrameNB t._frameCount t._initViewer t._forward t._output
        (record (Event.callTask t) s) := by
  rw [callTask, h]

/-- C21 (code bug): a recursive request on the viewer of `sampleEnv` is entered with the pause
flag set, or with the countdown at 0, no abort pending, and two deferred requests in the queue
(seeks to the frames 7 and 9, outside the range [1, 5], which return at once). The engine ends
not working, with countdown 0, both flags clear and an empty queue, but only the first deferred
request was called: `runTasks` clears the queue inside its loop, before its first call. -/
theorem drain_runs_first_task_only :
    (pausedWithTasks [seekTask 7, seekTask 9])._paused = true ∧
    (pausedWithTasks [seekTask 7, seekTask 9])._aborted = false ∧
    (computeFrameRequest sampleEnv 4 false true false true
        (pausedWithTasks [seekTask 7, seekTask 9])).toOption.map
      (fun s => (s.trace, s._waitingTasks, s._working, s._frameRequestsCount, s._paused,
        s._aborted)) =
      some ([Event.callTask (seekTask 7)], [], false, 0, false, false) ∧
    (computeFrameRequest sampleEnv 4 false true false true
        { viewerAtLastFrame true with _frameRequestsCount := 0,
                                      _waitingTasks := [seekTask 7, seekTask 9] }).toOption.map
      (fun s => (s.trace, s._waitingTasks, s._working, s._frameRequestsCount, s._paused,
        s._aborted)) =
      some ([Event.callTask (seekTask 7)], [], false, 0, false, false) := by
  refine ⟨rfl, rfl, ?_, ?_⟩
  · rw [computeFrameRequest_drain sampleEnv 3 false true false true _ rfl (Or.inr rfl)
      (Or.inl rfl)]
    decide
  · rw [computeFrameRequest_drain sampleEnv 3 false true false true _ rfl (Or.inr rfl)
      (Or.inr rfl)]
    decide

end drain_proofs

section countdown_proofs
set_option linter.unusedSectionVars false
variable {ν : Type} [DecidableEq ν]

theorem deferredSeekRequest_running : ViewerRunning sampleEnv 0 deferredSeekRequest :=
  ⟨rfl, rfl, rfl, rfl, rfl, rfl, rfl, rfl⟩

/-- The deferred seek to frame 2, called by `runTasks` on the stopped viewer: the timeline is
seeked, `videoEngine(-1, false, true)` starts a playback, frame 2 is decoded and its rows go to
the worker pool. -/
theorem callTask_deferred_seek (fuel : Nat) :
    ∃ rows, callTask sampleEnv (fuel + 5) (seekTask 2)
        { stopEngine { seekWhilePlaying with _working := true, _sameFrame := false } with
          _waitingTasks := [] } =
      Except.ok (afterDispatch 2 rows (afterCacheMiss sampleEnv 0 deferredSeekRequest)) := by
  obtain ⟨rows, hrows⟩ := computeTreeForFrame_rows sampleEnv fuel 2 false
    (afterCacheMiss sampleEnv 0 deferredSeekRequest) rfl rfl rfl rfl rfl
  refine ⟨rows, ?_⟩
  have e1 := callTask_startEngine sampleEnv (fuel + 4) (seekTask 2)
    { stopEngine { seekWhilePlaying with _working := true, _sameFrame := false } with
      _waitingTasks := [] } rfl
  have e2 := startEngine_start sampleEnv (fuel + 3) 2 (-1) false true (some 1)
    (record (Event.callTask (seekTask 2))
      { stopEngine { seekWhilePlaying with _working := true, _sameFrame := false } with
        _waitingTasks := [] }) rfl (by decide) (by decide) (by decide)
  have e3 := videoEngine_idle sampleEnv (fuel + 2) (-1) false true false
    (seek 2 (record (Event.callTask (seekTask 2))
      { stopEngine { seekWhilePlaying with _working := true, _sameFrame := false } with
        _waitingTasks := [] })) rfl rfl
  have e4 := computeFrameRequest_first sampleEnv (fuel + 1) true false
    (startedEngine (-1) true
      (seek 2 (record (Event.callTask (seekTask 2))
        { stopEngine { seekWhilePlaying with _working := true, _sameFrame := false } with
          _waitingTasks := [] }))) rfl rfl rfl rfl (by decide)
  have e5 := requestFrames_decode sampleEnv 0
    (runTasks (fun t st => callTask sampleEnv (fuel + 1) t st) (fuel + 1))
    (fun st => engineLoop sampleEnv (fuel + 1) st)
    (fun frame fit st => computeTreeForFrame sampleEnv (fuel + 1) frame fit st) false
    deferredSeekRequest (fun _ _ => rfl) deferredSeekRequest_running rfl
  exact (((e1.trans e2).trans e3).trans e4).trans (e5.trans hrows)

/-- C29 (code bug): `engineLoop` is entered with the countdown at 0 and turns it into -1. The
viewer of `sampleEnv` plays (countdown 2) when `seekRandomFrame(2)` is called: the pause flag is
set and the seek is deferred. The next request drains the queue: `stopEngine()`, then the
deferred seek starts a playback (`videoEngine(-1, ...)`) whose first frame is sent to the worker
pool, then `stopEngine()` again, which sets the countdown to 0 and `_working` to false while the
rows are in flight. When the pool completes, `finishComputeFrameRequest` and then `engineLoop`
run on that state: `engineLoop` is entered with countdown 0, decrements it to -1, and makes its
next request with countdown -1 and no flag set, so the playback goes on unbounded. -/
theorem deferred_seek_enters_engineLoop_at_zero :
    seekRandomFrame sampleEnv 1 2 (viewerAtLastFrame true) = Except.ok seekWhilePlaying ∧
    seekWhilePlaying._frameRequestsCount = 2 ∧ seekWhilePlaying._paused = true ∧
    seekWhilePlaying._waitingTasks = [seekTask 2] ∧
    ∃ s1 : VideoEngine (Fin 2),
      computeFrameRequest sampleEnv 6 false true false true seekWhilePlaying = Except.ok s1 ∧
      s1._working = false ∧ s1._frameRequestsCount = 0 ∧ s1.workerWatcherPending = true ∧
      (∀ fuel : Nat, deliverSignals sampleEnv (fuel + 3) s1 =
        match computeFrameRequest sampleEnv fuel false
            (engineLoopRequest sampleEnv (afterFillPBO s1))._forward false true
            (engineLoopRequest sampleEnv (afterFillPBO s1)) with
        | Except.error e => Except.error e
        | Except.ok s' => deliverSignals sampleEnv (fuel + 1) s') ∧
      (afterFillPBO s1)._frameRequestsCount = 0 ∧
      (engineLoopRequest sampleEnv (afterFillPBO s1))._frameRequestsCount = -1 ∧
      (engineLoopRequest sampleEnv (afterFillPBO s1))._paused = false ∧
      (engineLoopRequest sampleEnv (afterFillPBO s1))._aborted = false := by
  obtain ⟨rows, hcall⟩ := callTask_deferred_seek 0
  have hreq : computeFrameRequest sampleEnv 6 false true false true seekWhilePlaying =
      Except.ok (stopEngine
        (afterDispatch 2 rows (afterCacheMiss sampleEnv 0 deferredSeekRequest))) := by
    rw [computeFrameRequest_drain sampleEnv 5 false true false true _ rfl (Or.inr rfl)
      (Or.inl rfl)]
    unfold stopRunTasksStop
    rw [runTasks_single _ 3 (seekTask 2) _ _ rfl hcall rfl]
  have hcount : (afterFillPBO (stopEngine
      (afterDispatch 2 rows (afterCacheMiss sampleEnv 0 deferredSeekRequest)))
      )._frameRequestsCount = 0 :=
    stopEngine_countdown (afterDispatch 2 rows (afterCacheMiss sampleEnv 0 deferredSeekRequest))
  obtain ⟨ahead, heq, -⟩ := engineLoopRequest_eq sampleEnv (afterFillPBO (stopEngine
    (afterDispatch 2 rows (afterCacheMiss sampleEnv 0 deferredSeekRequest))))
  refine ⟨rfl, rfl, rfl, rfl, _, hreq, stopEngine_working _, stopEngine_countdown _, ?_, ?_,
    hcount, ?_, ?_, ?_⟩
  · rw [stopEngine_workerSignal]
    rfl
  · intro fuel
    rw [deliverSignals_dispatched sampleEnv (fuel + 1) _ rfl
      (by rw [stopEngine_workerSignal]; rfl), engineLoop_request sampleEnv fuel]
    cases computeFrameRequest sampleEnv fuel false
      (engineLoopRequest sampleEnv (afterFillPBO (stopEngine
        (afterDispatch 2 rows (afterCacheMiss sampleEnv 0 deferredSeekRequest)))))._forward
      false true
      (engineLoopRequest sampleEnv (afterFillPBO (stopEngine
        (afterDispatch 2 rows (afterCacheMiss sampleEnv 0 deferredSeekRequest))))) <;> rfl
  · rw [(engineLoopRequest_counters sampleEnv _).2.1, hcount]
    rfl
  · rw [heq]
    exact stopEngine_paused (afterDispatch 2 rows (afterCacheMiss sampleEnv 0 deferredSeekRequest))
  · rw [heq]
    exact stopEngine_aborted (afterDispatch 2 rows (afterCacheMiss sampleEnv 0 deferredSeekRequest))

end countdown_proofs

end Natron
